import Mathlib

/-!
Shallow embedding of the LLM orchestration core of this repository:
the error classifier (`classifyError`), the API key pool (`ApiKeyManager`
with its Fisher-Yates shuffled constructor), the parallel inference
executor (`executeParallel`), the single-call integration executor
(`executeIntegration`), the summarisation pre-step (`summarizeHistory`),
the deep-thought reply parser, the line-frame stream protocol and the
standard-mode orchestrator (`runStandard`).

External LLM calls are modelled by an oracle indexed by the global call
sequence number: each call either succeeds with a list of emitted text
chunks or fails with an HTTP status (non-`LlmApiError` exceptions are
folded into status 500 exactly as the wrappers do).  Loops that the
TypeScript writes as `while` are modelled with explicit fuel; a `none`
result means the fuel ran out before the loop exited.
-/

namespace Orchestration

/-- A chat message as passed to the LLM layer (`CoreMessage`): a role
string (`"user" | "assistant" | "system"`) and a content string. -/
structure CoreMessage where
  role : String
  content : String
deriving DecidableEq

/-- Per-model settings (`ModelSettings` from `lib/db`): the opaque `id`,
the provider model name, the optional free-form `role` label and the
`enabled` flag.  The numeric sampling parameters (`temperature`,
`maxTokens`) are forwarded verbatim to the external provider and never
inspected by the orchestration logic, so they are elided here. -/
structure ModelSettings where
  id : String
  modelName : String
  role : Option String := none
  enabled : Bool := true
deriving DecidableEq

/-- A single model's reply (`ModelResponse`).  `thought` is populated only
by the deep-thought (CoT) post-processing. -/
structure ModelResponse where
  model : String
  provider : String
  content : String
  thought : Option String := none
deriving DecidableEq

/-- The custom API error (`LlmApiError`): HTTP status, the key that was
used, and optionally the model name. -/
structure LlmApiError where
  message : String := ""
  status : Nat
  apiKeyUsed : String
  modelName : Option String := none
deriving DecidableEq

/-- Result of `classifyError`: `isPermanent` (retrying is pointless for
this (key, model) pair), `removeKey` (evict the key from the pool) and
`removeModel` (drop the model task). -/
structure ErrorClass where
  isPermanent : Bool
  removeKey : Bool
  removeModel : Bool
deriving DecidableEq

/-- `classifyError` from `api-key-manager` / `integrator-executor`:
401/403 evict the key; 404 drops the model; any other 4xx except 429
drops the model; everything else (429, 5xx, network-mapped 500, and any
status below 400) is transient. -/
def classifyError (error : LlmApiError) : ErrorClass :=
  let status := error.status
  if status = 401 ∨ status = 403 then ⟨true, true, false⟩
  else if status = 404 then ⟨true, false, true⟩
  else if 400 ≤ status ∧ status < 500 ∧ status ≠ 429 then ⟨true, false, true⟩
  else ⟨false, false, false⟩

/-- Modelled from the spec (§4.3 table): the row-by-row classifier table,
used only to compare against the implementation's `classifyError`. -/
def specClassifierTable (status : Nat) : ErrorClass :=
  if status = 401 ∨ status = 403 then ⟨true, true, false⟩
  else if status = 404 then ⟨true, false, true⟩
  else if 400 ≤ status ∧ status < 500 ∧ status ≠ 429 then ⟨true, false, true⟩
  else ⟨false, false, false⟩

/-- The per-request API key pool (`ApiKeyManager`): the list of available
keys and the rotating cursor. -/
structure ApiKeyManager where
  availableKeys : List String
  currentIndex : Nat
deriving DecidableEq

/-- `keyCount` getter. -/
def ApiKeyManager.keyCount (m : ApiKeyManager) : Nat :=
  m.availableKeys.length

/-- `getNextKey`: return the key at the cursor and advance the cursor
modulo the pool length.  On an empty pool the TypeScript throws (lib
version) or returns null; both are modelled as `none`. -/
def ApiKeyManager.getNextKey (m : ApiKeyManager) : Option String × ApiKeyManager :=
  if m.availableKeys.length = 0 then (none, m)
  else
    (some (m.availableKeys.getD m.currentIndex ""),
     { m with currentIndex := (m.currentIndex + 1) % m.availableKeys.length })

/-- `removeKey`: filter out every occurrence of the key; when something
was removed, clamp the cursor by `currentIndex % (length || 1)`. -/
def ApiKeyManager.removeKey (m : ApiKeyManager) (keyToRemove : String) : ApiKeyManager :=
  if (m.availableKeys.filter (fun key => key ≠ keyToRemove)).length < m.availableKeys.length then
    { availableKeys := m.availableKeys.filter (fun key => key ≠ keyToRemove),
      currentIndex := m.currentIndex %
        (if (m.availableKeys.filter (fun key => key ≠ keyToRemove)).length = 0 then 1
         else (m.availableKeys.filter (fun key => key ≠ keyToRemove)).length) }
  else m

/-- One swap of the Fisher-Yates loop body:
`[arr[i], arr[j]] = [arr[j], arr[i]]`. -/
def listSwap {α : Type} (l : List α) (i j : Nat) : List α :=
  match l.get? i, l.get? j with
  | some a, some b => (l.set i b).set j a
  | _, _ => l

/-- The Fisher-Yates loop, counting `i` down from `length - 1` to `1`.
The random draws `Math.floor(Math.random() * (i + 1))` are supplied as an
explicit tape `js`; each draw is brought into range `[0, i]` by reduction
modulo `i + 1`.  A tape shorter than the loop simply stops early (every
actual execution corresponds to a full-length tape). -/
def fisherYatesAux {α : Type} : List α → Nat → List Nat → List α
  | l, 0, _ => l
  | l, _ + 1, [] => l
  | l, i + 1, j :: rest => fisherYatesAux (listSwap l (i + 1) (j % (i + 2))) i rest

/-- The shuffled copy made by the `ApiKeyManager` constructor. -/
def fisherYates {α : Type} (l : List α) (js : List Nat) : List α :=
  fisherYatesAux l (l.length - 1) js

/-- The `ApiKeyManager` constructor: fails (throws) on an empty key list,
otherwise starts with the shuffled copy and cursor 0. -/
def mkApiKeyManager (keys : List String) (js : List Nat) : Option ApiKeyManager :=
  if keys.isEmpty then none
  else some { availableKeys := fisherYates keys js, currentIndex := 0 }

/-- An observable operation on the pool, for stating pool invariants over
whole requests. -/
inductive PoolOp
  | next
  | evict (k : String)

/-- Apply one pool operation; `next` also reports the key it returned. -/
def applyPoolOp (m : ApiKeyManager) : PoolOp → ApiKeyManager × Option String
  | .next => ((m.getNextKey).2, (m.getNextKey).1)
  | .evict k => (m.removeKey k, none)

/-- The trace of states and `next()` outputs along a sequence of pool
operations. -/
def poolTrace (m : ApiKeyManager) : List PoolOp → List (ApiKeyManager × Option String)
  | [] => []
  | op :: rest => applyPoolOp m op :: poolTrace (applyPoolOp m op).1 rest

/-- Status of a parallel task. -/
inductive TaskStatus
  | pending
  | fulfilled
  | failed
deriving DecidableEq

/-- A parallel execution task (`ParallelTask` in `parallel-executor`).
A task skipped for empty messages keeps `messages = []`. -/
structure ParallelTask where
  modelSettings : ModelSettings
  messages : List CoreMessage
  status : TaskStatus
  result : Option ModelResponse
  attempts : Nat
  maxAttempts : Nat
deriving DecidableEq

/-- Fallback task value for out-of-range index reads (never reached on
indices produced by the executor itself). -/
def defaultTask : ParallelTask :=
  ⟨⟨"", "", none, true⟩, [], .failed, none, 0, 0⟩

/-- The `messages` argument of `executeParallel`: either one shared
message list or a per-model-id map (modelled as an association list). -/
inductive ParMessages
  | shared (msgs : List CoreMessage)
  | perModel (entries : List (String × List CoreMessage))

/-- `messages instanceof Map ? messages.get(model.id) || [] : messages`. -/
def lookupMessages : ParMessages → ModelSettings → List CoreMessage
  | .shared msgs, _ => msgs
  | .perModel entries, model => (entries.lookup model.id).getD []

/-- Task initialisation (`modelsToRun.map(...)`): a model whose messages
are empty is pre-marked failed with a zero budget; otherwise the task is
pending with `maxAttempts = max(keyCount, MIN_RETRY_ATTEMPTS = 3)`. -/
def initTask (keyCount : Nat) (messages : ParMessages) (model : ModelSettings) : ParallelTask :=
  let modelMessages := lookupMessages messages model
  if modelMessages.length = 0 then
    { modelSettings := model, messages := [], status := .failed, result := none,
      attempts := 0, maxAttempts := 0 }
  else
    { modelSettings := model, messages := modelMessages, status := .pending, result := none,
      attempts := 0, maxAttempts := Nat.max keyCount 3 }

/-- Decidable equality for call outcomes. -/
instance {ε α : Type} [DecidableEq ε] [DecidableEq α] : DecidableEq (Except ε α) := fun x y =>
  match x, y with
  | .ok a, .ok b =>
    if h : a = b then .isTrue (by rw [h]) else .isFalse (by simp [h])
  | .error a, .error b =>
    if h : a = b then .isTrue (by rw [h]) else .isFalse (by simp [h])
  | .ok _, .error _ => .isFalse (by simp)
  | .error _, .ok _ => .isFalse (by simp)

/-- One upstream call as recorded by the model: which task, which key,
which model name, and the outcome (`.ok content` or `.error status`). -/
structure CallRec where
  taskIdx : Nat
  key : String
  modelName : String
  outcome : Except Nat String
deriving DecidableEq

/-- The oracle for buffered calls: outcome of the `n`-th upstream call of
the request. -/
def BufferedOracle : Type := Nat → Except Nat String

/-- Mutable state threaded through `executeParallel`. -/
structure ParState where
  tasks : List ParallelTask
  pool : ApiKeyManager
  calls : Nat
  callLog : List CallRec
  lastApiError : Option LlmApiError
deriving DecidableEq

/-- Update the task at index `i` (no-op when out of range, mirroring that
the executor only touches indices of existing tasks). -/
def updTask (tasks : List ParallelTask) (i : Nat) (f : ParallelTask → ParallelTask) :
    List ParallelTask :=
  match tasks[i]? with
  | some t => tasks.set i (f t)
  | none => tasks

/-- ` (${task.modelSettings.role})` suffix appended to the display name
when the model carries a role. -/
def roleSuffix (model : ModelSettings) : String :=
  match model.role with
  | some r => " (" ++ r ++ ")"
  | none => ""

/-- Launching one pending task inside a round: `task.attempts++`, acquire
the next key, perform the call, record it.  Returns the updated state and
the round record `(taskIdx, key, outcome)`. -/
def launchOne (oracle : BufferedOracle) (st : ParState) (idx : Nat) :
    ParState × (Nat × String × Except Nat String) :=
  let tasks' := updTask st.tasks idx (fun t => { t with attempts := t.attempts + 1 })
  let key := ((st.pool.getNextKey).1).getD ""
  let task := tasks'.getD idx defaultTask
  let outcome := oracle st.calls
  ({ st with
      tasks := tasks'
      pool := (st.pool.getNextKey).2
      calls := st.calls + 1
      callLog := st.callLog ++ [⟨idx, key, task.modelSettings.modelName, outcome⟩] },
   (idx, key, outcome))

/-- One fold step of the launch phase. -/
def launchStep (oracle : BufferedOracle)
    (acc : ParState × List (Nat × String × Except Nat String)) (idx : Nat) :
    ParState × List (Nat × String × Except Nat String) :=
  ((launchOne oracle acc.1 idx).1, acc.2 ++ [(launchOne oracle acc.1 idx).2])

/-- The launch phase of one round: every pending task, in order. -/
def launchRound (oracle : BufferedOracle) (st : ParState) (pending : List Nat) :
    ParState × List (Nat × String × Except Nat String) :=
  pending.foldl (launchStep oracle) (st, [])

/-- Key eviction plus budget recomputation: `apiKeyManager.removeKey(...)`
followed by raising every still-pending task's `maxAttempts` to
`max(maxAttempts, attempts + remainingKeys)`. -/
def evictRecompute (st : ParState) (key : String) : ParState :=
  let pool' := st.pool.removeKey key
  let remaining := pool'.keyCount
  { st with
      pool := pool'
      tasks := st.tasks.map (fun t =>
        if t.status = .pending then
          { t with maxAttempts := Nat.max t.maxAttempts (t.attempts + remaining) }
        else t) }

/-- The `LlmApiError` recorded for a failed parallel call. -/
def failureError (st : ParState) (idx : Nat) (key : String) (status : Nat) : LlmApiError :=
  ⟨"", status, key, some (st.tasks.getD idx defaultTask).modelSettings.modelName⟩

/-- The failure half of step 2b: record the `LlmApiError`, classify it,
possibly evict the key and recompute every pending budget, and then
either drop the model, requeue the task, or mark it failed on budget
exhaustion. -/
def applyFailure (st : ParState) (nextPending : List Nat) (idx : Nat) (key : String)
    (status : Nat) : ParState × List Nat :=
  let error : LlmApiError := failureError st idx key status
  let st1 : ParState := { st with lastApiError := some error }
  let cls := classifyError error
  let st2 := if cls.removeKey then evictRecompute st1 key else st1
  let task := st2.tasks.getD idx defaultTask
  if cls.isPermanent ∧ cls.removeModel then
    ({ st2 with tasks := updTask st2.tasks idx (fun t => { t with status := .failed }) },
     nextPending)
  else if task.attempts < task.maxAttempts then
    (st2, nextPending ++ [idx])
  else
    ({ st2 with tasks := updTask st2.tasks idx (fun t => { t with status := .failed }) },
     nextPending)

/-- Processing one settled outcome (`for` body of step 2b): success marks
the task fulfilled (even for empty content); a failure goes through
`applyFailure`. -/
def processOne (st : ParState) (nextPending : List Nat)
    (r : Nat × String × Except Nat String) : ParState × List Nat :=
  match r.2.2 with
  | .ok content =>
    ({ st with
        tasks := updTask st.tasks r.1 (fun t =>
          { t with
              status := .fulfilled
              result := some
                { model := t.modelSettings.modelName ++ roleSuffix t.modelSettings,
                  provider := "cerebras", content := content } }) },
     nextPending)
  | .error status => applyFailure st nextPending r.1 r.2.1 status

/-- One fold step of the classification phase. -/
def processStep (acc : ParState × List Nat) (r : Nat × String × Except Nat String) :
    ParState × List Nat :=
  processOne acc.1 acc.2 r

/-- One full round: launch all pending tasks, then classify all
outcomes in order, producing the next pending list. -/
def runRound (oracle : BufferedOracle) (st : ParState) (pending : List Nat) :
    ParState × List Nat :=
  (launchRound oracle st pending).2.foldl processStep ((launchRound oracle st pending).1, [])

/-- The retry loop (`while (pendingTasks.length > 0)`), with explicit
fuel.  Returns the final state together with the task-array snapshots
taken after each executed round. -/
def parLoop (oracle : BufferedOracle) :
    Nat → ParState → List Nat → Option (ParState × List (List ParallelTask))
  | fuel, st, pending =>
    if pending.isEmpty then some (st, [])
    else if st.pool.keyCount = 0 then some (st, [])
    else
      match fuel with
      | 0 => none
      | fuel' + 1 =>
        match parLoop oracle fuel' (runRound oracle st pending).1 (runRound oracle st pending).2 with
        | none => none
        | some (stF, snaps) => some (stF, (runRound oracle st pending).1.tasks :: snaps)

/-- The all-failed error thrown by `executeParallel`, carrying the last
API error observed. -/
structure AllFailed where
  lastApiError : Option LlmApiError
deriving DecidableEq

/-- Extract the successful replies, in task (= input) order:
`modelTasks.filter(t => t.status === "fulfilled" && t.result).map(t => t.result!)`. -/
def collectValid (tasks : List ParallelTask) : List ModelResponse :=
  tasks.filterMap (fun t =>
    if t.status = .fulfilled then t.result else none)

/-- `executeParallel`: build the tasks, run the retry loop, and either
return the successful replies in input order or throw `AllFailed`.
Also returns the final state and the initial-plus-per-round task
snapshots. -/
def executeParallel (oracle : BufferedOracle) (fuel : Nat) (pool : ApiKeyManager)
    (modelsToRun : List ModelSettings) (messages : ParMessages) (startCalls : Nat) :
    Option (Except AllFailed (List ModelResponse) × ParState × List (List ParallelTask)) :=
  let tasks := modelsToRun.map (initTask pool.keyCount messages)
  let pending := (List.range tasks.length).filter
    (fun i => (tasks.getD i defaultTask).status = .pending)
  let st0 : ParState := ⟨tasks, pool, startCalls, [], none⟩
  match parLoop oracle fuel st0 pending with
  | none => none
  | some (st, snaps) =>
    let valid := collectValid st.tasks
    if valid.isEmpty then some (.error ⟨st.lastApiError⟩, st, st0.tasks :: snaps)
    else some (.ok valid, st, st0.tasks :: snaps)

/-- Outcome of one upstream streaming call: the text chunks the provider
delivered before completing or failing, and `err = some status` when the
call ended in an error after those chunks (a failure before the first
token has `chunks = []`).  A buffered call behaves identically except
that nothing is forwarded to the stream. -/
structure StreamOutcome where
  chunks : List String
  err : Option Nat
deriving DecidableEq

/-- The request-global oracle: outcome of the `n`-th upstream call. -/
def StreamOracle : Type := Nat → StreamOutcome

/-- View a call outcome as the buffered API sees it: the accumulated text
on success, the thrown status on failure (partial text is discarded). -/
def toBuffered (o : StreamOutcome) : Except Nat String :=
  match o.err with
  | some status => .error status
  | none => .ok (String.join o.chunks)

/-- One frame of the line protocol (`StreamProtocol`), kept structural:
`STATUS:STEP:`, `DATA:`, `MODEL_RESPONSES:`, `SUMMARY_EXECUTED:`,
`ERROR:`. -/
inductive Frame
  | status (stepName : String)
  | data (chunk : String)
  | responses (rs : List ModelResponse)
  | summary (msgs : List CoreMessage)
  | error (message : String)
deriving DecidableEq

/-- Concatenation of the bodies of all `DATA` frames, in emission
order. -/
def dataConcat (frames : List Frame) : String :=
  String.join (frames.filterMap (fun f =>
    match f with
    | .data c => some c
    | _ => none))

/-- Mutable state of `executeIntegration`: the pool, the attempt counter
and budget, the last API error, plus bookkeeping (global call counter,
call log, the `DATA` frames written to the stream controller, and the
total text emitted by attempts that subsequently failed). -/
structure IntegState where
  pool : ApiKeyManager
  attempts : Nat
  maxAttempts : Nat
  lastApiError : Option LlmApiError
  calls : Nat
  callLog : List CallRec
  frames : List Frame
  failedEmitted : String
deriving DecidableEq

/-- One attempt of the `executeIntegration` retry loop:
`attempts++`, acquire the next key, perform the (streaming or buffered)
call; a success returns the accumulated text, a failure records the
`LlmApiError` and, when classified permanent-and-evicting (401/403),
removes the key and raises the budget to
`max(maxAttempts, attempts + remainingKeys)`. -/
def integAttempt (oracle : StreamOracle) (streaming : Bool) (modelSettings : ModelSettings)
    (st : IntegState) : Option String × IntegState :=
  let st1 := { st with attempts := st.attempts + 1 }
  let key := (st1.pool.getNextKey).1.getD ""
  let pool' := (st1.pool.getNextKey).2
  let out := oracle st1.calls
  let emittedText := String.join out.chunks
  let st2 := { st1 with
    pool := pool'
    calls := st1.calls + 1
    callLog := st1.callLog ++ [⟨0, key, modelSettings.modelName, toBuffered out⟩]
    frames := st1.frames ++ (if streaming then out.chunks.map Frame.data else []) }
  match out.err with
  | none => (some emittedText, st2)
  | some status =>
    let error : LlmApiError :=
      { message := "", status := status, apiKeyUsed := key,
        modelName := some modelSettings.modelName }
    let st3 := { st2 with
      lastApiError := some error
      failedEmitted := st2.failedEmitted ++ (if streaming then emittedText else "") }
    let cls := classifyError error
    if cls.isPermanent ∧ cls.removeKey then
      let pool'' := st3.pool.removeKey key
      (none, { st3 with
                 pool := pool''
                 maxAttempts := Nat.max st3.maxAttempts (st3.attempts + pool''.keyCount) })
    else (none, st3)

/-- The retry loop of `executeIntegration` (`while (attempts <
maxAttempts)` with the empty-pool break): a success returns the full
text; every error — including permanent model errors such as 404 — is
retried while the budget lasts. -/
def integLoop (oracle : StreamOracle) (streaming : Bool) (modelSettings : ModelSettings) :
    Nat → IntegState → Option (Option String × IntegState)
  | fuel, st =>
    if ¬ st.attempts < st.maxAttempts then some (none, st)
    else if st.pool.keyCount = 0 then some (none, st)
    else
      match fuel with
      | 0 => none
      | fuel' + 1 =>
        match integAttempt oracle streaming modelSettings st with
        | (some text, st2) => some (some text, st2)
        | (none, st4) => integLoop oracle streaming modelSettings fuel' st4

/-- The integration-failed error (`統合モデルの呼び出しに失敗しました`),
carrying the last API error as its cause. -/
structure IntegrationFailed where
  cause : Option LlmApiError
deriving DecidableEq

/-- `executeIntegration`: a single logical call with retry; streaming
when a stream controller is provided.  `messages` is the prompt, which
is forwarded to the provider (and therefore not inspected by the loop
itself). -/
def executeIntegration (oracle : StreamOracle) (fuel : Nat) (pool : ApiKeyManager)
    (messages : List CoreMessage) (modelSettings : ModelSettings) (streaming : Bool)
    (startCalls : Nat) : Option (Except IntegrationFailed String × IntegState) :=
  let _ := messages
  let st0 : IntegState :=
    ⟨pool, 0, Nat.max pool.keyCount 3, none, startCalls, [], [], ""⟩
  match integLoop oracle streaming modelSettings fuel st0 with
  | none => none
  | some (some text, st) => some (.ok text, st)
  | some (none, st) => some (.error ⟨st.lastApiError⟩, st)

/-- The shared execution context threaded through the agent steps
(`AgentContext`), restricted to the fields the modelled steps read or
write.  `appSettings` is split into its two model slots. -/
structure AgentContext where
  apiKeyManager : ApiKeyManager
  llmMessages : List CoreMessage
  enabledModels : List ModelSettings
  summarizerModel : Option ModelSettings
  integratorModel : Option ModelSettings
  totalContentLength : Nat
  parallelResponses : List ModelResponse
  finalContent : String
  summaryExecuted : Bool
  newHistoryContext : Option (List CoreMessage)
  finalContentStreamed : Bool
  modelResponses : Option (List ModelResponse)
deriving DecidableEq

/-- `CONVERSATION_THRESHOLD` (message-count threshold for
summarisation). -/
def CONVERSATION_THRESHOLD : Nat := 10

/-- `CONTENT_LENGTH_THRESHOLD` (total character count threshold for
summarisation). -/
def CONTENT_LENGTH_THRESHOLD : Nat := 30000

/-- The compression instruction appended to the history to be
summarised. -/
def summaryInstruction : CoreMessage :=
  ⟨"user",
   "（指示）上記の会話履歴全体を、重要な文脈を失わないように、第三者視点で詳細な要約に圧縮してください。"⟩

/-- `summaryPromptMessages`: everything except the final user message,
followed by the compression instruction. -/
def summaryPrompt (llmMessages : List CoreMessage) : List CoreMessage :=
  llmMessages.dropLast ++ [summaryInstruction]

/-- The summariser model settings actually passed to the integration
executor (`{...appSettings.summarizerModel, id: "summarizer", enabled:
true}`). -/
def summarizerSettings (sm : ModelSettings) : ModelSettings :=
  { sm with id := "summarizer", enabled := true }

/-- `summarizeHistory` (step-function `00-summarize`): when a summariser
model is configured and either threshold is exceeded, compress the
history through a buffered integration call; on success replace
`llmMessages` by the synthetic summary message plus the last user
message; on failure, or when not triggered, pass the history through
unchanged with `summaryExecuted = false`.  Returns the updated context
and the next global call number. -/
def summarizeHistory (oracle : StreamOracle) (fuel : Nat) (ctx : AgentContext)
    (startCalls : Nat) : Option (AgentContext × Nat) :=
  let isTooLongByCount := ctx.llmMessages.length > CONVERSATION_THRESHOLD
  let isTooLongByLength := ctx.totalContentLength > CONTENT_LENGTH_THRESHOLD
  match ctx.summarizerModel with
  | none => some ({ ctx with summaryExecuted := false, newHistoryContext := none }, startCalls)
  | some sm =>
    if ¬ isTooLongByCount ∧ ¬ isTooLongByLength then
      some ({ ctx with summaryExecuted := false, newHistoryContext := none }, startCalls)
    else
      let lastUserMessage := ctx.llmMessages.getLastD ⟨"user", ""⟩
      match executeIntegration oracle fuel ctx.apiKeyManager
          (summaryPrompt ctx.llmMessages) (summarizerSettings sm) false startCalls with
      | none => none
      | some (.ok summaryContent, st) =>
        let summaryMessage : CoreMessage :=
          ⟨"system", "[以前の会話の要約]\n" ++ summaryContent⟩
        some ({ ctx with
                  apiKeyManager := st.pool
                  llmMessages := [summaryMessage, lastUserMessage]
                  summaryExecuted := true
                  newHistoryContext := some [summaryMessage] }, st.calls)
      | some (.error _, st) =>
        some ({ ctx with
                  apiKeyManager := st.pool
                  summaryExecuted := false
                  newHistoryContext := none }, st.calls)

/-- Find the first occurrence of `pat` in a character list: returns the
text before the occurrence and the text after it.  `none` when `pat`
does not occur.  This is the matching discipline of the source's
regexes: the earliest match position wins. -/
def splitFirst (pat : List Char) : List Char → Option (List Char × List Char)
  | [] => if pat.isEmpty then some ([], []) else none
  | c :: rest =>
    if pat.isPrefixOf (c :: rest) then some ([], (c :: rest).drop pat.length)
    else (splitFirst pat rest).map (fun p => (c :: p.1, p.2))

/-- `String.prototype.trim()` on a character list (ASCII whitespace,
which covers every input the claims exercise). -/
def trimChars (l : List Char) : List Char :=
  ((l.dropWhile Char.isWhitespace).reverse.dropWhile Char.isWhitespace).reverse

/-- The `[思考]` opening tag. -/
def thoughtOpenTag : List Char := "[思考]".toList

/-- The `[/思考]` closing tag. -/
def thoughtCloseTag : List Char := "[/思考]".toList

/-- The `[最終回答]` final-answer tag. -/
def answerTag : List Char := "[最終回答]".toList

/-- The fixed marker stored when no thought group can be extracted
(rendered in the spec as "(extraction failed)"). -/
def extractionFailedMarker : String := "（思考の抽出に失敗）"

/-- The thought extraction of `executeDeepThought`
(`/\[思考\]([\s\S]*?)\[\/思考\]/`): the first lazily matched group,
trimmed, or the fixed failure marker when the regex does not match. -/
def parseThought (cs : List Char) : String :=
  match splitFirst thoughtOpenTag cs with
  | some (_, rest) =>
    match splitFirst thoughtCloseTag rest with
    | some (grp, _) => String.mk (trimChars grp)
    | none => extractionFailedMarker
  | none => extractionFailedMarker

/-- The answer extraction of `executeDeepThought`
(`/\[最終回答\]([\s\S]*)/`): everything after the first answer tag,
trimmed, or the whole raw reply when the tag is absent. -/
def parseAnswer (content : String) : String :=
  match splitFirst answerTag content.toList with
  | some (_, rest) => String.mk (trimChars rest)
  | none => content

/-- The deep-thought reply parser of `executeDeepThought`:
`thought` is the first `[思考]…[/思考]` group (lazy, trimmed) or the
fixed failure marker; `content` is everything after the first
`[最終回答]` to the end of the string (trimmed), or the whole raw reply
when the answer tag is absent. -/
def parseDeepThought (content : String) : String × String :=
  (parseThought content.toList, parseAnswer content)

/-- The post-processing map of `executeDeepThought` over the raw
parallel replies. -/
def deepThoughtPost (rawResponses : List ModelResponse) : List ModelResponse :=
  rawResponses.map (fun res =>
    let p := parseDeepThought res.content
    { res with content := p.2, thought := some p.1 })

/-- The numbered reply listing of the standard integration prompt. -/
def numberedReplies (responses : List ModelResponse) : String :=
  String.intercalate "\n\n"
    (responses.enum.map (fun p =>
      "[モデル" ++ toString (p.1 + 1) ++ ": " ++ p.2.model ++ "]\n" ++ p.2.content))

/-- The integration prompt of `integrateStandard`: the history without
its last message, then a user message quoting the last question (first
50 characters) and listing every reply. -/
def integrationPromptStandard (llmMessages : List CoreMessage)
    (responses : List ModelResponse) : List CoreMessage :=
  llmMessages.dropLast ++
  [⟨"user",
    "（会話履歴はここまで）\n\n上記の会話の最後の質問（\"" ++
    ((llmMessages.getLast?.map (fun m => m.content.take 50)).getD "") ++
    "...\"）に対して、複数のAIモデルが以下のように応答しました。\n\n" ++
    numberedReplies responses ++
    "\n\n--- 統合指示 ---\nこれらの応答をすべてレビューし、会話履歴の文脈を踏まえた上で、最も適切で包括的な「最終回答」を単一の回答として生成してください。レビューはあなた自身の思考として内部処理し、最終的な回答をあなた自身の言葉として出力してください。"⟩]

/-- `${lastApiError?.message || "不明なエラー"}`. -/
def causeMessage (cause : Option LlmApiError) : String :=
  match cause with
  | some err => if err.message = "" then "不明なエラー" else err.message
  | none => "不明なエラー"

/-- The message of the error thrown when `executeParallel` has no
successful reply. -/
def allFailedMessage (e : AllFailed) : String :=
  "全ての並列推論モデルが失敗しました: " ++ causeMessage e.lastApiError

/-- The message of the error thrown when `executeIntegration` exhausts
its budget. -/
def integrationFailedMessage (e : IntegrationFailed) : String :=
  "統合モデルの呼び出しに失敗しました: " ++ causeMessage e.cause

/-- Step `EXECUTE_STANDARD` (`executeStandard`): guard against an empty
model list, then fan out over all enabled models with the shared
history.  `.error` is the message of the exception the step throws. -/
def executeStandardStep (oracle : StreamOracle) (fuel : Nat) (ctx : AgentContext)
    (startCalls : Nat) : Option (Except String AgentContext × Nat) :=
  if ctx.enabledModels.length = 0 then
    some (.error "有効化された推論モデルがありません。", startCalls)
  else
    match executeParallel (fun n => toBuffered (oracle n)) fuel ctx.apiKeyManager
        ctx.enabledModels (.shared ctx.llmMessages) startCalls with
    | none => none
    | some (.ok responses, st, _) =>
      some (.ok { ctx with apiKeyManager := st.pool, parallelResponses := responses }, st.calls)
    | some (.error e, st, _) =>
      some (.error (allFailedMessage e), st.calls)

/-- The integrator model settings actually passed to the integration
executor (`{...appSettings.integratorModel, id: "integrator", enabled:
true}`). -/
def integratorSettings (im : ModelSettings) : ModelSettings :=
  { im with id := "integrator", enabled := true }

/-- Step `INTEGRATE_STANDARD` (`integrateStandard`): with a single reply,
stream it as one `DATA` frame and mark it streamed; with several,
run the streaming integration executor.  Returns the step outcome, the
`DATA` frames the step wrote to the stream (which stay on the wire even
when the step then throws), the text emitted by failed streaming
attempts, and the next call number. -/
def integrateStandard (oracle : StreamOracle) (fuel : Nat) (ctx : AgentContext)
    (startCalls : Nat) :
    Option (Except String AgentContext × List Frame × String × Nat) :=
  match ctx.integratorModel with
  | none => some (.error "統合モデルが設定されていません。", [], "", startCalls)
  | some im =>
    if ctx.parallelResponses.length = 0 then
      some (.error "統合対象の並列応答がありません。", [], "", startCalls)
    else if ctx.parallelResponses.length = 1 then
      let singleResponse := ctx.parallelResponses.getD 0 ⟨"", "", "", none⟩
      some (.ok { ctx with
                    finalContentStreamed := true
                    finalContent := singleResponse.content
                    modelResponses := some ctx.parallelResponses },
            [Frame.data singleResponse.content], "", startCalls)
    else
      match executeIntegration oracle fuel ctx.apiKeyManager
          (integrationPromptStandard ctx.llmMessages ctx.parallelResponses)
          (integratorSettings im) true startCalls with
      | none => none
      | some (.ok finalContent, st) =>
        some (.ok { ctx with
                      apiKeyManager := st.pool
                      finalContent := finalContent
                      modelResponses := some ctx.parallelResponses
                      finalContentStreamed := true },
              st.frames, st.failedEmitted, st.calls)
      | some (.error e, st) =>
        some (.error (integrationFailedMessage e), st.frames, st.failedEmitted, st.calls)

/-- Result of one request through the standard-mode orchestrator: the
frames on the wire, the outcome (`.error` when the orchestrator caught a
step exception and closed with an `ERROR` frame), and the total text
emitted by streaming attempts that later failed. -/
structure RunResult where
  frames : List Frame
  outcome : Except String AgentContext
  failedStreamText : String
deriving DecidableEq

/-- The part of the POST handler after the summarisation pre-step: the
two steps with their `STATUS` frames, the buffered final `DATA`
fallback, and the closing `MODEL_RESPONSES` / `ERROR` frame.
`frames1` is everything already on the wire. -/
def runStandardTail (oracle : StreamOracle) (fuel : Nat) (frames1 : List Frame)
    (ctx2 : AgentContext) (c1 : Nat) : Option RunResult :=
  match executeStandardStep oracle fuel ctx2 c1 with
  | none => none
  | some (.error msg, _) => some ⟨frames1 ++ [Frame.error msg], .error msg, ""⟩
  | some (.ok ctx3, c2) =>
    let frames2 := frames1 ++ [Frame.status "INTEGRATE_STANDARD"]
    match integrateStandard oracle fuel ctx3 c2 with
    | none => none
    | some (.error msg, fs, failedText, _) =>
      some ⟨frames2 ++ fs ++ [Frame.error msg], .error msg, failedText⟩
    | some (.ok ctx4, fs, failedText, _) =>
      let frames3 := frames2 ++ fs
      let frames4 :=
        if ¬ ctx4.finalContentStreamed ∧ ctx4.finalContent ≠ "" then
          frames3 ++ [Frame.data ctx4.finalContent]
        else frames3
      let frames5 := frames4 ++ [Frame.responses (ctx4.modelResponses.getD ctx4.parallelResponses)]
      some ⟨frames5, .ok ctx4, failedText⟩

/-- The POST handler restricted to the `standard` agent: summarisation
pre-step (plus `SUMMARY_EXECUTED` frame), system-prompt prepend, then
the two steps with their `STATUS` frames, the buffered final `DATA`
fallback, and the closing `MODEL_RESPONSES` / `ERROR` frame (split into
`runStandardTail` after the pre-step). -/
def runStandard (oracle : StreamOracle) (fuel : Nat) (ctx0 : AgentContext)
    (systemPrompt : Option String) : Option RunResult :=
  match summarizeHistory oracle fuel ctx0 0 with
  | none => none
  | some (ctx1, c1) =>
    let frames0 :=
      if ctx1.summaryExecuted then [Frame.summary (ctx1.newHistoryContext.getD [])] else []
    let ctx2 :=
      match systemPrompt with
      | some sp =>
        if sp.trim ≠ "" then { ctx1 with llmMessages := ⟨"system", sp⟩ :: ctx1.llmMessages }
        else ctx1
      | none => ctx1
    runStandardTail oracle fuel (frames0 ++ [Frame.status "EXECUTE_STANDARD"]) ctx2 c1

/-- The cursor invariant (spec invariant 5): the cursor is in range
whenever the pool is non-empty. -/
def cursorOk (m : ApiKeyManager) : Prop :=
  m.availableKeys = [] ∨ m.currentIndex < m.availableKeys.length

/-- Per-task evolution along the run: the identity fields are preserved
and the counters never decrease. -/
def taskEvolve (t t' : ParallelTask) : Prop :=
  t'.modelSettings = t.modelSettings ∧ t'.messages = t.messages ∧
  t.maxAttempts ≤ t'.maxAttempts ∧ t.attempts ≤ t'.attempts

/-- Pointwise evolution of whole task arrays (with length preserved). -/
def tasksEvolve (ts ts' : List ParallelTask) : Prop :=
  ts.length = ts'.length ∧
  ∀ (i : Nat) (t t' : ParallelTask), ts[i]? = some t → ts'[i]? = some t' → taskEvolve t t'

/-- Every fulfilled task carries a result (the executor sets both
together). -/
def resOkTasks (ts : List ParallelTask) : Prop :=
  ∀ (i : Nat) (t : ParallelTask), ts[i]? = some t →
    t.status = .fulfilled → t.result.isSome = true

/-- The C10 loop invariant: the pending list is duplicate-free and lists
only pending-status tasks, every call of a not-yet-fulfilled task failed,
every task is pre-marked failed / already attempted / still queued, and
once the pool is empty every queued task has attempted at least once. -/
def c10Inv (st : ParState) (pending : List Nat) : Prop :=
  pending.Nodup ∧
  (∀ i ∈ pending, ∃ t : ParallelTask, st.tasks[i]? = some t ∧ t.status = .pending) ∧
  (∀ (i : Nat) (t : ParallelTask), st.tasks[i]? = some t → ¬ t.status = .fulfilled →
     ∀ r ∈ st.callLog, r.taskIdx = i → ∃ s, r.outcome = .error s) ∧
  (∀ (i : Nat) (t : ParallelTask), st.tasks[i]? = some t →
     (t.messages = [] ∧ t.status = .failed ∧ t.attempts = 0) ∨ 1 ≤ t.attempts ∨
     (t.status = .pending ∧ i ∈ pending)) ∧
  (0 < st.pool.keyCount ∨
   ∀ i ∈ pending, ∀ t : ParallelTask, st.tasks[i]? = some t → 1 ≤ t.attempts)

/-! ### Concrete scenario fixtures

Small concrete pools, model settings, messages and oracles used by the
witnesses and counterexamples below. -/

/-- A one-key pool. -/
def fxPool1 : ApiKeyManager := ⟨["k1"], 0⟩

/-- A two-key pool (a bad key followed by a good one). -/
def fxPoolBadOk : ApiKeyManager := ⟨["kbad", "kok"], 0⟩

/-- An empty pool (reachable mid-request once every key was evicted). -/
def fxPoolEmpty : ApiKeyManager := ⟨[], 0⟩

/-- Inference model A. -/
def fxSpecA : ModelSettings := ⟨"m1", "A", none, true⟩

/-- Inference model B. -/
def fxSpecB : ModelSettings := ⟨"m2", "B", none, true⟩

/-- The integrator model. -/
def fxSpecINT : ModelSettings := ⟨"int", "INT", none, true⟩

/-- The summariser model. -/
def fxSpecSUM : ModelSettings := ⟨"sum", "SUM", none, true⟩

/-- A single user message. -/
def fxMsgHi : CoreMessage := ⟨"user", "hi"⟩

/-- An eleven-message history (over the count threshold of 10). -/
def fxMsgs11 : List CoreMessage :=
  (List.range 11).map (fun i => ⟨"user", toString i⟩)

/-- Every call fails with HTTP 404. -/
def fxOracle404 : StreamOracle := fun _ => ⟨[], some 404⟩

/-- Every call fails with HTTP 500 before emitting anything. -/
def fxOracle500 : StreamOracle := fun _ => ⟨[], some 500⟩

/-- Every call succeeds with the single chunk `"hello"`. -/
def fxOracleHello : StreamOracle := fun _ => ⟨["hello"], none⟩

/-- Every call succeeds with empty content. -/
def fxOracleEmpty : StreamOracle := fun _ => ⟨[], none⟩

/-- Buffered view of a stream oracle (what `callLlmApi` reports). -/
def bufferedOracle (oracle : StreamOracle) : BufferedOracle :=
  fun n => toBuffered (oracle n)

/-- The C1 scenario oracle: the two parallel calls succeed (`"a"`,
`"b"`), the first streaming integration attempt emits `"par"` and then
fails with 500, the retry streams `"hello"` to completion. -/
def fxOracleMidStream : StreamOracle := fun n =>
  if n = 0 then ⟨["a"], none⟩
  else if n = 1 then ⟨["b"], none⟩
  else if n = 2 then ⟨["par"], some 500⟩
  else ⟨["hello"], none⟩

/-- The standard-mode context over `fxPool1` with models A and B, no
summariser, and the INT integrator. -/
def fxCtxAB : AgentContext :=
  ⟨fxPool1, [fxMsgHi], [fxSpecA, fxSpecB], none, some fxSpecINT, 2,
   [], "", false, none, false, none⟩

/-- As `fxCtxAB` but with the single model A. -/
def fxCtxA : AgentContext :=
  ⟨fxPool1, [fxMsgHi], [fxSpecA], none, some fxSpecINT, 2,
   [], "", false, none, false, none⟩

/-- The parallel scenario oracle: the first call fails with 401 (evicting
its key), the second succeeds with empty content, every later one
succeeds with `"ya"`. -/
def fxOracleW : BufferedOracle := fun n =>
  if n = 0 then .error 401 else if n = 1 then .ok "" else .ok "ya"

/-- Final state of the scenario-W run (both tasks fulfilled after the
`"kbad"` eviction). -/
def fxStW : ParState :=
  ⟨[⟨fxSpecA, [fxMsgHi], .fulfilled, some ⟨"A", "cerebras", "ya", none⟩, 2, 3⟩,
    ⟨fxSpecB, [fxMsgHi], .fulfilled, some ⟨"B", "cerebras", "", none⟩, 1, 3⟩],
   ⟨["kok"], 0⟩, 3,
   [⟨0, "kbad", "A", .error 401⟩, ⟨1, "kok", "B", .ok ""⟩, ⟨0, "kok", "A", .ok "ya"⟩],
   some ⟨"", 401, "kbad", some "A"⟩⟩

/-- Initial task snapshot of the scenario-W run. -/
def fxTs0W : List ParallelTask :=
  [⟨fxSpecA, [fxMsgHi], .pending, none, 0, 3⟩,
   ⟨fxSpecB, [fxMsgHi], .pending, none, 0, 3⟩]

/-- Task snapshot after round one of the scenario-W run. -/
def fxTsR1W : List ParallelTask :=
  [⟨fxSpecA, [fxMsgHi], .pending, none, 1, 3⟩,
   ⟨fxSpecB, [fxMsgHi], .fulfilled, some ⟨"B", "cerebras", "", none⟩, 1, 3⟩]

/-- A state with one pending task that has already made one attempt. -/
def fxStPend : ParState :=
  ⟨[⟨fxSpecA, [fxMsgHi], .pending, none, 1, 3⟩], fxPoolBadOk, 1, [], none⟩

/-- Eleven messages (over the count threshold) but no summariser model
configured. -/
def fxCtx11None : AgentContext :=
  ⟨fxPool1, fxMsgs11, [fxSpecA], none, some fxSpecINT, 0, [], "", false, none, false, none⟩

/-- Eleven messages with the SUM summariser configured. -/
def fxCtx11Sum : AgentContext :=
  ⟨fxPool1, fxMsgs11, [fxSpecA], some fxSpecSUM, some fxSpecINT, 0,
   [], "", false, none, false, none⟩

/-- The context produced by a successful summarisation of `fxCtx11Sum`
(the history is replaced by the summary plus the last user message). -/
def fxCtxSumOut : AgentContext :=
  ⟨⟨["k1"], 0⟩, [⟨"system", "[以前の会話の要約]\nhello"⟩, ⟨"user", "10"⟩],
   [fxSpecA], some fxSpecSUM, some fxSpecINT, 0, [], "", true,
   some [⟨"system", "[以前の会話の要約]\nhello"⟩], false, none⟩

/-- The single-task initial snapshot of the C10 witness run. -/
def fxTs0X : List ParallelTask :=
  [⟨fxSpecA, [fxMsgHi], .pending, none, 0, 3⟩]

/-- Final state of the C10 witness run: one 404, model dropped. -/
def fxStX : ParState :=
  ⟨[⟨fxSpecA, [fxMsgHi], .failed, none, 1, 3⟩], ⟨["k1"], 0⟩, 1,
   [⟨0, "k1", "A", .error 404⟩], some ⟨"", 404, "k1", some "A"⟩⟩

/-- The parallel replies of the C1 mid-stream scenario. -/
def fxRespsAB : List ModelResponse :=
  [⟨"A", "cerebras", "a", none⟩, ⟨"B", "cerebras", "b", none⟩]

/-- The final context of the C1 mid-stream run. -/
def fxCtxC1 : AgentContext :=
  ⟨⟨["k1"], 0⟩, [fxMsgHi], [fxSpecA, fxSpecB], none, some fxSpecINT, 2,
   fxRespsAB, "hello", false, none, true, some fxRespsAB⟩

/-- The wire result of the C1 mid-stream run: the failed first
integration attempt left the `DATA "par"` frame on the stream before
the retry streamed `"hello"`. -/
def fxRunC1 : RunResult :=
  ⟨[.status "EXECUTE_STANDARD", .status "INTEGRATE_STANDARD", .data "par",
    .data "hello", .responses fxRespsAB], .ok fxCtxC1, "par"⟩

/-! ### Theorems -/

theorem classifyError_status_only (e e' : LlmApiError) (h : e.status = e'.status) :
    classifyError e = classifyError e' := by
  simp only [classifyError, h]

theorem classifyError_eq_table (e : LlmApiError) :
    classifyError e = specClassifierTable e.status := rfl

/-- C2: `classifyError` depends only on the HTTP status and realises the
spec table: 401/403 ↦ evict key; 404 ↦ drop model; other 4xx except 429 ↦
drop model; every remaining status (429, 5xx, network-mapped, sub-400) ↦
transient. -/
theorem classifyError_spec :
    (∀ e e' : LlmApiError, e.status = e'.status → classifyError e = classifyError e') ∧
    (∀ e : LlmApiError, classifyError e = specClassifierTable e.status) ∧
    (∀ e : LlmApiError, e.status = 401 ∨ e.status = 403 →
      classifyError e = ⟨true, true, false⟩) ∧
    (∀ e : LlmApiError, e.status = 404 → classifyError e = ⟨true, false, true⟩) ∧
    (∀ e : LlmApiError, 400 ≤ e.status → e.status < 500 → e.status ≠ 429 →
      e.status ≠ 401 → e.status ≠ 403 →
      classifyError e = ⟨true, false, true⟩) ∧
    (∀ e : LlmApiError, e.status = 429 ∨ e.status < 400 ∨ 500 ≤ e.status →
      classifyError e = ⟨false, false, false⟩) := by
  refine ⟨classifyError_status_only, classifyError_eq_table, ?_, ?_, ?_, ?_⟩
  · rintro e (h | h) <;> simp [classifyError, h]
  · intro e h
    simp [classifyError, h]
  · intro e h1 h2 h3 h4 h5
    by_cases h6 : e.status = 404
    · simp [classifyError, h6]
    · simp only [classifyError]
      rw [if_neg (by tauto), if_neg h6, if_pos ⟨h1, h2, h3⟩]
  · intro e h
    simp only [classifyError]
    rw [if_neg (by omega), if_neg (by omega), if_neg (by omega)]

theorem classifyError_spec_witness :
    classifyError ⟨"", 403, "k", none⟩ = ⟨true, true, false⟩ ∧
    classifyError ⟨"", 404, "k2", some "m"⟩ = ⟨true, false, true⟩ ∧
    classifyError ⟨"", 418, "k", none⟩ = ⟨true, false, true⟩ ∧
    classifyError ⟨"", 500, "k", none⟩ = ⟨false, false, false⟩ :=
  ⟨classifyError_spec.2.2.1 _ (Or.inr rfl),
   classifyError_spec.2.2.2.1 _ rfl,
   classifyError_spec.2.2.2.2.1 _ (by decide) (by decide) (by decide) (by decide) (by decide),
   classifyError_spec.2.2.2.2.2 _ (Or.inr (Or.inr (by decide)))⟩

theorem splitFirst_of_isPrefixOf {pat s : List Char} (hp : pat ≠ [])
    (h : pat.isPrefixOf s) : splitFirst pat s = some ([], s.drop pat.length) := by
  cases s with
  | nil =>
    cases pat with
    | nil => exact absurd rfl hp
    | cons c cs => simp [List.isPrefixOf] at h
  | cons c rest => simp [splitFirst, h]

theorem splitFirst_cons_skip {pat : List Char} {c : Char} {rest : List Char}
    (h : ¬ pat.isPrefixOf (c :: rest)) :
    splitFirst pat (c :: rest) = (splitFirst pat rest).map (fun p => (c :: p.1, p.2)) := by
  simp [splitFirst, h]

theorem isPrefixOf_cons_head {a b : Char} {pt l : List Char} (h : a ≠ b) :
    ¬ (a :: pt).isPrefixOf (b :: l) := by
  simp [List.isPrefixOf]
  intro hab
  exact absurd hab h

theorem splitFirst_skip_no_open {pt : List Char} :
    ∀ {pre : List Char} (post : List Char), ('[' ∉ pre) →
    splitFirst ('[' :: pt) (pre ++ post) =
      (splitFirst ('[' :: pt) post).map (fun p => (pre ++ p.1, p.2))
  | [], post, _ => by
    cases h : splitFirst ('[' :: pt) post <;> simp [h]
  | c :: pre', post, h => by
    have hc : c ≠ '[' := fun hc => h (by simp [hc])
    have hpre : '[' ∉ pre' := fun hm => h (by simp [hm])
    rw [List.cons_append,
      splitFirst_cons_skip (isPrefixOf_cons_head (fun he => hc he.symm)),
      splitFirst_skip_no_open post hpre]
    cases hres : splitFirst ('[' :: pt) post <;> simp [hres]

theorem splitFirst_none_no_open {pt : List Char} :
    ∀ {s : List Char}, ('[' ∉ s) → splitFirst ('[' :: pt) s = none
  | [], _ => rfl
  | c :: rest, h => by
    have hc : c ≠ '[' := fun hc => h (by simp [hc])
    have hrest : '[' ∉ rest := fun hm => h (by simp [hm])
    rw [splitFirst_cons_skip (isPrefixOf_cons_head (fun he => hc he.symm)),
      splitFirst_none_no_open hrest]
    rfl

theorem string_mk_toList (s : String) : String.mk s.toList = s := rfl

theorem isPrefixOf_cons2 {a b c : Char} {pt l : List Char} (h : b ≠ c) :
    ¬ (a :: b :: pt).isPrefixOf (a :: c :: l) := by
  simp [List.isPrefixOf]
  tauto

theorem isPrefixOf_self_append (pat r : List Char) : pat.isPrefixOf (pat ++ r) := by
  induction pat with
  | nil => simp [List.isPrefixOf]
  | cons c cs ih => simp [List.isPrefixOf, ih]

theorem splitFirst_self_append {pat : List Char} (hp : pat ≠ []) (r : List Char) :
    splitFirst pat (pat ++ r) = some ([], r) := by
  rw [splitFirst_of_isPrefixOf hp (isPrefixOf_self_append pat r)]
  simp

theorem splitFirst_thought_close (X r : List Char) (hX : '[' ∉ X) :
    splitFirst thoughtCloseTag (X ++ (thoughtCloseTag ++ r)) = some (X, r) := by
  have hc : thoughtCloseTag = '[' :: "/思考]".toList := rfl
  rw [hc, splitFirst_skip_no_open (('[' :: "/思考]".toList) ++ r) hX,
    splitFirst_self_append (by simp) r]
  simp

theorem splitFirst_answer_skip (X Y : List Char) (hX : '[' ∉ X) :
    splitFirst answerTag
      ('[' :: '思' :: '考' :: ']' ::
        (X ++ ('[' :: '/' :: '思' :: '考' :: ']' :: (answerTag ++ Y)))) =
    some ('[' :: '思' :: '考' :: ']' :: (X ++ ['[', '/', '思', '考', ']']), Y) := by
  have ha : answerTag = '[' :: '最' :: "終回答]".toList := rfl
  rw [ha]
  rw [splitFirst_cons_skip (isPrefixOf_cons2 (by decide))]
  rw [splitFirst_cons_skip (isPrefixOf_cons_head (by decide))]
  rw [splitFirst_cons_skip (isPrefixOf_cons_head (by decide))]
  rw [splitFirst_cons_skip (isPrefixOf_cons_head (by decide))]
  rw [splitFirst_skip_no_open _ hX]
  rw [splitFirst_cons_skip (isPrefixOf_cons2 (by decide))]
  rw [splitFirst_cons_skip (isPrefixOf_cons_head (by decide))]
  rw [splitFirst_cons_skip (isPrefixOf_cons_head (by decide))]
  rw [splitFirst_cons_skip (isPrefixOf_cons_head (by decide))]
  rw [splitFirst_cons_skip (isPrefixOf_cons_head (by decide))]
  rw [show ('[' :: '最' :: "終回答]".toList) ++ Y = ('[' :: '最' :: "終回答]".toList) ++ Y from rfl,
    splitFirst_self_append (by simp) Y]
  simp

/-- C9: the deep-thought parser of `executeDeepThought` extracts the
first `[思考]…[/思考]` group (trimmed) as `thought` and everything after
the first `[最終回答]` (trimmed) as `content`; a tagged reply
`[思考]X[/思考][最終回答]Y` yields `(X, Y)`; a reply without any tag
yields the whole raw reply as content with the fixed extraction-failure
marker as thought; whenever the answer tag is absent the whole reply
becomes the content; and the step applies this parse to every raw
reply. -/
theorem executeDeepThought_parsing :
    (∀ X Y : String, '[' ∉ X.toList → '[' ∉ Y.toList →
      trimChars X.toList = X.toList → trimChars Y.toList = Y.toList →
      parseDeepThought ("[思考]" ++ X ++ "[/思考]" ++ "[最終回答]" ++ Y) = (X, Y)) ∧
    (∀ s : String, '[' ∉ s.toList →
      parseDeepThought s = (extractionFailedMarker, s)) ∧
    (∀ s : String, splitFirst answerTag s.toList = none → (parseDeepThought s).2 = s) ∧
    (∀ rs : List ModelResponse, deepThoughtPost rs = rs.map (fun res =>
      { res with
          content := (parseDeepThought res.content).2
          thought := some (parseDeepThought res.content).1 })) := by
  refine ⟨?_, ?_, ?_, ?_⟩
  · intro X Y hX hY hXt hYt
    have hL : ("[思考]" ++ X ++ "[/思考]" ++ "[最終回答]" ++ Y).toList =
        thoughtOpenTag ++ (X.toList ++ (thoughtCloseTag ++ (answerTag ++ Y.toList))) := by
      show (("[思考]" ++ X ++ "[/思考]" ++ "[最終回答]" ++ Y) : String).data = _
      simp [String.data_append, answerTag, thoughtOpenTag, thoughtCloseTag]
    have e1 : splitFirst thoughtOpenTag
        (thoughtOpenTag ++ (X.toList ++ (thoughtCloseTag ++ (answerTag ++ Y.toList)))) =
        some ([], X.toList ++ (thoughtCloseTag ++ (answerTag ++ Y.toList))) :=
      splitFirst_self_append (by decide) _
    have e2 : splitFirst thoughtCloseTag (X.toList ++ (thoughtCloseTag ++ (answerTag ++ Y.toList))) =
        some (X.toList, answerTag ++ Y.toList) :=
      splitFirst_thought_close _ _ hX
    have e3 : splitFirst answerTag
        (thoughtOpenTag ++ (X.toList ++ (thoughtCloseTag ++ (answerTag ++ Y.toList)))) =
        some ('[' :: '思' :: '考' :: ']' :: (X.toList ++ ['[', '/', '思', '考', ']']),
              Y.toList) :=
      splitFirst_answer_skip X.toList Y.toList hX
    have h1 : parseThought ("[思考]" ++ X ++ "[/思考]" ++ "[最終回答]" ++ Y).toList = X := by
      rw [hL]
      unfold parseThought
      simp only [e1, e2]
      rw [hXt]
      exact string_mk_toList X
    have h2 : parseAnswer ("[思考]" ++ X ++ "[/思考]" ++ "[最終回答]" ++ Y) = Y := by
      unfold parseAnswer
      rw [hL]
      simp only [e3]
      rw [hYt]
      exact string_mk_toList Y
    unfold parseDeepThought
    rw [h1, h2]
  · intro s hs
    have h1 : splitFirst thoughtOpenTag s.toList = none :=
      @splitFirst_none_no_open ("思考]".toList) _ hs
    have h2 : splitFirst answerTag s.toList = none :=
      @splitFirst_none_no_open ("最終回答]".toList) _ hs
    unfold parseDeepThought parseThought parseAnswer
    rw [h1, h2]
  · intro s hs
    unfold parseDeepThought parseAnswer
    rw [hs]
  · intro rs
    rfl

theorem executeDeepThought_parsing_witness :
    parseDeepThought "[思考]plan[/思考][最終回答]answer" = ("plan", "answer") ∧
    parseDeepThought "raw" = (extractionFailedMarker, "raw") := by
  constructor
  · have h := executeDeepThought_parsing.1 "plan" "answer"
      (by decide) (by decide) (by decide) (by decide)
    have heq : ("[思考]" ++ "plan" ++ "[/思考]" ++ "[最終回答]" ++ "answer" : String) =
        "[思考]plan[/思考][最終回答]answer" := rfl
    rw [heq] at h
    exact h
  · exact executeDeepThought_parsing.2.1 "raw" (by decide)

theorem getD_cons_set_perm {α : Type} (a d : α) :
    ∀ (t : List α) (m : Nat), m < t.length → List.Perm ((t.getD m d) :: t.set m a) (a :: t)
  | [], m, h => absurd h (by simp)
  | b :: u, 0, _ => by
    simpa using List.Perm.swap a b u
  | b :: u, m + 1, h => by
    have hm : m < u.length := by simpa using h
    have ih := getD_cons_set_perm a d u m hm
    have step1 : List.Perm (u.getD m d :: b :: u.set m a) (b :: u.getD m d :: u.set m a) :=
      List.Perm.swap b (u.getD m d) (u.set m a)
    have step2 : List.Perm (b :: u.getD m d :: u.set m a) (b :: a :: u) := ih.cons b
    have step3 : List.Perm (b :: a :: u) (a :: b :: u) := List.Perm.swap a b u
    simpa using (step1.trans step2).trans step3

theorem get?_getD {α : Type} {t : List α} {n : Nat} {b : α} (d : α)
    (h : t[n]? = some b) : t.getD n d = b := by
  rw [List.getD_eq_getElem?_getD, h]
  rfl

theorem listSwap_perm {α : Type} : ∀ (l : List α) (i j : Nat), List.Perm (listSwap l i j) l
  | [], _, _ => by simp [listSwap]
  | c :: t, 0, 0 => by simp [listSwap]
  | c :: t, 0, n + 1 => by
    unfold listSwap
    cases hg : t[n]? with
    | none => simp [hg]
    | some b =>
      simp only [List.get?_eq_getElem?, List.getElem?_cons_zero, List.getElem?_cons_succ, hg,
        List.set]
      have hn : n < t.length := (List.getElem?_eq_some_iff.mp hg).1
      have hb : t.getD n c = b := get?_getD c hg
      rw [← hb]
      exact getD_cons_set_perm c c t n hn
  | c :: t, m + 1, 0 => by
    unfold listSwap
    cases hg : t[m]? with
    | none => simp [hg]
    | some a =>
      simp only [List.get?_eq_getElem?, List.getElem?_cons_zero, List.getElem?_cons_succ, hg,
        List.set]
      have hm : m < t.length := (List.getElem?_eq_some_iff.mp hg).1
      have ha : t.getD m c = a := get?_getD c hg
      rw [← ha]
      exact getD_cons_set_perm c c t m hm
  | c :: t, m + 1, n + 1 => by
    unfold listSwap
    cases hgi : t[m]? with
    | none => simp [hgi]
    | some a =>
      cases hgj : t[n]? with
      | none => simp [hgi, hgj]
      | some b =>
        simp only [List.get?_eq_getElem?, List.getElem?_cons_zero, List.getElem?_cons_succ,
          hgi, hgj, List.set]
        have ht := listSwap_perm t m n
        unfold listSwap at ht
        simp only [List.get?_eq_getElem?, hgi, hgj] at ht
        exact ht.cons c

theorem fisherYatesAux_perm {α : Type} :
    ∀ (i : Nat) (js : List Nat) (l : List α), List.Perm (fisherYatesAux l i js) l
  | 0, _, l => .refl l
  | _ + 1, [], l => .refl l
  | i + 1, j :: rest, l =>
    (fisherYatesAux_perm i rest (listSwap l (i + 1) (j % (i + 2)))).trans
      (listSwap_perm l (i + 1) (j % (i + 2)))

theorem fisherYates_perm {α : Type} (l : List α) (js : List Nat) :
    List.Perm (fisherYates l js) l :=
  fisherYatesAux_perm (l.length - 1) js l

theorem mkApiKeyManager_perm {keys : List String} {js : List Nat} {m : ApiKeyManager}
    (h : mkApiKeyManager keys js = some m) : List.Perm m.availableKeys keys := by
  unfold mkApiKeyManager at h
  by_cases he : keys.isEmpty
  · simp [he] at h
  · simp [he] at h
    rw [← h]
    exact fisherYates_perm keys js

theorem removeKey_sublist (m : ApiKeyManager) (k : String) :
    (m.removeKey k).availableKeys.Sublist m.availableKeys := by
  unfold ApiKeyManager.removeKey
  by_cases h : (m.availableKeys.filter (fun key => key ≠ k)).length < m.availableKeys.length
  · rw [if_pos h]
    exact List.filter_sublist m.availableKeys
  · rw [if_neg h]

theorem removeKey_not_mem (m : ApiKeyManager) (k : String) :
    k ∉ (m.removeKey k).availableKeys := by
  unfold ApiKeyManager.removeKey
  by_cases h : (m.availableKeys.filter (fun key => key ≠ k)).length < m.availableKeys.length
  · rw [if_pos h]
    intro hmem
    have := (List.mem_filter.mp hmem).2
    simp at this
  · rw [if_neg h]
    have hlen : (m.availableKeys.filter (fun key => key ≠ k)).length = m.availableKeys.length := by
      have h2 : List.Sublist (m.availableKeys.filter (fun key => key ≠ k)) m.availableKeys :=
        List.filter_sublist m.availableKeys
      have := h2.length_le
      omega
    have h2 : List.Sublist (m.availableKeys.filter (fun key => key ≠ k)) m.availableKeys :=
      List.filter_sublist m.availableKeys
    have heq := h2.eq_of_length hlen
    intro hmem
    have := (List.filter_eq_self.mp heq) k hmem
    simp at this

theorem getNextKey_avail (m : ApiKeyManager) :
    (m.getNextKey).2.availableKeys = m.availableKeys := by
  unfold ApiKeyManager.getNextKey
  by_cases h : m.availableKeys.length = 0 <;> simp [h]

theorem getNextKey_cursorOk (m : ApiKeyManager) (h : cursorOk m) :
    cursorOk (m.getNextKey).2 := by
  unfold ApiKeyManager.getNextKey
  by_cases hl : m.availableKeys.length = 0
  · simpa [hl] using h
  · simp only [hl, if_neg, ite_false]
    right
    exact Nat.mod_lt _ (Nat.pos_of_ne_zero hl)

theorem getNextKey_out_mem {m : ApiKeyManager} {key : String} (h : cursorOk m)
    (hout : (m.getNextKey).1 = some key) : key ∈ m.availableKeys := by
  unfold ApiKeyManager.getNextKey at hout
  by_cases hl : m.availableKeys.length = 0
  · simp [hl] at hout
  · simp only [hl, if_neg, ite_false] at hout
    have hcur : m.currentIndex < m.availableKeys.length := by
      cases h with
      | inl he => exact absurd (by simp [he]) hl
      | inr hc => exact hc
    have : m.availableKeys.getD m.currentIndex "" = key := by
      simpa using hout
    rw [← this, List.getD_eq_getElem _ _ hcur]
    exact List.getElem_mem _

theorem removeKey_cursorOk (m : ApiKeyManager) (k : String) (h : cursorOk m) :
    cursorOk (m.removeKey k) := by
  unfold ApiKeyManager.removeKey
  by_cases hlt : (m.availableKeys.filter (fun key => key ≠ k)).length < m.availableKeys.length
  · rw [if_pos hlt]
    by_cases hz : (m.availableKeys.filter (fun key => key ≠ k)).length = 0
    · exact Or.inl (List.length_eq_zero.mp hz)
    · refine Or.inr ?_
      show m.currentIndex % _ < _
      rw [if_neg hz]
      exact Nat.mod_lt _ (Nat.pos_of_ne_zero hz)
  · rw [if_neg hlt]
    exact h

theorem poolTrace_key_free {k : String} :
    ∀ (ops : List PoolOp) (m : ApiKeyManager), k ∉ m.availableKeys → cursorOk m →
    ∀ p ∈ poolTrace m ops,
      p.2 ≠ some k ∧ k ∉ p.1.availableKeys ∧ cursorOk p.1
  | [], _, _, _ => by simp [poolTrace]
  | op :: rest, m, hk, hc => by
    intro p hp
    cases op with
    | next =>
      have havail := getNextKey_avail m
      have hcur := getNextKey_cursorOk m hc
      simp only [poolTrace, applyPoolOp] at hp
      rcases List.mem_cons.mp hp with heq | htail
      · subst heq
        refine ⟨?_, by rw [havail]; exact hk, hcur⟩
        intro hbad
        have hmem : k ∈ m.availableKeys := getNextKey_out_mem hc hbad
        exact hk hmem
      · exact poolTrace_key_free rest (m.getNextKey).2 (havail ▸ hk) hcur p htail
    | evict j =>
      have hsub := removeKey_sublist m j
      have hk' : k ∉ (m.removeKey j).availableKeys := fun hmem => hk (hsub.mem hmem)
      have hc' := removeKey_cursorOk m j hc
      simp only [poolTrace, applyPoolOp] at hp
      rcases List.mem_cons.mp hp with heq | htail
      · subst heq
        exact ⟨by simp, hk', hc'⟩
      · exact poolTrace_key_free rest (m.removeKey j) hk' hc' p htail

theorem poolTrace_nodup :
    ∀ (ops : List PoolOp) (m : ApiKeyManager), m.availableKeys.Nodup →
    ∀ p ∈ poolTrace m ops, p.1.availableKeys.Nodup
  | [], _, _ => by simp [poolTrace]
  | op :: rest, m, hnd => by
    intro p hp
    cases op with
    | next =>
      have havail := getNextKey_avail m
      simp only [poolTrace, applyPoolOp] at hp
      rcases List.mem_cons.mp hp with heq | htail
      · subst heq; rw [havail]; exact hnd
      · exact poolTrace_nodup rest (m.getNextKey).2 (havail ▸ hnd) p htail
    | evict j =>
      have hnd' : (m.removeKey j).availableKeys.Nodup :=
        (removeKey_sublist m j).nodup hnd
      simp only [poolTrace, applyPoolOp] at hp
      rcases List.mem_cons.mp hp with heq | htail
      · subst heq; exact hnd'
      · exact poolTrace_nodup rest (m.removeKey j) hnd' p htail

/-- C7 counterexample: the constructor copies and shuffles the input
without deduplication, so constructing the pool from the duplicate
credential list `["k", "k"]` (as produced by
`CEREBRAS_API_KEYS="k,k"`) yields an available list in which the
credential `k` appears twice — the "at most once at every moment"
part of the claim is already false at the initial moment. -/
theorem keyPool_at_most_once_counterexample :
    (mkApiKeyManager ["k", "k"] [0]).map (fun m => m.availableKeys.count "k") = some 2 ∧
    ¬ (∀ m : ApiKeyManager, mkApiKeyManager ["k", "k"] [0] = some m →
         ∀ key, m.availableKeys.count key ≤ 1) := by
  constructor
  · decide
  · intro h
    have h2 := h ⟨["k", "k"], 0⟩ (by decide) "k"
    exact absurd h2 (by decide)

/-- C7 (amended): provided the constructor's input credentials are
pairwise distinct, every credential appears at most once in the
available list at construction and after any sequence of `next`/`evict`
operations; and unconditionally (for any pool whose cursor is in range,
as every reachable pool's is), `evict(k)` removes every occurrence of
`k` and no subsequent `next()` ever returns `k`. -/
theorem keyPool_uniqueness_and_eviction :
    (∀ (keys : List String) (js : List Nat) (m : ApiKeyManager),
       mkApiKeyManager keys js = some m → keys.Nodup →
       ∀ key, m.availableKeys.count key ≤ 1) ∧
    (∀ (keys : List String) (js : List Nat) (m : ApiKeyManager) (ops : List PoolOp),
       mkApiKeyManager keys js = some m → keys.Nodup →
       ∀ p ∈ poolTrace m ops, ∀ key, p.1.availableKeys.count key ≤ 1) ∧
    (∀ (m : ApiKeyManager) (k : String), k ∉ (m.removeKey k).availableKeys) ∧
    (∀ (m : ApiKeyManager) (k : String) (ops : List PoolOp), cursorOk m →
       ∀ p ∈ poolTrace (m.removeKey k) ops,
         p.2 ≠ some k ∧ k ∉ p.1.availableKeys) := by
  refine ⟨?_, ?_, removeKey_not_mem, ?_⟩
  · intro keys js m hmk hnd key
    have hperm := mkApiKeyManager_perm hmk
    have : m.availableKeys.Nodup := hperm.nodup_iff.mpr hnd
    exact List.nodup_iff_count_le_one.mp this key
  · intro keys js m ops hmk hnd p hp key
    have hperm := mkApiKeyManager_perm hmk
    have hmnd : m.availableKeys.Nodup := hperm.nodup_iff.mpr hnd
    exact List.nodup_iff_count_le_one.mp (poolTrace_nodup ops m hmnd p hp) key
  · intro m k ops hc p hp
    have h := poolTrace_key_free ops (m.removeKey k) (removeKey_not_mem m k)
      (removeKey_cursorOk m k hc) p hp
    exact ⟨h.1, h.2.1⟩

theorem keyPool_uniqueness_and_eviction_witness :
    ((fisherYates ["a", "b"] [1]).count "a" ≤ 1) ∧
    ("a" ∉ (ApiKeyManager.removeKey ⟨["a", "b"], 0⟩ "a").availableKeys) ∧
    ((applyPoolOp (ApiKeyManager.removeKey ⟨["a", "b"], 0⟩ "a") PoolOp.next).2 ≠ some "a") :=
  ⟨keyPool_uniqueness_and_eviction.1 ["a", "b"] [1] ⟨fisherYates ["a", "b"] [1], 0⟩
      (by decide) (by decide) "a",
   keyPool_uniqueness_and_eviction.2.2.1 ⟨["a", "b"], 0⟩ "a",
   (keyPool_uniqueness_and_eviction.2.2.2 ⟨["a", "b"], 0⟩ "a" [PoolOp.next]
      (Or.inr (by decide))
      (applyPoolOp (ApiKeyManager.removeKey ⟨["a", "b"], 0⟩ "a") PoolOp.next)
      (List.Mem.head _)).1⟩

theorem integAttempt_success (oracle : StreamOracle) (streaming : Bool)
    (settings : ModelSettings) (st : IntegState) (hs : (oracle st.calls).err = none) :
    integAttempt oracle streaming settings st =
      (some (String.join (oracle st.calls).chunks),
       { st with
           attempts := st.attempts + 1
           pool := (st.pool.getNextKey).2
           calls := st.calls + 1
           callLog := st.callLog ++
             [⟨0, ((st.pool.getNextKey).1).getD "", settings.modelName,
               toBuffered (oracle st.calls)⟩]
           frames := st.frames ++
             (if streaming then (oracle st.calls).chunks.map Frame.data else []) }) := by
  simp [integAttempt, hs]

theorem integAttempt_fail_noevict (oracle : StreamOracle) (streaming : Bool)
    (settings : ModelSettings) (st : IntegState) (s : Nat)
    (hs : (oracle st.calls).err = some s)
    (hnk : (specClassifierTable s).removeKey = false) :
    integAttempt oracle streaming settings st =
      (none,
       { st with
           attempts := st.attempts + 1
           pool := (st.pool.getNextKey).2
           calls := st.calls + 1
           callLog := st.callLog ++
             [⟨0, ((st.pool.getNextKey).1).getD "", settings.modelName,
               toBuffered (oracle st.calls)⟩]
           frames := st.frames ++
             (if streaming then (oracle st.calls).chunks.map Frame.data else [])
           lastApiError := some
             ⟨"", s, ((st.pool.getNextKey).1).getD "", some settings.modelName⟩
           failedEmitted := st.failedEmitted ++
             (if streaming then String.join (oracle st.calls).chunks else "") }) := by
  have hcls : classifyError
      ⟨"", s, ((st.pool.getNextKey).1).getD "", some settings.modelName⟩ =
      specClassifierTable s := classifyError_eq_table _
  simp [integAttempt, hs, hcls, hnk]

theorem integLoop_succ (oracle : StreamOracle) (streaming : Bool)
    (settings : ModelSettings) (fuel : Nat) (st : IntegState)
    (h1 : st.attempts < st.maxAttempts) (h2 : ¬ st.pool.keyCount = 0) :
    integLoop oracle streaming settings (fuel + 1) st =
      match integAttempt oracle streaming settings st with
      | (some text, st2) => some (some text, st2)
      | (none, st4) => integLoop oracle streaming settings fuel st4 := by
  have hdef : integLoop oracle streaming settings (fuel + 1) st =
      if ¬ st.attempts < st.maxAttempts then some (none, st)
      else if st.pool.keyCount = 0 then some (none, st)
      else
        match integAttempt oracle streaming settings st with
        | (some text, st2) => some (some text, st2)
        | (none, st4) => integLoop oracle streaming settings fuel st4 := rfl
  rw [hdef, if_neg (not_not_intro h1), if_neg h2]

theorem integLoop_exit (oracle : StreamOracle) (streaming : Bool)
    (settings : ModelSettings) (fuel : Nat) (st : IntegState)
    (h : ¬ st.attempts < st.maxAttempts ∨ st.pool.keyCount = 0) :
    integLoop oracle streaming settings fuel st = some (none, st) := by
  cases fuel with
  | zero =>
    unfold integLoop
    rcases h with h | h
    · rw [if_pos h]
    · by_cases h1 : st.attempts < st.maxAttempts
      · rw [if_neg (not_not_intro h1), if_pos h]
      · rw [if_pos h1]
  | succ fuel =>
    unfold integLoop
    rcases h with h | h
    · rw [if_pos h]
    · by_cases h1 : st.attempts < st.maxAttempts
      · rw [if_neg (not_not_intro h1), if_pos h]
      · rw [if_pos h1]

theorem integLoop_all_fail_noevict (oracle : StreamOracle) (streaming : Bool)
    (settings : ModelSettings)
    (herr : ∀ n, ∃ s, (oracle n).err = some s ∧ (specClassifierTable s).removeKey = false) :
    ∀ (fuel : Nat) (st : IntegState),
      0 < st.pool.keyCount → st.attempts ≤ st.maxAttempts →
      st.maxAttempts - st.attempts ≤ fuel →
      ∃ st', integLoop oracle streaming settings fuel st = some (none, st') ∧
        st'.callLog.length = st.callLog.length + (st.maxAttempts - st.attempts) ∧
        st'.attempts = st.maxAttempts ∧
        st'.maxAttempts = st.maxAttempts ∧
        st'.pool.availableKeys = st.pool.availableKeys ∧
        (st.lastApiError.isSome → st'.lastApiError.isSome) ∧
        (st.attempts < st.maxAttempts → st'.lastApiError.isSome) := by
  intro fuel
  induction fuel with
  | zero =>
    intro st hpool hle hfuel
    have hexit : ¬ st.attempts < st.maxAttempts := by omega
    exact ⟨st, integLoop_exit oracle streaming settings 0 st (Or.inl hexit),
      by omega, by omega, rfl, rfl, fun h => h, fun h => absurd h hexit⟩
  | succ fuel ih =>
    intro st hpool hle hfuel
    by_cases hlt : st.attempts < st.maxAttempts
    · obtain ⟨s, hs, hnk⟩ := herr st.calls
      have hatt := integAttempt_fail_noevict oracle streaming settings st s hs hnk
      have hk0 : ¬ st.pool.keyCount = 0 := by omega
      have hstep0 := integLoop_succ oracle streaming settings fuel st hlt hk0
      rw [hatt] at hstep0
      set st4 : IntegState :=
        { st with
            attempts := st.attempts + 1
            pool := (st.pool.getNextKey).2
            calls := st.calls + 1
            callLog := st.callLog ++
              [⟨0, ((st.pool.getNextKey).1).getD "", settings.modelName,
                toBuffered (oracle st.calls)⟩]
            frames := st.frames ++
              (if streaming then (oracle st.calls).chunks.map Frame.data else [])
            lastApiError := some
              ⟨"", s, ((st.pool.getNextKey).1).getD "", some settings.modelName⟩
            failedEmitted := st.failedEmitted ++
              (if streaming then String.join (oracle st.calls).chunks else "") } with hst4
      have hpool4 : st4.pool.availableKeys = st.pool.availableKeys := getNextKey_avail st.pool
      have hcount4 : 0 < st4.pool.keyCount := by
        unfold ApiKeyManager.keyCount at hpool ⊢
        rw [hpool4]
        exact hpool
      obtain ⟨st', hrun, hlog, hatt', hmax', hpool', hlast1, _⟩ :=
        ih st4 hcount4 (by simp [hst4]; omega) (by simp [hst4]; omega)
      have hstep : integLoop oracle streaming settings (fuel + 1) st =
          integLoop oracle streaming settings fuel st4 := hstep0
      refine ⟨st', by rw [hstep]; exact hrun, ?_, ?_, ?_, ?_, ?_, ?_⟩
      · have : st4.callLog.length = st.callLog.length + 1 := by simp [hst4]
        rw [hlog, this]
        have : st4.maxAttempts = st.maxAttempts := by simp [hst4]
        rw [this]
        have : st4.attempts = st.attempts + 1 := by simp [hst4]
        rw [this]
        omega
      · rw [hatt']
      · rw [hmax']
      · rw [hpool', hpool4]
      · intro _
        exact hlast1 (by simp [hst4])
      · intro _
        exact hlast1 (by simp [hst4])
    · exact ⟨st, integLoop_exit oracle streaming settings (fuel + 1) st (Or.inl hlt),
        by omega, by omega, rfl, rfl, fun h => h, fun h => absurd h hlt⟩

theorem integLoop_zero_stuck (oracle : StreamOracle) (streaming : Bool)
    (settings : ModelSettings) (st : IntegState)
    (h1 : st.attempts < st.maxAttempts) (h2 : ¬ st.pool.keyCount = 0) :
    integLoop oracle streaming settings 0 st = none := by
  unfold integLoop
  rw [if_neg (not_not_intro h1), if_neg h2]

theorem integLoop_none_cond (oracle : StreamOracle) (streaming : Bool)
    (settings : ModelSettings) :
    ∀ (fuel : Nat) (st st' : IntegState),
      integLoop oracle streaming settings fuel st = some (none, st') →
      ¬ st'.attempts < st'.maxAttempts ∨ st'.pool.keyCount = 0 := by
  intro fuel
  induction fuel with
  | zero =>
    intro st st' h
    by_cases h1 : st.attempts < st.maxAttempts
    · by_cases h2 : st.pool.keyCount = 0
      · rw [integLoop_exit oracle streaming settings 0 st (Or.inr h2)] at h
        obtain ⟨-, rfl⟩ : none = (none : Option String) ∧ st = st' := by
          simpa using h
        exact Or.inr h2
      · rw [integLoop_zero_stuck oracle streaming settings st h1 h2] at h
        exact absurd h (by simp)
    · rw [integLoop_exit oracle streaming settings 0 st (Or.inl h1)] at h
      obtain ⟨-, rfl⟩ : none = (none : Option String) ∧ st = st' := by
        simpa using h
      exact Or.inl h1
  | succ fuel ih =>
    intro st st' h
    by_cases h1 : st.attempts < st.maxAttempts
    · by_cases h2 : st.pool.keyCount = 0
      · rw [integLoop_exit oracle streaming settings (fuel + 1) st (Or.inr h2)] at h
        obtain ⟨-, rfl⟩ : none = (none : Option String) ∧ st = st' := by
          simpa using h
        exact Or.inr h2
      · rw [integLoop_succ oracle streaming settings fuel st h1 h2] at h
        rcases hp : integAttempt oracle streaming settings st with ⟨res, st4⟩
        rw [hp] at h
        cases res with
        | some text => exact absurd h (by simp)
        | none => exact ih st4 st' h
    · rw [integLoop_exit oracle streaming settings (fuel + 1) st (Or.inl h1)] at h
      obtain ⟨-, rfl⟩ : none = (none : Option String) ∧ st = st' := by
        simpa using h
      exact Or.inl h1

theorem executeIntegration_eq_loop (oracle : StreamOracle) (fuel : Nat)
    (pool : ApiKeyManager) (messages : List CoreMessage) (settings : ModelSettings)
    (streaming : Bool) (startCalls : Nat) :
    executeIntegration oracle fuel pool messages settings streaming startCalls =
      match integLoop oracle streaming settings fuel
          ⟨pool, 0, Nat.max pool.keyCount 3, none, startCalls, [], [], ""⟩ with
      | none => none
      | some (some text, st) => some (.ok text, st)
      | some (none, st) => some (.error ⟨st.lastApiError⟩, st) := rfl

/-- C5 counterexample: `executeIntegration` does *not* stop after an
error that the classifier marks permanent-with-dropModel.  With a
one-key pool and every call answering 404, the first 404 is followed by
two further attempts: three calls are logged (`max(1,3) = 3`), not
one. -/
theorem executeIntegration_404_counterexample :
    executeIntegration fxOracle404 4 fxPool1 [] fxSpecINT false 0 =
      some (.error ⟨some ⟨"", 404, "k1", some "INT"⟩⟩,
        ⟨fxPool1, 3, 3, some ⟨"", 404, "k1", some "INT"⟩, 3,
         [⟨0, "k1", "INT", .error 404⟩, ⟨0, "k1", "INT", .error 404⟩,
          ⟨0, "k1", "INT", .error 404⟩], [], ""⟩) ∧
    ¬ (3 : Nat) ≤ 1 := by
  have h1 : integLoop fxOracle404 false fxSpecINT 4
        ⟨fxPool1, 0, 3, none, 0, [], [], ""⟩ =
      integLoop fxOracle404 false fxSpecINT 3
        ⟨fxPool1, 1, 3, some ⟨"", 404, "k1", some "INT"⟩, 1,
         [⟨0, "k1", "INT", .error 404⟩], [], ""⟩ := by
    rw [integLoop_succ fxOracle404 false fxSpecINT 3 _ (by decide) (by decide),
      integAttempt_fail_noevict fxOracle404 false fxSpecINT _ 404 rfl (by decide)]
    rfl
  have h2 : integLoop fxOracle404 false fxSpecINT 3
        ⟨fxPool1, 1, 3, some ⟨"", 404, "k1", some "INT"⟩, 1,
         [⟨0, "k1", "INT", .error 404⟩], [], ""⟩ =
      integLoop fxOracle404 false fxSpecINT 2
        ⟨fxPool1, 2, 3, some ⟨"", 404, "k1", some "INT"⟩, 2,
         [⟨0, "k1", "INT", .error 404⟩, ⟨0, "k1", "INT", .error 404⟩], [], ""⟩ := by
    rw [integLoop_succ fxOracle404 false fxSpecINT 2 _ (by decide) (by decide),
      integAttempt_fail_noevict fxOracle404 false fxSpecINT _ 404 rfl (by decide)]
    rfl
  have h3 : integLoop fxOracle404 false fxSpecINT 2
        ⟨fxPool1, 2, 3, some ⟨"", 404, "k1", some "INT"⟩, 2,
         [⟨0, "k1", "INT", .error 404⟩, ⟨0, "k1", "INT", .error 404⟩], [], ""⟩ =
      integLoop fxOracle404 false fxSpecINT 1
        ⟨fxPool1, 3, 3, some ⟨"", 404, "k1", some "INT"⟩, 3,
         [⟨0, "k1", "INT", .error 404⟩, ⟨0, "k1", "INT", .error 404⟩,
          ⟨0, "k1", "INT", .error 404⟩], [], ""⟩ := by
    rw [integLoop_succ fxOracle404 false fxSpecINT 1 _ (by decide) (by decide),
      integAttempt_fail_noevict fxOracle404 false fxSpecINT _ 404 rfl (by decide)]
    rfl
  have h4 : integLoop fxOracle404 false fxSpecINT 1
        ⟨fxPool1, 3, 3, some ⟨"", 404, "k1", some "INT"⟩, 3,
         [⟨0, "k1", "INT", .error 404⟩, ⟨0, "k1", "INT", .error 404⟩,
          ⟨0, "k1", "INT", .error 404⟩], [], ""⟩ =
      some (none,
        ⟨fxPool1, 3, 3, some ⟨"", 404, "k1", some "INT"⟩, 3,
         [⟨0, "k1", "INT", .error 404⟩, ⟨0, "k1", "INT", .error 404⟩,
          ⟨0, "k1", "INT", .error 404⟩], [], ""⟩) :=
    integLoop_exit fxOracle404 false fxSpecINT 1 _ (Or.inl (by decide))
  constructor
  · rw [executeIntegration_eq_loop]
    have hst0 : (⟨fxPool1, 0, Nat.max fxPool1.keyCount 3, none, 0, [], [], ""⟩ :
        IntegState) = ⟨fxPool1, 0, 3, none, 0, [], [], ""⟩ := by decide
    rw [hst0, h1, h2, h3, h4]
  · decide

/-- C5 (amended): `executeIntegration` retries every classified error
within its budget — including permanent dropModel errors such as 404,
which therefore do NOT end the call early (only `evictKey` errors shrink
the pool and extend the budget).  It fails with the integration-failed
error carrying the last cause exactly when the budget is exhausted or
the pool has emptied; in particular, when every call fails with a
non-evicting error on a pool of `p ≥ 1` keys it makes exactly
`max(p, 3)` calls and then throws with the last error as cause. -/
theorem executeIntegration_retry_policy :
    (∀ (oracle : StreamOracle) (fuel : Nat) (pool : ApiKeyManager)
       (messages : List CoreMessage) (settings : ModelSettings) (streaming : Bool)
       (startCalls : Nat) (res : Except IntegrationFailed String) (st : IntegState),
       executeIntegration oracle fuel pool messages settings streaming startCalls =
         some (res, st) →
       ∀ e, res = .error e →
         e = ⟨st.lastApiError⟩ ∧ (st.maxAttempts ≤ st.attempts ∨ st.pool.keyCount = 0)) ∧
    (∀ (oracle : StreamOracle) (fuel : Nat) (pool : ApiKeyManager)
       (messages : List CoreMessage) (settings : ModelSettings) (streaming : Bool)
       (startCalls : Nat),
       (∀ n, ∃ s, (oracle n).err = some s ∧ (specClassifierTable s).removeKey = false) →
       0 < pool.keyCount → Nat.max pool.keyCount 3 ≤ fuel →
       ∃ st, executeIntegration oracle fuel pool messages settings streaming startCalls =
           some (.error ⟨st.lastApiError⟩, st) ∧
         st.callLog.length = Nat.max pool.keyCount 3 ∧
         st.lastApiError.isSome) := by
  constructor
  · intro oracle fuel pool messages settings streaming startCalls res st hrun e hres
    rw [executeIntegration_eq_loop] at hrun
    rcases hloop : integLoop oracle streaming settings fuel
        ⟨pool, 0, Nat.max pool.keyCount 3, none, startCalls, [], [], ""⟩ with _ | ⟨opt, stL⟩
    · rw [hloop] at hrun
      exact absurd hrun (by simp)
    · rw [hloop] at hrun
      cases opt with
      | some text =>
        rw [hres] at hrun
        simp only [Option.some.injEq, Prod.mk.injEq] at hrun
        exact absurd hrun.1 (by simp)
      | none =>
        rw [hres] at hrun
        simp only [Option.some.injEq, Prod.mk.injEq] at hrun
        obtain ⟨herr2, hst⟩ := hrun
        have he : (⟨stL.lastApiError⟩ : IntegrationFailed) = e := by
          simpa using herr2
        subst hst
        have hcond := integLoop_none_cond oracle streaming settings fuel _ stL hloop
        refine ⟨he.symm, ?_⟩
        rcases hcond with h | h
        · exact Or.inl (by omega)
        · exact Or.inr h
  · intro oracle fuel pool messages settings streaming startCalls herr hpool hfuel
    have hle0 : (⟨pool, 0, Nat.max pool.keyCount 3, none, startCalls, [], [], ""⟩ :
        IntegState).attempts ≤ (⟨pool, 0, Nat.max pool.keyCount 3, none, startCalls,
        [], [], ""⟩ : IntegState).maxAttempts := by
      show (0 : Nat) ≤ Nat.max pool.keyCount 3
      omega
    have hfuel0 : (⟨pool, 0, Nat.max pool.keyCount 3, none, startCalls, [], [], ""⟩ :
        IntegState).maxAttempts - 0 ≤ fuel := by
      show Nat.max pool.keyCount 3 - 0 ≤ fuel
      omega
    obtain ⟨st', hrun, hlog, hatt', hmax', _, _, hlast⟩ :=
      integLoop_all_fail_noevict oracle streaming settings herr fuel
        ⟨pool, 0, Nat.max pool.keyCount 3, none, startCalls, [], [], ""⟩
        hpool hle0 hfuel0
    refine ⟨st', ?_, ?_, ?_⟩
    · rw [executeIntegration_eq_loop, hrun]
    · simpa using hlog
    · refine hlast ?_
      show (0 : Nat) < Nat.max pool.keyCount 3
      exact Nat.lt_of_lt_of_le (by decide) (Nat.le_max_right pool.keyCount 3)

theorem executeIntegration_retry_policy_witness :
    ∃ st, executeIntegration fxOracle404 4 fxPool1 [] fxSpecINT false 0 =
        some (.error ⟨st.lastApiError⟩, st) ∧
      st.callLog.length = Nat.max fxPool1.keyCount 3 ∧
      st.lastApiError.isSome :=
  executeIntegration_retry_policy.2 fxOracle404 4 fxPool1 [] fxSpecINT false 0
    (fun _ => ⟨404, rfl, by decide⟩) (by decide) (by decide)

/-! ### Structural lemmas for the parallel executor -/

theorem updTask_length (tasks : List ParallelTask) (i : Nat)
    (f : ParallelTask → ParallelTask) : (updTask tasks i f).length = tasks.length := by
  unfold updTask
  cases h : tasks[i]? <;> simp

theorem updTask_get_ne (tasks : List ParallelTask) (i : Nat)
    (f : ParallelTask → ParallelTask) (j : Nat) (h : j ≠ i) :
    (updTask tasks i f)[j]? = tasks[j]? := by
  unfold updTask
  cases hg : tasks[i]? with
  | none => rfl
  | some t => simp [List.getElem?_set_ne (fun he => h he.symm)]

theorem updTask_get_eq (tasks : List ParallelTask) (i : Nat)
    (f : ParallelTask → ParallelTask) (t : ParallelTask) (h : tasks[i]? = some t) :
    (updTask tasks i f)[i]? = some (f t) := by
  unfold updTask
  rw [h]
  have hi : i < tasks.length := (List.getElem?_eq_some_iff.mp h).1
  simp [List.getElem?_set_self, hi]

theorem taskEvolve_refl (t : ParallelTask) : taskEvolve t t :=
  ⟨rfl, rfl, Nat.le_refl _, Nat.le_refl _⟩

theorem taskEvolve_trans {a b c : ParallelTask} (h1 : taskEvolve a b)
    (h2 : taskEvolve b c) : taskEvolve a c :=
  ⟨h2.1.trans h1.1, h2.2.1.trans h1.2.1, h1.2.2.1.trans h2.2.2.1,
   h1.2.2.2.trans h2.2.2.2⟩

theorem tasksEvolve_refl (ts : List ParallelTask) : tasksEvolve ts ts :=
  ⟨rfl, fun _ t t' h h' => by
    rw [h] at h'
    cases h'
    exact taskEvolve_refl t⟩

theorem tasksEvolve_trans {a b c : List ParallelTask} (h1 : tasksEvolve a b)
    (h2 : tasksEvolve b c) : tasksEvolve a c := by
  refine ⟨h1.1.trans h2.1, fun i t t' ht ht' => ?_⟩
  have hi : i < b.length := by
    have h2 := (List.getElem?_eq_some_iff.mp ht).1
    have h3 := h1.1
    omega
  obtain ⟨tb, htb⟩ : ∃ tb, b[i]? = some tb := by
    exact ⟨b[i], (List.getElem?_eq_some_iff.mpr ⟨hi, rfl⟩)⟩
  exact taskEvolve_trans (h1.2 i t tb ht htb) (h2.2 i tb t' htb ht')

theorem updTask_evolve (tasks : List ParallelTask) (i : Nat)
    (f : ParallelTask → ParallelTask) (hf : ∀ t, taskEvolve t (f t)) :
    tasksEvolve tasks (updTask tasks i f) := by
  refine ⟨(updTask_length tasks i f).symm, fun j t t' ht ht' => ?_⟩
  by_cases hj : j = i
  · subst hj
    rw [updTask_get_eq tasks j f t ht] at ht'
    cases ht'
    exact hf t
  · rw [updTask_get_ne tasks i f j hj, ht] at ht'
    cases ht'
    exact taskEvolve_refl t

theorem map_evolve (tasks : List ParallelTask) (f : ParallelTask → ParallelTask)
    (hf : ∀ t, taskEvolve t (f t)) : tasksEvolve tasks (tasks.map f) := by
  refine ⟨(List.length_map tasks f).symm, fun j t t' ht ht' => ?_⟩
  rw [List.getElem?_map, ht] at ht'
  cases ht'
  exact hf t

theorem launchOne_evolve (oracle : BufferedOracle) (st : ParState) (idx : Nat) :
    tasksEvolve st.tasks (launchOne oracle st idx).1.tasks := by
  unfold launchOne
  exact updTask_evolve st.tasks idx _ (fun t => ⟨rfl, rfl, Nat.le_refl _, Nat.le_succ _⟩)

theorem evictRecompute_evolve (st : ParState) (key : String) :
    tasksEvolve st.tasks (evictRecompute st key).tasks := by
  unfold evictRecompute
  refine map_evolve st.tasks _ (fun t => ?_)
  by_cases hp : t.status = .pending
  · simp only [hp, if_pos]
    exact ⟨rfl, rfl, Nat.le_max_left _ _, Nat.le_refl _⟩
  · simp only [hp, if_neg, ite_false]
    exact taskEvolve_refl t

theorem applyFailure_transient (st : ParState) (np : List Nat) (idx : Nat) (key : String)
    (status : Nat)
    (hcls : classifyError (failureError st idx key status) = ⟨false, false, false⟩)
    (hlt : (st.tasks[idx]?.getD defaultTask).attempts <
      (st.tasks[idx]?.getD defaultTask).maxAttempts) :
    applyFailure st np idx key status =
      ({ st with lastApiError := some (failureError st idx key status) }, np ++ [idx]) := by
  simp [applyFailure, hcls, hlt]

theorem applyFailure_exhausted (st : ParState) (np : List Nat) (idx : Nat) (key : String)
    (status : Nat)
    (hcls : classifyError (failureError st idx key status) = ⟨false, false, false⟩)
    (hge : ¬ (st.tasks[idx]?.getD defaultTask).attempts <
      (st.tasks[idx]?.getD defaultTask).maxAttempts) :
    applyFailure st np idx key status =
      ({ st with
           lastApiError := some (failureError st idx key status)
           tasks := updTask st.tasks idx (fun t => { t with status := .failed }) }, np) := by
  simp [applyFailure, hcls, hge]

theorem applyFailure_dropModel (st : ParState) (np : List Nat) (idx : Nat) (key : String)
    (status : Nat)
    (hcls : classifyError (failureError st idx key status) = ⟨true, false, true⟩) :
    applyFailure st np idx key status =
      ({ st with
           lastApiError := some (failureError st idx key status)
           tasks := updTask st.tasks idx (fun t => { t with status := .failed }) }, np) := by
  simp [applyFailure, hcls]

theorem applyFailure_evict (st : ParState) (np : List Nat) (idx : Nat) (key : String)
    (status : Nat)
    (hcls : classifyError (failureError st idx key status) = ⟨true, true, false⟩) :
    applyFailure st np idx key status =
      (let st2 := evictRecompute
        { st with lastApiError := some (failureError st idx key status) } key
       if (st2.tasks.getD idx defaultTask).attempts <
           (st2.tasks.getD idx defaultTask).maxAttempts then
         (st2, np ++ [idx])
       else
         ({ st2 with tasks := updTask st2.tasks idx (fun t => { t with status := .failed }) },
          np)) := by
  simp [applyFailure, hcls]

theorem applyFailure_evolve (st : ParState) (np : List Nat) (idx : Nat) (key : String)
    (status : Nat) :
    tasksEvolve st.tasks (applyFailure st np idx key status).1.tasks := by
  have hupd : ∀ st2 : ParState, tasksEvolve st.tasks st2.tasks →
      tasksEvolve st.tasks
        (updTask st2.tasks idx (fun t => { t with status := TaskStatus.failed })) :=
    fun st2 h => tasksEvolve_trans h
      (updTask_evolve st2.tasks idx _ (fun t => ⟨rfl, rfl, Nat.le_refl _, Nat.le_refl _⟩))
  have hev : tasksEvolve st.tasks
      (evictRecompute { st with lastApiError := some (failureError st idx key status) }
        key).tasks :=
    evictRecompute_evolve { st with lastApiError := some (failureError st idx key status) } key
  unfold applyFailure
  simp only
  repeat' split
  all_goals
    first
      | exact hev
      | exact tasksEvolve_refl st.tasks
      | exact hupd _ hev
      | exact hupd _ (tasksEvolve_refl st.tasks)

theorem processOne_evolve (st : ParState) (np : List Nat)
    (r : Nat × String × Except Nat String) :
    tasksEvolve st.tasks (processOne st np r).1.tasks := by
  unfold processOne
  rcases r with ⟨idx, key, outcome⟩
  cases outcome with
  | ok content =>
    exact updTask_evolve st.tasks idx _ (fun t => ⟨rfl, rfl, Nat.le_refl _, Nat.le_refl _⟩)
  | error status => exact applyFailure_evolve st np idx key status

theorem launchFold_evolve (oracle : BufferedOracle) :
    ∀ (pending : List Nat) (acc : ParState × List (Nat × String × Except Nat String)),
      tasksEvolve acc.1.tasks ((pending.foldl (launchStep oracle) acc).1.tasks)
  | [], acc => tasksEvolve_refl acc.1.tasks
  | i :: rest, acc => by
    rw [List.foldl_cons]
    exact tasksEvolve_trans (launchOne_evolve oracle acc.1 i)
      (launchFold_evolve oracle rest (launchStep oracle acc i))

theorem processFold_evolve :
    ∀ (rs : List (Nat × String × Except Nat String)) (acc : ParState × List Nat),
      tasksEvolve acc.1.tasks ((rs.foldl processStep acc).1.tasks)
  | [], acc => tasksEvolve_refl acc.1.tasks
  | r :: rest, acc => by
    rw [List.foldl_cons]
    exact tasksEvolve_trans (processOne_evolve acc.1 acc.2 r)
      (processFold_evolve rest (processStep acc r))

theorem runRound_evolve (oracle : BufferedOracle) (st : ParState) (pending : List Nat) :
    tasksEvolve st.tasks (runRound oracle st pending).1.tasks := by
  unfold runRound
  exact tasksEvolve_trans (launchFold_evolve oracle pending (st, []))
    (processFold_evolve (launchRound oracle st pending).2
      ((launchRound oracle st pending).1, []))

theorem parLoop_exit (oracle : BufferedOracle) (fuel : Nat) (st : ParState)
    (pending : List Nat) (h : pending.isEmpty = true ∨ st.pool.keyCount = 0) :
    parLoop oracle fuel st pending = some (st, []) := by
  cases fuel with
  | zero =>
    unfold parLoop
    rcases h with h | h
    · rw [if_pos h]
    · by_cases h1 : pending.isEmpty = true
      · rw [if_pos h1]
      · rw [if_neg h1, if_pos h]
  | succ fuel =>
    unfold parLoop
    rcases h with h | h
    · rw [if_pos h]
    · by_cases h1 : pending.isEmpty = true
      · rw [if_pos h1]
      · rw [if_neg h1, if_pos h]

theorem parLoop_zero_stuck (oracle : BufferedOracle) (st : ParState) (pending : List Nat)
    (h1 : ¬ pending.isEmpty = true) (h2 : ¬ st.pool.keyCount = 0) :
    parLoop oracle 0 st pending = none := by
  unfold parLoop
  rw [if_neg h1, if_neg h2]

theorem parLoop_succ (oracle : BufferedOracle) (fuel : Nat) (st : ParState)
    (pending : List Nat) (h1 : ¬ pending.isEmpty = true) (h2 : ¬ st.pool.keyCount = 0) :
    parLoop oracle (fuel + 1) st pending =
      match parLoop oracle fuel (runRound oracle st pending).1
          (runRound oracle st pending).2 with
      | none => none
      | some (stF, snaps) => some (stF, (runRound oracle st pending).1.tasks :: snaps) := by
  have hdef : parLoop oracle (fuel + 1) st pending =
      if pending.isEmpty then some (st, [])
      else if st.pool.keyCount = 0 then some (st, [])
      else
        match parLoop oracle fuel (runRound oracle st pending).1
            (runRound oracle st pending).2 with
        | none => none
        | some (stF, snaps) => some (stF, (runRound oracle st pending).1.tasks :: snaps) :=
    rfl
  rw [hdef, if_neg h1, if_neg h2]

theorem parLoop_inv (oracle : BufferedOracle) (P : ParState → List Nat → Prop)
    (hstep : ∀ st pending, ¬ pending.isEmpty = true → ¬ st.pool.keyCount = 0 →
      P st pending → P (runRound oracle st pending).1 (runRound oracle st pending).2) :
    ∀ (fuel : Nat) (st : ParState) (pending : List Nat) (st' : ParState)
      (snaps : List (List ParallelTask)), P st pending →
      parLoop oracle fuel st pending = some (st', snaps) →
      ∃ pend', P st' pend' ∧ (pend'.isEmpty = true ∨ st'.pool.keyCount = 0) := by
  intro fuel
  induction fuel with
  | zero =>
    intro st pending st' snaps hP hrun
    by_cases h1 : pending.isEmpty = true
    · rw [parLoop_exit oracle 0 st pending (Or.inl h1)] at hrun
      obtain ⟨rfl, -⟩ : st = st' ∧ [] = snaps := by simpa using hrun
      exact ⟨pending, hP, Or.inl h1⟩
    · by_cases h2 : st.pool.keyCount = 0
      · rw [parLoop_exit oracle 0 st pending (Or.inr h2)] at hrun
        obtain ⟨rfl, -⟩ : st = st' ∧ [] = snaps := by simpa using hrun
        exact ⟨pending, hP, Or.inr h2⟩
      · rw [parLoop_zero_stuck oracle st pending h1 h2] at hrun
        exact absurd hrun (by simp)
  | succ fuel ih =>
    intro st pending st' snaps hP hrun
    by_cases h1 : pending.isEmpty = true
    · rw [parLoop_exit oracle (fuel + 1) st pending (Or.inl h1)] at hrun
      obtain ⟨rfl, -⟩ : st = st' ∧ [] = snaps := by simpa using hrun
      exact ⟨pending, hP, Or.inl h1⟩
    · by_cases h2 : st.pool.keyCount = 0
      · rw [parLoop_exit oracle (fuel + 1) st pending (Or.inr h2)] at hrun
        obtain ⟨rfl, -⟩ : st = st' ∧ [] = snaps := by simpa using hrun
        exact ⟨pending, hP, Or.inr h2⟩
      · rw [parLoop_succ oracle fuel st pending h1 h2] at hrun
        rcases hrec : parLoop oracle fuel (runRound oracle st pending).1
            (runRound oracle st pending).2 with _ | ⟨stF, snaps'⟩
        · rw [hrec] at hrun
          exact absurd hrun (by simp)
        · rw [hrec] at hrun
          obtain ⟨hstF, -⟩ : stF = st' ∧
              (runRound oracle st pending).1.tasks :: snaps' = snaps := by
            simpa using hrun
          subst hstF
          exact ih (runRound oracle st pending).1 (runRound oracle st pending).2 stF snaps'
            (hstep st pending h1 h2 hP) hrec

theorem parLoop_chain (oracle : BufferedOracle)
    (R : List ParallelTask → List ParallelTask → Prop)
    (hstep : ∀ st pending, R st.tasks (runRound oracle st pending).1.tasks) :
    ∀ (fuel : Nat) (st : ParState) (pending : List Nat) (st' : ParState)
      (snaps : List (List ParallelTask)),
      parLoop oracle fuel st pending = some (st', snaps) →
      List.Chain' R (st.tasks :: snaps) ∧
        (st.tasks :: snaps).getLast? = some st'.tasks := by
  intro fuel
  induction fuel with
  | zero =>
    intro st pending st' snaps hrun
    by_cases h1 : pending.isEmpty = true
    · rw [parLoop_exit oracle 0 st pending (Or.inl h1)] at hrun
      obtain ⟨rfl, hsn⟩ : st = st' ∧ [] = snaps := by simpa using hrun
      rw [← hsn]
      exact ⟨List.chain'_singleton _, rfl⟩
    · by_cases h2 : st.pool.keyCount = 0
      · rw [parLoop_exit oracle 0 st pending (Or.inr h2)] at hrun
        obtain ⟨rfl, hsn⟩ : st = st' ∧ [] = snaps := by simpa using hrun
        rw [← hsn]
        exact ⟨List.chain'_singleton _, rfl⟩
      · rw [parLoop_zero_stuck oracle st pending h1 h2] at hrun
        exact absurd hrun (by simp)
  | succ fuel ih =>
    intro st pending st' snaps hrun
    by_cases h1 : pending.isEmpty = true
    · rw [parLoop_exit oracle (fuel + 1) st pending (Or.inl h1)] at hrun
      obtain ⟨rfl, hsn⟩ : st = st' ∧ [] = snaps := by simpa using hrun
      rw [← hsn]
      exact ⟨List.chain'_singleton _, rfl⟩
    · by_cases h2 : st.pool.keyCount = 0
      · rw [parLoop_exit oracle (fuel + 1) st pending (Or.inr h2)] at hrun
        obtain ⟨rfl, hsn⟩ : st = st' ∧ [] = snaps := by simpa using hrun
        rw [← hsn]
        exact ⟨List.chain'_singleton _, rfl⟩
      · rw [parLoop_succ oracle fuel st pending h1 h2] at hrun
        rcases hrec : parLoop oracle fuel (runRound oracle st pending).1
            (runRound oracle st pending).2 with _ | ⟨stF, snaps'⟩
        · rw [hrec] at hrun
          exact absurd hrun (by simp)
        · rw [hrec] at hrun
          obtain ⟨hstF, hsn⟩ : stF = st' ∧
              (runRound oracle st pending).1.tasks :: snaps' = snaps := by
            simpa using hrun
          subst hstF
          obtain ⟨hch, hlast⟩ := ih (runRound oracle st pending).1
            (runRound oracle st pending).2 stF snaps' hrec
          rw [← hsn]
          constructor
          · exact List.Chain'.cons' hch (by
              intro b hb
              have hbe : (runRound oracle st pending).1.tasks = b := by
                simpa using hb
              rw [← hbe]
              exact hstep st pending)
          · simpa using hlast

theorem updTask_resOk {ts : List ParallelTask} {i : Nat} {f : ParallelTask → ParallelTask}
    (h : resOkTasks ts)
    (hf : ∀ t, (t.status = .fulfilled → t.result.isSome = true) →
      (f t).status = .fulfilled → (f t).result.isSome = true) :
    resOkTasks (updTask ts i f) := by
  intro j t' ht' hst
  by_cases hj : j = i
  · subst hj
    rcases hg : ts[j]? with _ | t
    · have he : updTask ts j f = ts := by unfold updTask; rw [hg]
      rw [he, hg] at ht'
      cases ht'
    · rw [updTask_get_eq ts j f t hg] at ht'
      cases ht'
      exact hf t (h j t hg) hst
  · rw [updTask_get_ne ts i f j hj] at ht'
    exact h j t' ht' hst

theorem map_resOk {ts : List ParallelTask} {f : ParallelTask → ParallelTask}
    (h : resOkTasks ts)
    (hf : ∀ t, (f t).status = t.status ∧ (f t).result = t.result) :
    resOkTasks (ts.map f) := by
  intro j t' ht' hst
  rcases hg : ts[j]? with _ | t
  · rw [List.getElem?_map, hg] at ht'
    exact absurd ht' (by simp)
  · rw [List.getElem?_map, hg] at ht'
    cases ht'
    rw [(hf t).2]
    exact h j t hg (by rw [← (hf t).1]; exact hst)

theorem launchOne_resOk (oracle : BufferedOracle) (st : ParState) (idx : Nat)
    (h : resOkTasks st.tasks) : resOkTasks (launchOne oracle st idx).1.tasks := by
  unfold launchOne
  exact updTask_resOk h (fun t ht hs => ht hs)

theorem evictRecompute_resOk (st : ParState) (key : String)
    (h : resOkTasks st.tasks) : resOkTasks (evictRecompute st key).tasks := by
  unfold evictRecompute
  refine map_resOk h (fun t => ?_)
  by_cases hp : t.status = .pending <;> simp [hp]

theorem applyFailure_resOk (st : ParState) (np : List Nat) (idx : Nat) (key : String)
    (status : Nat) (h : resOkTasks st.tasks) :
    resOkTasks (applyFailure st np idx key status).1.tasks := by
  have hupd : ∀ st2 : ParState, resOkTasks st2.tasks →
      resOkTasks (updTask st2.tasks idx (fun t => { t with status := TaskStatus.failed })) :=
    fun st2 h2 => updTask_resOk h2 (fun t _ hs => by cases hs)
  have hev : resOkTasks
      (evictRecompute { st with lastApiError := some (failureError st idx key status) }
        key).tasks :=
    evictRecompute_resOk { st with lastApiError := some (failureError st idx key status) } key h
  unfold applyFailure
  simp only
  repeat' split
  all_goals
    first
      | exact hev
      | exact h
      | exact hupd _ hev
      | exact hupd _ h

theorem processOne_resOk (st : ParState) (np : List Nat)
    (r : Nat × String × Except Nat String) (h : resOkTasks st.tasks) :
    resOkTasks (processOne st np r).1.tasks := by
  unfold processOne
  rcases r with ⟨idx, key, outcome⟩
  cases outcome with
  | ok content => exact updTask_resOk h (fun t _ _ => rfl)
  | error status => exact applyFailure_resOk st np idx key status h

theorem launchFold_resOk (oracle : BufferedOracle) :
    ∀ (pending : List Nat) (acc : ParState × List (Nat × String × Except Nat String)),
      resOkTasks acc.1.tasks →
      resOkTasks ((pending.foldl (launchStep oracle) acc).1.tasks)
  | [], _, h => h
  | i :: rest, acc, h => by
    rw [List.foldl_cons]
    exact launchFold_resOk oracle rest (launchStep oracle acc i)
      (launchOne_resOk oracle acc.1 i h)

theorem processFold_resOk :
    ∀ (rs : List (Nat × String × Except Nat String)) (acc : ParState × List Nat),
      resOkTasks acc.1.tasks → resOkTasks ((rs.foldl processStep acc).1.tasks)
  | [], _, h => h
  | r :: rest, acc, h => by
    rw [List.foldl_cons]
    exact processFold_resOk rest (processStep acc r) (processOne_resOk acc.1 acc.2 r h)

theorem runRound_resOk (oracle : BufferedOracle) (st : ParState) (pending : List Nat)
    (h : resOkTasks st.tasks) : resOkTasks (runRound oracle st pending).1.tasks := by
  unfold runRound
  exact processFold_resOk (launchRound oracle st pending).2
    ((launchRound oracle st pending).1, []) (launchFold_resOk oracle pending (st, []) h)

/-- `executeParallel` unfolded to its retry loop (definitional). -/
theorem executeParallel_eq_loop (oracle : BufferedOracle) (fuel : Nat)
    (pool : ApiKeyManager) (models : List ModelSettings) (messages : ParMessages)
    (startCalls : Nat) :
    executeParallel oracle fuel pool models messages startCalls =
      match parLoop oracle fuel
          ⟨models.map (initTask pool.keyCount messages), pool, startCalls, [], none⟩
          ((List.range (models.map (initTask pool.keyCount messages)).length).filter
            (fun i => ((models.map (initTask pool.keyCount messages)).getD i
              defaultTask).status = .pending)) with
      | none => none
      | some (st, snaps) =>
        if (collectValid st.tasks).isEmpty then
          some (.error ⟨st.lastApiError⟩, st,
            (models.map (initTask pool.keyCount messages)) :: snaps)
        else
          some (.ok (collectValid st.tasks), st,
            (models.map (initTask pool.keyCount messages)) :: snaps) := rfl

theorem initTask_modelSettings (k : Nat) (msgs : ParMessages) (m : ModelSettings) :
    (initTask k msgs m).modelSettings = m := by
  unfold initTask
  by_cases h : (lookupMessages msgs m).length = 0 <;> simp [h]

theorem initTask_status_ne (k : Nat) (msgs : ParMessages) (m : ModelSettings) :
    ¬ (initTask k msgs m).status = .fulfilled := by
  unfold initTask
  by_cases h : (lookupMessages msgs m).length = 0 <;> simp [h]

theorem initTasks_resOk (k : Nat) (msgs : ParMessages) (models : List ModelSettings) :
    resOkTasks (models.map (initTask k msgs)) := by
  intro i t ht hs
  rcases hg : models[i]? with _ | m
  · rw [List.getElem?_map, hg] at ht
    cases ht
  · rw [List.getElem?_map, hg] at ht
    cases ht
    exact absurd hs (initTask_status_ne k msgs m)

/-- C3: whenever `executeParallel` terminates, the final task array is
positionally aligned with the input model list (same length, `i`-th task
holds the `i`-th model); a successful result is exactly
`collectValid st.tasks`, i.e. the fulfilled tasks' replies filtered in
input order, and is non-empty; and the all-failed error is thrown if and
only if no task is fulfilled. -/
theorem executeParallel_order_and_allfailed
    (oracle : BufferedOracle) (fuel : Nat) (pool : ApiKeyManager)
    (models : List ModelSettings) (messages : ParMessages) (startCalls : Nat)
    (res : Except AllFailed (List ModelResponse)) (st : ParState)
    (snaps : List (List ParallelTask))
    (hrun : executeParallel oracle fuel pool models messages startCalls =
      some (res, st, snaps)) :
    st.tasks.length = models.length ∧
    (∀ (i : Nat) (t : ParallelTask) (m : ModelSettings),
       st.tasks[i]? = some t → models[i]? = some m → t.modelSettings = m) ∧
    (∀ out, res = .ok out → out = collectValid st.tasks ∧ out ≠ []) ∧
    ((∃ e, res = .error e) ↔ ∀ t ∈ st.tasks, ¬ t.status = .fulfilled) := by
  rw [executeParallel_eq_loop] at hrun
  rcases hloop : parLoop oracle fuel
      ⟨models.map (initTask pool.keyCount messages), pool, startCalls, [], none⟩
      ((List.range (models.map (initTask pool.keyCount messages)).length).filter
        (fun i => ((models.map (initTask pool.keyCount messages)).getD i
          defaultTask).status = .pending)) with _ | ⟨stL, snapsL⟩
  · rw [hloop] at hrun
    exact absurd hrun (by simp)
  · rw [hloop] at hrun
    have hres : resOkTasks stL.tasks := by
      obtain ⟨-, hP, -⟩ := parLoop_inv oracle (fun s _ => resOkTasks s.tasks)
        (fun s p _ _ h => runRound_resOk oracle s p h) fuel _ _ stL snapsL
        (initTasks_resOk pool.keyCount messages models) hloop
      exact hP
    have hev : tasksEvolve (models.map (initTask pool.keyCount messages)) stL.tasks := by
      obtain ⟨-, hP, -⟩ := parLoop_inv oracle
        (fun s _ => tasksEvolve (models.map (initTask pool.keyCount messages)) s.tasks)
        (fun s p _ _ h => tasksEvolve_trans h (runRound_evolve oracle s p)) fuel _ _ stL snapsL
        (tasksEvolve_refl _) hloop
      exact hP
    have hlen : stL.tasks.length = models.length := by
      have := hev.1
      rw [List.length_map] at this
      exact this.symm
    have hpos : ∀ (i : Nat) (t : ParallelTask) (m : ModelSettings),
        stL.tasks[i]? = some t → models[i]? = some m → t.modelSettings = m := by
      intro i t m ht hm
      have h0 : (models.map (initTask pool.keyCount messages))[i]? =
          some (initTask pool.keyCount messages m) := by
        rw [List.getElem?_map, hm]
        rfl
      have := (hev.2 i _ t h0 ht).1
      rw [this, initTask_modelSettings]
    by_cases hv : (collectValid stL.tasks).isEmpty = true
    · have hrun' : (some ((Except.error ⟨stL.lastApiError⟩ :
          Except AllFailed (List ModelResponse)), stL,
          (models.map (initTask pool.keyCount messages)) :: snapsL) :
          Option (Except AllFailed (List ModelResponse) × ParState ×
            List (List ParallelTask))) = some (res, st, snaps) := by
        rw [← hrun]
        simp [hv]
      obtain ⟨hre, hst, -⟩ :
          (Except.error ⟨stL.lastApiError⟩ : Except AllFailed (List ModelResponse)) = res ∧
          stL = st ∧
          (models.map (initTask pool.keyCount messages)) :: snapsL = snaps := by
        simpa using hrun'
      subst hst
      refine ⟨hlen, hpos, ?_, ?_⟩
      · intro out hout
        rw [← hre] at hout
        cases hout
      · constructor
        · intro _ t hmem hful
          have hnil : collectValid stL.tasks = [] := by
            have := List.isEmpty_iff.mp hv
            exact this
          have hnone : (if t.status = .fulfilled then t.result else none) = none := by
            have hall := List.filterMap_eq_nil_iff.mp hnil
            exact hall t hmem
          rw [if_pos hful] at hnone
          obtain ⟨i, hi⟩ := List.mem_iff_getElem?.mp hmem
          have := hres i t hi hful
          rw [hnone] at this
          cases this
        · intro _
          exact ⟨⟨stL.lastApiError⟩, hre.symm⟩
    · have hrun' : (some ((Except.ok (collectValid stL.tasks) :
          Except AllFailed (List ModelResponse)), stL,
          (models.map (initTask pool.keyCount messages)) :: snapsL) :
          Option (Except AllFailed (List ModelResponse) × ParState ×
            List (List ParallelTask))) = some (res, st, snaps) := by
        rw [← hrun]
        simp [hv]
      obtain ⟨hre, hst, -⟩ :
          (Except.ok (collectValid stL.tasks) : Except AllFailed (List ModelResponse)) = res ∧
          stL = st ∧
          (models.map (initTask pool.keyCount messages)) :: snapsL = snaps := by
        simpa using hrun'
      subst hst
      refine ⟨hlen, hpos, ?_, ?_⟩
      · intro out hout
        rw [← hre] at hout
        cases hout
        refine ⟨rfl, ?_⟩
        intro hnil
        exact hv (by rw [hnil]; rfl)
      · constructor
        · intro hex
          obtain ⟨e, he⟩ := hex
          rw [← hre] at he
          cases he
        · intro hall
          exfalso
          apply hv
          have hnil : collectValid stL.tasks = [] := by
            refine List.filterMap_eq_nil_iff.mpr (fun t hmem => ?_)
            rw [if_neg (hall t hmem)]
          rw [hnil]
          rfl

/-- The scenario-W run fully evaluated: two rounds, one eviction, both
tasks eventually fulfilled (the second with empty content). -/
theorem fxRunW_eq :
    executeParallel fxOracleW 5 fxPoolBadOk [fxSpecA, fxSpecB] (.shared [fxMsgHi]) 0 =
      some (.ok [⟨"A", "cerebras", "ya", none⟩, ⟨"B", "cerebras", "", none⟩],
        fxStW, [fxTs0W, fxTsR1W, fxStW.tasks]) := by
  decide

/-- C3 witness: the claim theorem applied to the concrete scenario-W
run. -/
theorem executeParallel_order_and_allfailed_witness :
    fxStW.tasks.length = [fxSpecA, fxSpecB].length ∧
    (∀ (i : Nat) (t : ParallelTask) (m : ModelSettings),
       fxStW.tasks[i]? = some t → [fxSpecA, fxSpecB][i]? = some m → t.modelSettings = m) ∧
    (∀ out, (Except.ok [⟨"A", "cerebras", "ya", none⟩, ⟨"B", "cerebras", "", none⟩] :
        Except AllFailed (List ModelResponse)) = .ok out →
      out = collectValid fxStW.tasks ∧ out ≠ []) ∧
    ((∃ e, (Except.ok [⟨"A", "cerebras", "ya", none⟩, ⟨"B", "cerebras", "", none⟩] :
        Except AllFailed (List ModelResponse)) = .error e) ↔
      ∀ t ∈ fxStW.tasks, ¬ t.status = .fulfilled) :=
  executeParallel_order_and_allfailed fxOracleW 5 fxPoolBadOk [fxSpecA, fxSpecB]
    (.shared [fxMsgHi]) 0 _ fxStW [fxTs0W, fxTsR1W, fxStW.tasks] fxRunW_eq

theorem runRound_single (oracle : BufferedOracle) (st : ParState) (idx : Nat) :
    runRound oracle st [idx] =
      processOne (launchOne oracle st idx).1 [] (launchOne oracle st idx).2 := rfl

theorem launchOne_parts (oracle : BufferedOracle) (st : ParState) (idx : Nat)
    (t : ParallelTask) (hg : st.tasks[idx]? = some t) :
    (launchOne oracle st idx).1.tasks[idx]? = some { t with attempts := t.attempts + 1 } ∧
    (launchOne oracle st idx).1.tasks.length = st.tasks.length ∧
    (launchOne oracle st idx).1.pool.availableKeys = st.pool.availableKeys ∧
    (launchOne oracle st idx).1.callLog.length = st.callLog.length + 1 := by
  refine ⟨?_, ?_, ?_, ?_⟩
  · exact updTask_get_eq st.tasks idx _ t hg
  · exact updTask_length st.tasks idx _
  · exact getNextKey_avail st.pool
  · show (st.callLog ++ [_]).length = _
    simp

theorem processOne_error (st : ParState) (np : List Nat)
    (r : Nat × String × Except Nat String) (i : Nat) (k : String) (s : Nat)
    (hr : r = (i, k, .error s)) :
    processOne st np r = applyFailure st np i k s := by
  subst hr
  rfl

/-- The single-task all-transient retry loop: it performs exactly
`maxAttempts - attempts` further calls and ends with the task failed at
`attempts = maxAttempts`. -/
theorem parLoop_single_transient (oracle : BufferedOracle)
    (htr : ∀ n, ∃ s, oracle n = .error s ∧
      classifyError ⟨"", s, "", none⟩ = ⟨false, false, false⟩) :
    ∀ (fuel : Nat) (st : ParState) (idx : Nat) (t : ParallelTask),
      st.tasks[idx]? = some t → t.status = .pending →
      t.attempts < t.maxAttempts → ¬ st.pool.keyCount = 0 →
      t.maxAttempts - t.attempts ≤ fuel →
      ∃ st' snaps, parLoop oracle fuel st [idx] = some (st', snaps) ∧
        st'.callLog.length = st.callLog.length + (t.maxAttempts - t.attempts) ∧
        st'.tasks.length = st.tasks.length ∧
        ∃ t', st'.tasks[idx]? = some t' ∧ t'.status = .failed ∧
          t'.attempts = t.maxAttempts := by
  intro fuel
  induction fuel with
  | zero =>
    intro st idx t hg hp hlt hk hfuel
    omega
  | succ fuel ih =>
    intro st idx t hg hp hlt hk hfuel
    have h1 : ¬ ([idx].isEmpty = true) := by simp
    obtain ⟨s, hs, hcls0⟩ := htr st.calls
    obtain ⟨hLget, hLlen, hLavail, hLlog⟩ := launchOne_parts oracle st idx t hg
    have hrec : (launchOne oracle st idx).2 =
        (idx, ((st.pool.getNextKey).1).getD "", Except.error s) := by
      have h0 : (launchOne oracle st idx).2 =
          (idx, ((st.pool.getNextKey).1).getD "", oracle st.calls) := rfl
      rw [h0, hs]
    have hcls : classifyError (failureError (launchOne oracle st idx).1 idx
        (((st.pool.getNextKey).1).getD "") s) = ⟨false, false, false⟩ := by
      have := classifyError_status_only
        (failureError (launchOne oracle st idx).1 idx (((st.pool.getNextKey).1).getD "") s)
        ⟨"", s, "", none⟩ rfl
      rw [this, hcls0]
    have hgetD : ((launchOne oracle st idx).1.tasks[idx]?.getD defaultTask) =
        { t with attempts := t.attempts + 1 } := by
      rw [hLget]
      rfl
    by_cases hmore : t.attempts + 1 < t.maxAttempts
    · have hlt2 : ((launchOne oracle st idx).1.tasks[idx]?.getD defaultTask).attempts <
          ((launchOne oracle st idx).1.tasks[idx]?.getD defaultTask).maxAttempts := by
        rw [hgetD]
        exact hmore
      have hrr : runRound oracle st [idx] =
          ((⟨(launchOne oracle st idx).1.tasks, (launchOne oracle st idx).1.pool,
             (launchOne oracle st idx).1.calls, (launchOne oracle st idx).1.callLog,
             some (failureError (launchOne oracle st idx).1 idx
               (((st.pool.getNextKey).1).getD "") s)⟩ : ParState), [idx]) := by
        rw [runRound_single oracle st idx,
          processOne_error (launchOne oracle st idx).1 [] (launchOne oracle st idx).2
            idx (((st.pool.getNextKey).1).getD "") s hrec,
          applyFailure_transient (launchOne oracle st idx).1 [] idx
            (((st.pool.getNextKey).1).getD "") s hcls hlt2]
        rfl
      obtain ⟨st', snaps, hloop, hlog, hlen, t', ht', hfail, hatt⟩ :=
        ih (⟨(launchOne oracle st idx).1.tasks, (launchOne oracle st idx).1.pool,
             (launchOne oracle st idx).1.calls, (launchOne oracle st idx).1.callLog,
             some (failureError (launchOne oracle st idx).1 idx
               (((st.pool.getNextKey).1).getD "") s)⟩ : ParState)
          idx { t with attempts := t.attempts + 1 } hLget hp hmore
          (by
            show ¬ ((launchOne oracle st idx).1.pool.keyCount = 0)
            unfold ApiKeyManager.keyCount
            rw [hLavail]
            exact hk)
          (by
            show t.maxAttempts - (t.attempts + 1) ≤ fuel
            omega)
      rw [parLoop_succ oracle fuel st [idx] h1 hk, hrr]
      dsimp only
      rw [hloop]
      refine ⟨st', _, rfl, ?_, ?_, t', ht', hfail, by simpa using hatt⟩
      · have h2 : ((launchOne oracle st idx).1.callLog).length = st.callLog.length + 1 := hLlog
        have h3 : st'.callLog.length =
            ((launchOne oracle st idx).1.callLog).length +
              (t.maxAttempts - (t.attempts + 1)) := by
          simpa using hlog
        omega
      · rw [hlen]
        exact hLlen
    · have hge2 : ¬ ((launchOne oracle st idx).1.tasks[idx]?.getD defaultTask).attempts <
          ((launchOne oracle st idx).1.tasks[idx]?.getD defaultTask).maxAttempts := by
        rw [hgetD]
        exact hmore
      have hrr : runRound oracle st [idx] =
          ((⟨updTask (launchOne oracle st idx).1.tasks idx
               (fun u => { u with status := .failed }),
             (launchOne oracle st idx).1.pool,
             (launchOne oracle st idx).1.calls, (launchOne oracle st idx).1.callLog,
             some (failureError (launchOne oracle st idx).1 idx
               (((st.pool.getNextKey).1).getD "") s)⟩ : ParState), []) := by
        rw [runRound_single oracle st idx,
          processOne_error (launchOne oracle st idx).1 [] (launchOne oracle st idx).2
            idx (((st.pool.getNextKey).1).getD "") s hrec,
          applyFailure_exhausted (launchOne oracle st idx).1 [] idx
            (((st.pool.getNextKey).1).getD "") s hcls hge2]
      rw [parLoop_succ oracle fuel st [idx] h1 hk, hrr]
      dsimp only
      rw [parLoop_exit oracle fuel _ [] (Or.inl rfl)]
      refine ⟨_, _, rfl, ?_, ?_, ?_⟩
      · show (launchOne oracle st idx).1.callLog.length =
          st.callLog.length + (t.maxAttempts - t.attempts)
        omega
      · show (updTask (launchOne oracle st idx).1.tasks idx _).length = st.tasks.length
        rw [updTask_length]
        exact hLlen
      · refine ⟨{ { t with attempts := t.attempts + 1 } with status := .failed }, ?_, rfl, ?_⟩
        · exact updTask_get_eq (launchOne oracle st idx).1.tasks idx _ _ hLget
        · show t.attempts + 1 = t.maxAttempts
          omega

/-- C4: a single task with non-empty messages against a pool of `p` keys
and an all-transient oracle makes exactly `max(p, 3)` upstream calls,
after which the task is failed with `attempts = max(p, 3)` and
`executeParallel` throws the all-failed error. -/
theorem executeParallel_single_transient_calls
    (oracle : BufferedOracle) (fuel : Nat) (pool : ApiKeyManager) (model : ModelSettings)
    (messages : ParMessages)
    (htr : ∀ n, ∃ s, oracle n = .error s ∧
      classifyError ⟨"", s, "", none⟩ = ⟨false, false, false⟩)
    (hmsg : ¬ (lookupMessages messages model).length = 0)
    (hpool : ¬ pool.keyCount = 0)
    (hfuel : Nat.max pool.keyCount 3 ≤ fuel) :
    ∃ (st : ParState) (snaps : List (List ParallelTask)),
      executeParallel oracle fuel pool [model] messages 0 =
        some (.error ⟨st.lastApiError⟩, st, snaps) ∧
      st.callLog.length = Nat.max pool.keyCount 3 ∧
      ∃ t, st.tasks = [t] ∧ t.status = .failed ∧
        t.attempts = Nat.max pool.keyCount 3 := by
  have ht0 : initTask pool.keyCount messages model =
      ⟨model, lookupMessages messages model, .pending, none, 0,
       Nat.max pool.keyCount 3⟩ := by
    unfold initTask
    rw [if_neg hmsg]
  have hg0 : (⟨[model].map (initTask pool.keyCount messages), pool, 0, [], none⟩ :
      ParState).tasks[0]? = some
      (⟨model, lookupMessages messages model, .pending, none, 0,
        Nat.max pool.keyCount 3⟩ : ParallelTask) := by
    show ([initTask pool.keyCount messages model])[0]? = _
    rw [ht0]
    rfl
  obtain ⟨stL, snapsL, hloop, hlog, hlen, t', ht', hfail, hatt⟩ :=
    parLoop_single_transient oracle htr fuel
      ⟨[model].map (initTask pool.keyCount messages), pool, 0, [], none⟩ 0
      (⟨model, lookupMessages messages model, .pending, none, 0,
        Nat.max pool.keyCount 3⟩ : ParallelTask)
      hg0 rfl
      (by
        show (0 : Nat) < Nat.max pool.keyCount 3
        exact Nat.lt_of_lt_of_le (by decide) (Nat.le_max_right pool.keyCount 3))
      hpool
      (by simpa using hfuel)
  have hone : stL.tasks = [t'] := by
    have hl1 : stL.tasks.length = 1 := by
      rw [hlen]
      rfl
    rcases hts : stL.tasks with _ | ⟨a, rest⟩
    · rw [hts] at hl1
      cases hl1
    · rcases rest with _ | ⟨b, rest'⟩
      · rw [hts] at ht'
        have : a = t' := by simpa using ht'
        rw [this]
      · rw [hts] at hl1
        simp at hl1
  have hvalid : collectValid stL.tasks = [] := by
    rw [hone]
    unfold collectValid
    simp [hfail]
  have hpend : ((List.range (([model].map (initTask pool.keyCount messages)).length)).filter
      (fun i => ((([model].map (initTask pool.keyCount messages)).getD i
        defaultTask)).status = .pending)) = [0] := by
    have hl1 : ([model].map (initTask pool.keyCount messages)).length = 1 := by simp
    rw [hl1, show List.range 1 = [0] by decide]
    rw [List.filter_cons]
    rw [List.filter_nil]
    have hcond2 : (initTask pool.keyCount messages model).status = TaskStatus.pending := by
      rw [ht0]
    simp [hcond2]
  refine ⟨stL, ([model].map (initTask pool.keyCount messages)) :: snapsL, ?_, ?_, t', hone,
    hfail, by simpa using hatt⟩
  · rw [executeParallel_eq_loop, hpend, hloop]
    dsimp only
    rw [if_pos (by rw [hvalid]; rfl)]
  · have : stL.callLog.length = 0 + (Nat.max pool.keyCount 3 - 0) := by simpa using hlog
    omega

theorem classifyError_removeKey_shape (e : LlmApiError)
    (h : (classifyError e).removeKey = true) : classifyError e = ⟨true, true, false⟩ := by
  unfold classifyError at h ⊢
  by_cases h1 : e.status = 401 ∨ e.status = 403
  · rw [if_pos h1]
  · rw [if_neg h1] at h ⊢
    by_cases h2 : e.status = 404
    · rw [if_pos h2] at h
      exact absurd h (by decide)
    · rw [if_neg h2] at h ⊢
      by_cases h3 : 400 ≤ e.status ∧ e.status < 500 ∧ e.status ≠ 429
      · rw [if_pos h3] at h
        exact absurd h (by decide)
      · rw [if_neg h3] at h
        exact absurd h (by decide)

theorem evictRecompute_pending_budget (st : ParState) (key : String) (i : Nat)
    (t : ParallelTask) (ht : st.tasks[i]? = some t) (hp : t.status = .pending) :
    (evictRecompute st key).tasks[i]? = some
      { t with maxAttempts :=
          Nat.max t.maxAttempts (t.attempts + (st.pool.removeKey key).keyCount) } := by
  unfold evictRecompute
  show (st.tasks.map _)[i]? = _
  rw [List.getElem?_map, ht]
  simp [hp]

theorem applyFailure_evict_requeue (st : ParState) (np : List Nat) (idx : Nat)
    (key : String) (status : Nat)
    (hcls : classifyError (failureError st idx key status) = ⟨true, true, false⟩)
    (hlt : (((evictRecompute { st with lastApiError := some (failureError st idx key status) } key).tasks[idx]?.getD defaultTask)).attempts <
      (((evictRecompute { st with lastApiError := some (failureError st idx key status) } key).tasks[idx]?.getD defaultTask)).maxAttempts) :
    applyFailure st np idx key status =
      (evictRecompute { st with lastApiError := some (failureError st idx key status) } key,
       np ++ [idx]) := by
  simp [applyFailure, hcls, hlt]

theorem applyFailure_evict_exhaust (st : ParState) (np : List Nat) (idx : Nat)
    (key : String) (status : Nat)
    (hcls : classifyError (failureError st idx key status) = ⟨true, true, false⟩)
    (hge : ¬ (((evictRecompute { st with lastApiError := some (failureError st idx key status) } key).tasks[idx]?.getD defaultTask)).attempts <
      (((evictRecompute { st with lastApiError := some (failureError st idx key status) } key).tasks[idx]?.getD defaultTask)).maxAttempts) :
    applyFailure st np idx key status =
      ({ evictRecompute { st with lastApiError := some (failureError st idx key status) } key with
          tasks := updTask (evictRecompute { st with lastApiError := some (failureError st idx key status) } key).tasks idx
            (fun t => { t with status := .failed }) },
       np) := by
  simp [applyFailure, hcls, hge]

/-- C6: (a) whenever a failure is classified with `evictKey`, the failing
key is removed from the pool and every still-pending task's `maxAttempts`
is raised to `max(maxAttempts, attempts + remaining keys)`; (b) across
the per-round task snapshots of any terminating `executeParallel` run
(the initial array included), no task's `maxAttempts` ever decreases. -/
theorem evictKey_budget_recompute_and_monotone :
    (∀ (st : ParState) (np : List Nat) (idx : Nat) (key : String) (status : Nat),
       (classifyError (failureError st idx key status)).removeKey = true →
       (applyFailure st np idx key status).1.pool = st.pool.removeKey key ∧
       (∀ (i : Nat) (t : ParallelTask), st.tasks[i]? = some t → t.status = .pending →
         ∃ t', (applyFailure st np idx key status).1.tasks[i]? = some t' ∧
           t'.maxAttempts = Nat.max t.maxAttempts
             (t.attempts + (st.pool.removeKey key).keyCount))) ∧
    (∀ (oracle : BufferedOracle) (fuel : Nat) (pool : ApiKeyManager)
       (models : List ModelSettings) (messages : ParMessages) (startCalls : Nat)
       (res : Except AllFailed (List ModelResponse)) (st : ParState)
       (snaps : List (List ParallelTask)),
       executeParallel oracle fuel pool models messages startCalls =
         some (res, st, snaps) →
       List.Chain' (fun ts ts' => ∀ (i : Nat) (t t' : ParallelTask),
         ts[i]? = some t → ts'[i]? = some t' → t.maxAttempts ≤ t'.maxAttempts) snaps) := by
  constructor
  · intro st np idx key status hrk
    have hcls := classifyError_removeKey_shape _ hrk
    have hpool2 : (evictRecompute { st with lastApiError := some (failureError st idx key status) } key).pool = st.pool.removeKey key := rfl
    by_cases hlt : (((evictRecompute { st with lastApiError := some (failureError st idx key status) } key).tasks[idx]?.getD defaultTask)).attempts <
      (((evictRecompute { st with lastApiError := some (failureError st idx key status) } key).tasks[idx]?.getD defaultTask)).maxAttempts
    · rw [applyFailure_evict_requeue st np idx key status hcls hlt]
      refine ⟨hpool2, fun i t ht hp => ?_⟩
      refine ⟨_, evictRecompute_pending_budget
        { st with lastApiError := some (failureError st idx key status) } key i t ht hp, ?_⟩
      rfl
    · rw [applyFailure_evict_exhaust st np idx key status hcls hlt]
      dsimp only
      refine ⟨hpool2, fun i t ht hp => ?_⟩
      have hbase := evictRecompute_pending_budget
        { st with lastApiError := some (failureError st idx key status) } key i t ht hp
      by_cases hi : i = idx
      · subst hi
        refine ⟨{ t with status := .failed, maxAttempts := Nat.max t.maxAttempts (t.attempts + (st.pool.removeKey key).keyCount) }, ?_, rfl⟩
        exact updTask_get_eq
          (evictRecompute { st with lastApiError := some (failureError st i key status) } key).tasks
          i (fun u => { u with status := TaskStatus.failed }) _ hbase
      · refine ⟨{ t with maxAttempts := Nat.max t.maxAttempts (t.attempts + (st.pool.removeKey key).keyCount) }, ?_, rfl⟩
        rw [updTask_get_ne _ idx _ i hi]
        exact hbase
  · intro oracle fuel pool models messages startCalls res st snaps hrun
    rw [executeParallel_eq_loop] at hrun
    rcases hloop : parLoop oracle fuel
        ⟨models.map (initTask pool.keyCount messages), pool, startCalls, [], none⟩
        ((List.range (models.map (initTask pool.keyCount messages)).length).filter
          (fun i => ((models.map (initTask pool.keyCount messages)).getD i
            defaultTask).status = .pending)) with _ | ⟨stL, snapsL⟩
    · rw [hloop] at hrun
      exact absurd hrun (by simp)
    · rw [hloop] at hrun
      have hsn : snaps = (models.map (initTask pool.keyCount messages)) :: snapsL := by
        by_cases hv : (collectValid stL.tasks).isEmpty = true
        · have h2 : (some ((Except.error ⟨stL.lastApiError⟩ :
              Except AllFailed (List ModelResponse)), stL,
              (models.map (initTask pool.keyCount messages)) :: snapsL) :
              Option (Except AllFailed (List ModelResponse) × ParState ×
                List (List ParallelTask))) = some (res, st, snaps) := by
            rw [← hrun]
            simp [hv]
          obtain ⟨-, -, h3⟩ :
              (Except.error ⟨stL.lastApiError⟩ : Except AllFailed (List ModelResponse)) = res ∧
              stL = st ∧
              (models.map (initTask pool.keyCount messages)) :: snapsL = snaps := by
            simpa using h2
          exact h3.symm
        · have h2 : (some ((Except.ok (collectValid stL.tasks) :
              Except AllFailed (List ModelResponse)), stL,
              (models.map (initTask pool.keyCount messages)) :: snapsL) :
              Option (Except AllFailed (List ModelResponse) × ParState ×
                List (List ParallelTask))) = some (res, st, snaps) := by
            rw [← hrun]
            simp [hv]
          obtain ⟨-, -, h3⟩ :
              (Except.ok (collectValid stL.tasks) : Except AllFailed (List ModelResponse)) = res ∧
              stL = st ∧
              (models.map (initTask pool.keyCount messages)) :: snapsL = snaps := by
            simpa using h2
          exact h3.symm
      obtain ⟨hch, -⟩ := parLoop_chain oracle tasksEvolve
        (fun s p => runRound_evolve oracle s p) fuel _ _ stL snapsL hloop
      rw [hsn]
      exact List.Chain'.imp
        (fun a b hab i t t' ht ht' => (hab.2 i t t' ht ht').2.2.1) hch

/-- C6 witness: the claim theorem applied to a concrete 401 eviction (the
pending task's budget is recomputed) and to the scenario-W run (its
snapshot chain is budget-monotone). -/
theorem evictKey_budget_recompute_and_monotone_witness :
    ((applyFailure fxStPend [] 0 "kbad" 401).1.pool = fxStPend.pool.removeKey "kbad" ∧
     (∀ (i : Nat) (t : ParallelTask), fxStPend.tasks[i]? = some t → t.status = .pending →
       ∃ t', (applyFailure fxStPend [] 0 "kbad" 401).1.tasks[i]? = some t' ∧
         t'.maxAttempts = Nat.max t.maxAttempts
           (t.attempts + (fxStPend.pool.removeKey "kbad").keyCount))) ∧
    List.Chain' (fun ts ts' => ∀ (i : Nat) (t t' : ParallelTask),
      ts[i]? = some t → ts'[i]? = some t' → t.maxAttempts ≤ t'.maxAttempts)
      [fxTs0W, fxTsR1W, fxStW.tasks] :=
  ⟨evictKey_budget_recompute_and_monotone.1 fxStPend [] 0 "kbad" 401 (by decide),
   evictKey_budget_recompute_and_monotone.2 fxOracleW 5 fxPoolBadOk [fxSpecA, fxSpecB]
     (.shared [fxMsgHi]) 0
     (.ok [⟨"A", "cerebras", "ya", none⟩, ⟨"B", "cerebras", "", none⟩])
     fxStW [fxTs0W, fxTsR1W, fxStW.tasks] fxRunW_eq⟩

/-- C8 counterexample: eleven messages exceed the count threshold, yet
with no summariser model configured `summarizeHistory` passes the
history through with `summaryExecuted = false` — so the pre-step does
not run "if and only if" a threshold is exceeded. -/
theorem summarizeHistory_iff_counterexample :
    fxCtx11None.llmMessages.length > CONVERSATION_THRESHOLD ∧
    summarizeHistory fxOracleHello 3 fxCtx11None 0 =
      some ({ fxCtx11None with summaryExecuted := false, newHistoryContext := none }, 0) ∧
    ({ fxCtx11None with summaryExecuted := false, newHistoryContext := none } :
      AgentContext).summaryExecuted = false :=
  ⟨by decide, rfl, rfl⟩

/-- C8 (amended): the summarisation pre-step can only set
`summaryExecuted` when a summariser model is configured and a threshold
(`len > 10` or `totalContentLength > 30000`) is exceeded; when neither
threshold is exceeded the history passes through unchanged; and when a
model is configured and a threshold is exceeded the outcome follows the
integration call — success replaces the history by the summary plus the
last user message and sets `summaryExecuted`, failure passes the history
through with `summaryExecuted = false`. -/
theorem summarizeHistory_trigger (oracle : StreamOracle) (fuel : Nat) (ctx : AgentContext)
    (startCalls : Nat) (ctx' : AgentContext) (n : Nat)
    (hrun : summarizeHistory oracle fuel ctx startCalls = some (ctx', n)) :
    (ctx'.summaryExecuted = true →
       ctx.summarizerModel.isSome = true ∧
       (ctx.llmMessages.length > CONVERSATION_THRESHOLD ∨
        ctx.totalContentLength > CONTENT_LENGTH_THRESHOLD)) ∧
    ((¬ ctx.llmMessages.length > CONVERSATION_THRESHOLD ∧
      ¬ ctx.totalContentLength > CONTENT_LENGTH_THRESHOLD) →
       ctx' = { ctx with summaryExecuted := false, newHistoryContext := none } ∧
       n = startCalls) ∧
    (∀ sm, ctx.summarizerModel = some sm →
      (ctx.llmMessages.length > CONVERSATION_THRESHOLD ∨
       ctx.totalContentLength > CONTENT_LENGTH_THRESHOLD) →
      ∀ res st, executeIntegration oracle fuel ctx.apiKeyManager
          (summaryPrompt ctx.llmMessages) (summarizerSettings sm) false startCalls =
          some (res, st) →
        ((∃ s, res = .ok s ∧ ctx'.summaryExecuted = true ∧
           ctx'.llmMessages = [⟨"system", "[以前の会話の要約]\n" ++ s⟩,
             ctx.llmMessages.getLastD ⟨"user", ""⟩]) ∨
         (∃ e, res = .error e ∧ ctx'.summaryExecuted = false ∧
           ctx'.llmMessages = ctx.llmMessages))) := by
  unfold summarizeHistory at hrun
  rcases hsm : ctx.summarizerModel with _ | sm
  · rw [hsm] at hrun
    simp only [Option.some.injEq, Prod.mk.injEq] at hrun
    obtain ⟨h1, h2⟩ := hrun
    refine ⟨?_, fun _ => ⟨h1.symm, h2.symm⟩, ?_⟩
    · intro hex
      rw [← h1] at hex
      simp at hex
    · intro sm hsm'
      cases hsm'
  · rw [hsm] at hrun
    dsimp only at hrun
    by_cases hc : ¬ ctx.llmMessages.length > CONVERSATION_THRESHOLD ∧
        ¬ ctx.totalContentLength > CONTENT_LENGTH_THRESHOLD
    · rw [if_pos hc] at hrun
      simp only [Option.some.injEq, Prod.mk.injEq] at hrun
      obtain ⟨h1, h2⟩ := hrun
      refine ⟨?_, fun _ => ⟨h1.symm, h2.symm⟩, ?_⟩
      · intro hex
        rw [← h1] at hex
        simp at hex
      · intro sm' hsm' hthr
        exact absurd hthr (by
          rcases hc with ⟨hca, hcb⟩
          rintro (h | h)
          · exact hca h
          · exact hcb h)
    · rw [if_neg hc] at hrun
      have hthr2 : ctx.llmMessages.length > CONVERSATION_THRESHOLD ∨
          ctx.totalContentLength > CONTENT_LENGTH_THRESHOLD :=
        (not_and_or.mp hc).imp not_not.mp not_not.mp
      rcases hint : executeIntegration oracle fuel ctx.apiKeyManager
          (summaryPrompt ctx.llmMessages) (summarizerSettings sm) false startCalls
        with _ | ⟨res, st⟩
      · rw [hint] at hrun
        exact absurd hrun (by simp)
      · rw [hint] at hrun
        rcases res with e | s
        · simp only [Option.some.injEq, Prod.mk.injEq] at hrun
          obtain ⟨h1, h2⟩ := hrun
          refine ⟨?_, fun hcc => absurd hcc hc, ?_⟩
          · intro hex
            rw [← h1] at hex
            simp at hex
          · intro sm' hsm' hthr res' st' hcall
            obtain rfl : sm = sm' := by simpa using hsm'
            rw [hint] at hcall
            simp only [Option.some.injEq, Prod.mk.injEq] at hcall
            obtain ⟨hr, hs⟩ := hcall
            refine Or.inr ⟨e, hr.symm, ?_, ?_⟩
            · rw [← h1]
            · rw [← h1]
        · simp only [Option.some.injEq, Prod.mk.injEq] at hrun
          obtain ⟨h1, h2⟩ := hrun
          refine ⟨?_, fun hcc => absurd hcc hc, ?_⟩
          · intro _
            exact ⟨rfl, hthr2⟩
          · intro sm' hsm' hthr res' st' hcall
            obtain rfl : sm = sm' := by simpa using hsm'
            rw [hint] at hcall
            simp only [Option.some.injEq, Prod.mk.injEq] at hcall
            obtain ⟨hr, hs⟩ := hcall
            refine Or.inl ⟨s, hr.symm, ?_, ?_⟩
            · rw [← h1]
            · rw [← h1]

/-- The concrete summariser integration call of the C8 scenario: one
attempt, key `"k1"`, buffered success `"hello"`. -/
theorem fxSumCall_eq :
    executeIntegration fxOracleHello 3 fxPool1 (summaryPrompt fxMsgs11)
      (summarizerSettings fxSpecSUM) false 0 =
      some (.ok "hello",
        ⟨⟨["k1"], 0⟩, 1, 3, none, 1, [⟨0, "k1", "SUM", .ok "hello"⟩], [], ""⟩) := by
  decide

/-- C8 witness: the amended theorem applied to the concrete triggering
run over eleven messages with the SUM summariser. -/
theorem summarizeHistory_trigger_witness :
    fxCtxSumOut.summaryExecuted = true ∧
    fxCtxSumOut.llmMessages =
      [⟨"system", "[以前の会話の要約]\nhello"⟩, ⟨"user", "10"⟩] ∧
    (fxCtx11Sum.summarizerModel.isSome = true ∧
     (fxCtx11Sum.llmMessages.length > CONVERSATION_THRESHOLD ∨
      fxCtx11Sum.totalContentLength > CONTENT_LENGTH_THRESHOLD)) := by
  have h := summarizeHistory_trigger fxOracleHello 3 fxCtx11Sum 0 fxCtxSumOut 1 (by decide)
  have h3 := h.2.2 fxSpecSUM rfl (Or.inl (by decide)) (.ok "hello")
    ⟨⟨["k1"], 0⟩, 1, 3, none, 1, [⟨0, "k1", "SUM", .ok "hello"⟩], [], ""⟩ fxSumCall_eq
  rcases h3 with ⟨s, hs, hexec, hmsgs⟩ | ⟨e, he, -⟩
  · obtain rfl : "hello" = s := by simpa using hs
    refine ⟨hexec, by simpa using hmsgs, h.1 hexec⟩
  · cases he

/-- C4 witness: one model, one key, every call failing with HTTP 500 —
the run makes `max(1, 3) = 3` calls and throws all-failed. -/
theorem executeParallel_single_transient_calls_witness :
    ∃ (st : ParState) (snaps : List (List ParallelTask)),
      executeParallel (fun _ => .error 500) 3 fxPool1 [fxSpecA] (.shared [fxMsgHi]) 0 =
        some (.error ⟨st.lastApiError⟩, st, snaps) ∧
      st.callLog.length = Nat.max fxPool1.keyCount 3 ∧
      ∃ t, st.tasks = [t] ∧ t.status = .failed ∧
        t.attempts = Nat.max fxPool1.keyCount 3 :=
  executeParallel_single_transient_calls (fun _ => .error 500) 3 fxPool1 fxSpecA
    (.shared [fxMsgHi]) (fun _ => ⟨500, rfl, by decide⟩) (by decide) (by decide) (by decide)

theorem strJoin_foldl (l : List String) :
    ∀ init : String, l.foldl (fun r s => r ++ s) init = init ++ String.join l := by
  induction l with
  | nil =>
    intro init
    show init = init ++ String.join []
    rw [show String.join ([] : List String) = "" from rfl, String.append_empty]
  | cons x xs ih =>
    intro init
    show xs.foldl (fun r s => r ++ s) (init ++ x) = init ++ String.join (x :: xs)
    rw [ih (init ++ x)]
    have hx : String.join (x :: xs) = x ++ String.join xs := by
      show xs.foldl (fun r s => r ++ s) ("" ++ x) = x ++ String.join xs
      rw [ih ("" ++ x), String.empty_append]
    rw [hx, String.append_assoc]

theorem strJoin_cons (x : String) (xs : List String) :
    String.join (x :: xs) = x ++ String.join xs := by
  show xs.foldl (fun r s => r ++ s) ("" ++ x) = x ++ String.join xs
  rw [strJoin_foldl xs ("" ++ x), String.empty_append]

theorem strJoin_append (a b : List String) :
    String.join (a ++ b) = String.join a ++ String.join b := by
  induction a with
  | nil =>
    rw [List.nil_append, show String.join ([] : List String) = "" from rfl,
      String.empty_append]
  | cons x xs ih =>
    rw [List.cons_append, strJoin_cons, strJoin_cons, ih, String.append_assoc]

theorem dataConcat_append (a b : List Frame) :
    dataConcat (a ++ b) = dataConcat a ++ dataConcat b := by
  unfold dataConcat
  rw [List.filterMap_append, strJoin_append]

theorem dataConcat_cons_data (c : String) (l : List Frame) :
    dataConcat (Frame.data c :: l) = c ++ dataConcat l := by
  unfold dataConcat
  rw [List.filterMap_cons]
  dsimp only
  exact strJoin_cons c _

theorem dataConcat_map_data (cs : List String) :
    dataConcat (cs.map Frame.data) = String.join cs := by
  induction cs with
  | nil => rfl
  | cons c rest ih =>
    rw [List.map_cons, dataConcat_cons_data, ih, strJoin_cons]

theorem dataConcat_status (s : String) : dataConcat [Frame.status s] = "" := rfl

theorem dataConcat_responses (l : List ModelResponse) :
    dataConcat [Frame.responses l] = "" := rfl

theorem dataConcat_summary (l : List CoreMessage) :
    dataConcat [Frame.summary l] = "" := rfl

theorem dataConcat_single_data (c : String) : dataConcat [Frame.data c] = c := rfl

theorem specTable_removeKey_shape (s : Nat)
    (h : (specClassifierTable s).removeKey = true) :
    specClassifierTable s = ⟨true, true, false⟩ := by
  unfold specClassifierTable at h ⊢
  by_cases h1 : s = 401 ∨ s = 403
  · rw [if_pos h1]
  · rw [if_neg h1] at h ⊢
    by_cases h2 : s = 404
    · rw [if_pos h2] at h
      exact absurd h (by decide)
    · rw [if_neg h2] at h ⊢
      by_cases h3 : 400 ≤ s ∧ s < 500 ∧ s ≠ 429
      · rw [if_pos h3] at h
        exact absurd h (by decide)
      · rw [if_neg h3] at h
        exact absurd h (by decide)

theorem integAttempt_fail_evict (oracle : StreamOracle) (streaming : Bool)
    (settings : ModelSettings) (st : IntegState) (s : Nat)
    (hs : (oracle st.calls).err = some s)
    (hk : specClassifierTable s = ⟨true, true, false⟩) :
    integAttempt oracle streaming settings st =
      (none,
       { st with
           attempts := st.attempts + 1
           pool := ((st.pool.getNextKey).2).removeKey (((st.pool.getNextKey).1).getD "")
           maxAttempts := Nat.max st.maxAttempts
             ((st.attempts + 1) +
              (((st.pool.getNextKey).2).removeKey (((st.pool.getNextKey).1).getD "")).keyCount)
           calls := st.calls + 1
           callLog := st.callLog ++
             [⟨0, ((st.pool.getNextKey).1).getD "", settings.modelName,
               toBuffered (oracle st.calls)⟩]
           frames := st.frames ++
             (if streaming then (oracle st.calls).chunks.map Frame.data else [])
           lastApiError := some
             ⟨"", s, ((st.pool.getNextKey).1).getD "", some settings.modelName⟩
           failedEmitted := st.failedEmitted ++
             (if streaming then String.join (oracle st.calls).chunks else "") }) := by
  have hcls : classifyError
      ⟨"", s, ((st.pool.getNextKey).1).getD "", some settings.modelName⟩ =
      specClassifierTable s := classifyError_eq_table _
  simp [integAttempt, hs, hcls, hk]

/-- Streaming invariant of the integration retry loop: on success, the
`DATA` frames on the wire spell the text of the failed attempts followed
by the returned text. -/
theorem integLoop_stream_frames (oracle : StreamOracle) (ms : ModelSettings) :
    ∀ (fuel : Nat) (st : IntegState) (text : String) (st' : IntegState),
      integLoop oracle true ms fuel st = some (some text, st') →
      dataConcat st.frames = st.failedEmitted →
      dataConcat st'.frames = st'.failedEmitted ++ text := by
  intro fuel
  induction fuel with
  | zero =>
    intro st text st' h hinv
    by_cases h1 : st.attempts < st.maxAttempts
    · by_cases h2 : st.pool.keyCount = 0
      · rw [integLoop_exit oracle true ms 0 st (Or.inr h2)] at h
        simp at h
      · have hz : integLoop oracle true ms 0 st = none := by
          unfold integLoop
          rw [if_neg (not_not_intro h1), if_neg h2]
        rw [hz] at h
        cases h
    · rw [integLoop_exit oracle true ms 0 st (Or.inl h1)] at h
      simp at h
  | succ fuel ih =>
    intro st text st' h hinv
    by_cases h1 : st.attempts < st.maxAttempts
    · by_cases h2 : st.pool.keyCount = 0
      · rw [integLoop_exit oracle true ms (fuel + 1) st (Or.inr h2)] at h
        simp at h
      · rw [integLoop_succ oracle true ms fuel st h1 h2] at h
        rcases herr : (oracle st.calls).err with _ | s
        · rw [integAttempt_success oracle true ms st herr] at h
          obtain ⟨ht, hst⟩ : String.join (oracle st.calls).chunks = text ∧
              ({ st with
                   attempts := st.attempts + 1
                   pool := (st.pool.getNextKey).2
                   calls := st.calls + 1
                   callLog := st.callLog ++
                     [⟨0, ((st.pool.getNextKey).1).getD "", ms.modelName,
                       toBuffered (oracle st.calls)⟩]
                   frames := st.frames ++
                     (if true then (oracle st.calls).chunks.map Frame.data else []) } :
                 IntegState) = st' := by
            simpa using h
          rw [← hst, ← ht]
          dsimp only
          rw [if_pos rfl, dataConcat_append, hinv, dataConcat_map_data]
        · by_cases hk : (specClassifierTable s).removeKey = true
          · rw [integAttempt_fail_evict oracle true ms st s herr
              (specTable_removeKey_shape s hk)] at h
            refine ih _ text st' h ?_
            dsimp only
            rw [if_pos rfl, dataConcat_append, hinv, dataConcat_map_data]
            rfl
          · have hk2 : (specClassifierTable s).removeKey = false := by
              cases hb : (specClassifierTable s).removeKey
              · rfl
              · exact absurd hb hk
            rw [integAttempt_fail_noevict oracle true ms st s herr hk2] at h
            refine ih _ text st' h ?_
            dsimp only
            rw [if_pos rfl, dataConcat_append, hinv, dataConcat_map_data]
            rfl
    · rw [integLoop_exit oracle true ms (fuel + 1) st (Or.inl h1)] at h
      simp at h

theorem executeIntegration_stream_frames (oracle : StreamOracle) (fuel : Nat)
    (pool : ApiKeyManager) (msgs : List CoreMessage) (ms : ModelSettings)
    (startCalls : Nat) (text : String) (st : IntegState)
    (h : executeIntegration oracle fuel pool msgs ms true startCalls = some (.ok text, st)) :
    dataConcat st.frames = st.failedEmitted ++ text := by
  unfold executeIntegration at h
  dsimp only at h
  rcases hl : integLoop oracle true ms fuel
      ⟨pool, 0, Nat.max pool.keyCount 3, none, startCalls, [], [], ""⟩ with _ | ⟨ot, stL⟩
  · rw [hl] at h
    cases h
  · rw [hl] at h
    rcases ot with _ | t
    · simp at h
    · obtain ⟨ht, hst⟩ : t = text ∧ stL = st := by simpa using h
      rw [← ht, ← hst]
      exact integLoop_stream_frames oracle ms fuel _ t stL hl rfl

theorem integrateStandard_ok_frames (oracle : StreamOracle) (fuel : Nat)
    (ctx3 : AgentContext) (c2 : Nat) (ctx4 : AgentContext) (fs : List Frame)
    (failedText : String) (c3 : Nat)
    (h : integrateStandard oracle fuel ctx3 c2 = some (.ok ctx4, fs, failedText, c3)) :
    dataConcat fs = failedText ++ ctx4.finalContent ∧
    ctx4.finalContentStreamed = true := by
  unfold integrateStandard at h
  rcases him : ctx3.integratorModel with _ | im
  · rw [him] at h
    simp at h
  · rw [him] at h
    dsimp only at h
    by_cases h0 : ctx3.parallelResponses.length = 0
    · rw [if_pos h0] at h
      simp at h
    · rw [if_neg h0] at h
      by_cases hone : ctx3.parallelResponses.length = 1
      · rw [if_pos hone] at h
        obtain ⟨hc, hfs, hft, -⟩ :
            ({ ctx3 with
                 integratorModel := some im
                 finalContentStreamed := true
                 finalContent := (ctx3.parallelResponses.getD 0 ⟨"", "", "", none⟩).content
                 modelResponses := some ctx3.parallelResponses } : AgentContext) = ctx4 ∧
            [Frame.data (ctx3.parallelResponses.getD 0 ⟨"", "", "", none⟩).content] = fs ∧
            "" = failedText ∧ c2 = c3 := by
          simpa using h
        rw [← hc, ← hfs, ← hft]
        exact ⟨by rw [dataConcat_single_data, String.empty_append], rfl⟩
      · rw [if_neg hone] at h
        rcases hint : executeIntegration oracle fuel ctx3.apiKeyManager
            (integrationPromptStandard ctx3.llmMessages ctx3.parallelResponses)
            (integratorSettings im) true c2 with _ | ⟨res, stI⟩
        · rw [hint] at h
          cases h
        · rw [hint] at h
          rcases res with e | t
          · simp at h
          · obtain ⟨hc, hfs, hft, -⟩ :
                ({ ctx3 with
                     integratorModel := some im
                     apiKeyManager := stI.pool
                     finalContent := t
                     modelResponses := some ctx3.parallelResponses
                     finalContentStreamed := true } : AgentContext) = ctx4 ∧
                stI.frames = fs ∧ stI.failedEmitted = failedText ∧ stI.calls = c3 := by
              simpa using h
            rw [← hc, ← hfs, ← hft]
            exact ⟨executeIntegration_stream_frames oracle fuel ctx3.apiKeyManager _
              (integratorSettings im) c2 t stI hint, rfl⟩

theorem runStandardTail_data (oracle : StreamOracle) (fuel : Nat) (frames1 : List Frame)
    (ctx2 : AgentContext) (c1 : Nat) (r : RunResult) (ctx' : AgentContext)
    (hD1 : dataConcat frames1 = "")
    (hrun : runStandardTail oracle fuel frames1 ctx2 c1 = some r)
    (hok : r.outcome = .ok ctx') :
    dataConcat r.frames = r.failedStreamText ++ ctx'.finalContent := by
  unfold runStandardTail at hrun
  rcases hstep : executeStandardStep oracle fuel ctx2 c1 with _ | ⟨res2, c2⟩
  · rw [hstep] at hrun
    cases hrun
  · rw [hstep] at hrun
    rcases res2 with msg | ctx3
    · obtain hre : (⟨frames1 ++ [Frame.error msg], .error msg, ""⟩ : RunResult) = r := by
        simpa using hrun
      rw [← hre] at hok
      exact absurd hok (by simp)
    · dsimp only at hrun
      rcases hint : integrateStandard oracle fuel ctx3 c2 with _ | ⟨res3, fs, failedText, c3⟩
      · rw [hint] at hrun
        cases hrun
      · rw [hint] at hrun
        rcases res3 with msg | ctx4
        · obtain hre : (⟨(frames1 ++ [Frame.status "INTEGRATE_STANDARD"]) ++ fs ++
              [Frame.error msg], .error msg, failedText⟩ : RunResult) = r := by
            simpa using hrun
          rw [← hre] at hok
          exact absurd hok (by simp)
        · obtain ⟨hfr, hstr⟩ :=
            integrateStandard_ok_frames oracle fuel ctx3 c2 ctx4 fs failedText c3 hint
          have hcond : ¬ (¬ ctx4.finalContentStreamed = true ∧ ctx4.finalContent ≠ "") := by
            rw [hstr]
            simp
          obtain hre : (⟨((frames1 ++ [Frame.status "INTEGRATE_STANDARD"]) ++ fs) ++
              [Frame.responses (ctx4.modelResponses.getD ctx4.parallelResponses)],
              .ok ctx4, failedText⟩ : RunResult) = r := by
            simpa [hstr] using hrun
          rw [← hre] at hok ⊢
          obtain rfl : ctx4 = ctx' := by simpa using hok
          show dataConcat (((frames1 ++ [Frame.status "INTEGRATE_STANDARD"]) ++ fs) ++
              [Frame.responses (ctx4.modelResponses.getD ctx4.parallelResponses)]) =
            failedText ++ ctx4.finalContent
          rw [dataConcat_append, dataConcat_append, dataConcat_append, hD1, hfr,
            dataConcat_status, dataConcat_responses]
          simp

set_option maxHeartbeats 2000000 in
/-- C1 counterexample: in the mid-stream-failure scenario the wire
carries `DATA "par"` (from the failed first integration attempt) and
`DATA "hello"`, so the concatenated `DATA` bodies are `"parhello"`
while `finalContent` is `"hello"`. -/
theorem dataConcat_finalContent_counterexample :
    runStandard fxOracleMidStream 6 fxCtxAB none = some fxRunC1 ∧
    fxRunC1.outcome = .ok fxCtxC1 ∧
    fxCtxC1.finalContent = "hello" ∧
    dataConcat fxRunC1.frames = "parhello" ∧
    ¬ dataConcat fxRunC1.frames = fxCtxC1.finalContent := by
  refine ⟨by decide, rfl, rfl, by decide, by decide⟩

/-- C1 (amended): for every request whose run ends with a final answer,
the concatenated bodies of the `DATA` frames equal the text streamed by
integration attempts that later failed followed by `finalContent`; the
two agree exactly when no streaming attempt failed mid-stream. -/
theorem runStandard_data_frames (oracle : StreamOracle) (fuel : Nat) (ctx0 : AgentContext)
    (sp : Option String) (r : RunResult) (ctx' : AgentContext)
    (hrun : runStandard oracle fuel ctx0 sp = some r)
    (hok : r.outcome = .ok ctx') :
    dataConcat r.frames = r.failedStreamText ++ ctx'.finalContent := by
  unfold runStandard at hrun
  rcases hsum : summarizeHistory oracle fuel ctx0 0 with _ | ⟨ctx1, c1⟩
  · rw [hsum] at hrun
    cases hrun
  · rw [hsum] at hrun
    dsimp only at hrun
    refine runStandardTail_data oracle fuel _ _ c1 r ctx' ?_ hrun hok
    rw [dataConcat_append]
    by_cases hs : ctx1.summaryExecuted = true
    · rw [if_pos hs, dataConcat_summary, dataConcat_status]
      rfl
    · rw [if_neg hs, dataConcat_status]
      rfl

set_option maxHeartbeats 2000000 in
/-- C1 witness: the amended theorem applied to the concrete mid-stream
run — `"parhello" = "par" ++ "hello"`. -/
theorem runStandard_data_frames_witness :
    dataConcat fxRunC1.frames = fxRunC1.failedStreamText ++ fxCtxC1.finalContent :=
  runStandard_data_frames fxOracleMidStream 6 fxCtxAB none fxRunC1 fxCtxC1
    (by decide) rfl

theorem processOne_np (st : ParState) (np : List Nat)
    (r : Nat × String × Except Nat String) :
    processOne st np r = ((processOne st [] r).1, np ++ (processOne st [] r).2) := by
  rcases r with ⟨idx, key, outcome⟩
  cases outcome with
  | ok c => simp [processOne]
  | error s =>
    show applyFailure st np idx key s =
      ((applyFailure st [] idx key s).1, np ++ (applyFailure st [] idx key s).2)
    unfold applyFailure
    simp only
    repeat' split
    all_goals simp

theorem processFold_acc :
    ∀ (recs : List (Nat × String × Except Nat String)) (st : ParState) (acc : List Nat),
      recs.foldl processStep (st, acc) =
        ((recs.foldl processStep (st, [])).1, acc ++ (recs.foldl processStep (st, [])).2)
  | [], st, acc => by simp
  | r :: rest, st, acc => by
    rw [List.foldl_cons, List.foldl_cons]
    show rest.foldl processStep (processOne st acc r) = _
    rw [processOne_np st acc r]
    rw [processFold_acc rest (processOne st [] r).1 (acc ++ (processOne st [] r).2)]
    show ((rest.foldl processStep ((processOne st [] r).1, [])).1,
        (acc ++ (processOne st [] r).2) ++ _) =
      ((rest.foldl processStep (processOne st [] r)).1,
       acc ++ (rest.foldl processStep (processOne st [] r)).2)
    rw [show (processOne st [] r) =
        ((processOne st [] r).1, [] ++ (processOne st [] r).2) by simp]
    rw [processFold_acc rest (processOne st [] r).1 ([] ++ (processOne st [] r).2)]
    simp

theorem launchFold_acc (oracle : BufferedOracle) :
    ∀ (pend : List Nat) (st : ParState)
      (acc : List (Nat × String × Except Nat String)),
      pend.foldl (launchStep oracle) (st, acc) =
        ((pend.foldl (launchStep oracle) (st, [])).1,
         acc ++ (pend.foldl (launchStep oracle) (st, [])).2)
  | [], st, acc => by simp
  | i :: rest, st, acc => by
    rw [List.foldl_cons, List.foldl_cons]
    show rest.foldl (launchStep oracle)
        ((launchOne oracle st i).1, acc ++ [(launchOne oracle st i).2]) = _
    rw [launchFold_acc oracle rest (launchOne oracle st i).1
      (acc ++ [(launchOne oracle st i).2])]
    show _ = ((rest.foldl (launchStep oracle)
        ((launchOne oracle st i).1, [] ++ [(launchOne oracle st i).2])).1,
      acc ++ (rest.foldl (launchStep oracle)
        ((launchOne oracle st i).1, [] ++ [(launchOne oracle st i).2])).2)
    rw [launchFold_acc oracle rest (launchOne oracle st i).1 ([] ++ [(launchOne oracle st i).2])]
    simp

/-- Everything the launch phase of a round does: tasks keep their
status, messages, result and model (only `attempts` grows, by one for
each launched index), the pool keys and `lastApiError` are untouched,
the returned records list the pending indices in order, and the call
log grows by records matching them. -/
theorem launchRound_spec (oracle : BufferedOracle) :
    ∀ (pend : List Nat) (st : ParState),
      (launchRound oracle st pend).1.tasks.length = st.tasks.length ∧
      (launchRound oracle st pend).1.pool.availableKeys = st.pool.availableKeys ∧
      (launchRound oracle st pend).1.lastApiError = st.lastApiError ∧
      ((launchRound oracle st pend).2.map (fun r => r.1)) = pend ∧
      (∃ newLog, (launchRound oracle st pend).1.callLog = st.callLog ++ newLog ∧
        List.Forall₂ (fun (e : CallRec) (r : Nat × String × Except Nat String) =>
          e.taskIdx = r.1 ∧ e.outcome = r.2.2) newLog (launchRound oracle st pend).2) ∧
      (∀ (i : Nat) (t : ParallelTask), st.tasks[i]? = some t →
        ∃ t', (launchRound oracle st pend).1.tasks[i]? = some t' ∧
          t'.status = t.status ∧ t'.messages = t.messages ∧ t'.result = t.result ∧
          t'.modelSettings = t.modelSettings ∧ t.attempts ≤ t'.attempts ∧
          (i ∈ pend → 1 ≤ t'.attempts) ∧ (i ∉ pend → t' = t)) := by
  intro pend
  induction pend with
  | nil =>
    intro st
    refine ⟨rfl, rfl, rfl, rfl, ⟨[], (List.append_nil _).symm, List.Forall₂.nil⟩,
      fun i t ht => ⟨t, ht, rfl, rfl, rfl, rfl, Nat.le_refl _,
        fun hin => absurd hin (List.not_mem_nil i), fun _ => rfl⟩⟩
  | cons j rest ih =>
    intro st
    have hsplit : launchRound oracle st (j :: rest) =
        ((launchRound oracle (launchOne oracle st j).1 rest).1,
         (launchOne oracle st j).2 :: (launchRound oracle (launchOne oracle st j).1 rest).2) := by
      show (j :: rest).foldl (launchStep oracle) (st, []) = _
      rw [List.foldl_cons]
      show rest.foldl (launchStep oracle)
          ((launchOne oracle st j).1, [] ++ [(launchOne oracle st j).2]) = _
      rw [launchFold_acc oracle rest (launchOne oracle st j).1
        ([] ++ [(launchOne oracle st j).2])]
      show ((rest.foldl (launchStep oracle) ((launchOne oracle st j).1, [])).1, _) = _
      rw [show launchRound oracle (launchOne oracle st j).1 rest =
          rest.foldl (launchStep oracle) ((launchOne oracle st j).1, []) from rfl]
      simp
    obtain ⟨ihlen, ihpool, iherr, ihmap, ⟨nl, ihlog, ihfa⟩, ihtasks⟩ :=
      ih (launchOne oracle st j).1
    have hrec1 : (launchOne oracle st j).2.1 = j := rfl
    have hrec3 : (launchOne oracle st j).2.2.2 = oracle st.calls := rfl
    have hlog1 : ∃ e : CallRec, (launchOne oracle st j).1.callLog = st.callLog ++ [e] ∧
        e.taskIdx = j ∧ e.outcome = oracle st.calls := ⟨_, rfl, rfl, rfl⟩
    obtain ⟨e, he, hej, heo⟩ := hlog1
    rw [hsplit]
    refine ⟨?_, ?_, ?_, ?_, ?_, ?_⟩
    · rw [ihlen]
      show (updTask st.tasks j _).length = st.tasks.length
      exact updTask_length st.tasks j _
    · rw [ihpool]
      exact getNextKey_avail st.pool
    · exact iherr
    · show (launchOne oracle st j).2.1 ::
        ((launchRound oracle (launchOne oracle st j).1 rest).2.map (fun r => r.1)) = j :: rest
      rw [hrec1, ihmap]
    · refine ⟨e :: nl, ?_, ?_⟩
      · rw [ihlog, he, List.append_assoc]
        rfl
      · exact List.Forall₂.cons ⟨by rw [hej, hrec1], by rw [heo, hrec3]⟩ ihfa
    · intro i t ht
      by_cases hij : i = j
      · subst hij
        have h1 : (launchOne oracle st i).1.tasks[i]? =
            some { t with attempts := t.attempts + 1 } := by
          show (updTask st.tasks i _)[i]? = _
          exact updTask_get_eq st.tasks i _ t ht
        obtain ⟨t', ht', hst, hmsg, hres, hms, hatt, -, -⟩ :=
          ihtasks i { t with attempts := t.attempts + 1 } h1
        refine ⟨t', ht', hst, hmsg, hres, hms, ?_, ?_, ?_⟩
        · exact Nat.le_trans (Nat.le_succ _) hatt
        · intro _
          exact Nat.le_trans (Nat.le_add_left 1 t.attempts) hatt
        · intro hn
          exact absurd (List.mem_cons_self i rest) hn
      · have h1 : (launchOne oracle st j).1.tasks[i]? = some t := by
          show (updTask st.tasks j _)[i]? = _
          rw [updTask_get_ne st.tasks j _ i hij]
          exact ht
        obtain ⟨t', ht', hst, hmsg, hres, hms, hatt, hin, hout⟩ := ihtasks i t h1
        refine ⟨t', ht', hst, hmsg, hres, hms, hatt, ?_, ?_⟩
        · intro hmem
          rcases List.mem_cons.mp hmem with h | h
          · exact absurd h hij
          · exact hin h
        · intro hn
          exact hout (fun hr => hn (List.mem_cons_of_mem j hr))

theorem classifyError_cases (e : LlmApiError) :
    classifyError e = ⟨true, true, false⟩ ∨ classifyError e = ⟨true, false, true⟩ ∨
    classifyError e = ⟨false, false, false⟩ := by
  unfold classifyError
  by_cases h1 : e.status = 401 ∨ e.status = 403
  · rw [if_pos h1]
    exact Or.inl rfl
  · rw [if_neg h1]
    by_cases h2 : e.status = 404
    · rw [if_pos h2]
      exact Or.inr (Or.inl rfl)
    · rw [if_neg h2]
      by_cases h3 : 400 ≤ e.status ∧ e.status < 500 ∧ e.status ≠ 429
      · rw [if_pos h3]
        exact Or.inr (Or.inl rfl)
      · rw [if_neg h3]
        exact Or.inr (Or.inr rfl)

theorem evictRecompute_task_preserve (st : ParState) (key : String) (i : Nat)
    (t : ParallelTask) (ht : st.tasks[i]? = some t) :
    ∃ t', (evictRecompute st key).tasks[i]? = some t' ∧ t'.status = t.status ∧
      t'.messages = t.messages ∧ t'.result = t.result ∧ t'.attempts = t.attempts ∧
      t'.modelSettings = t.modelSettings := by
  unfold evictRecompute
  show ∃ t', (st.tasks.map _)[i]? = some t' ∧ _
  rw [List.getElem?_map, ht]
  refine ⟨_, rfl, ?_, ?_, ?_, ?_, ?_⟩ <;> by_cases hp : t.status = .pending <;> simp [hp]

/-- Everything one processing step does to the state, relative to the
record `(idx, key, outcome)` it settles. -/
theorem processOne_spec (st : ParState) (idx : Nat) (key : String)
    (outcome : Except Nat String) :
    (processOne st [] (idx, key, outcome)).1.callLog = st.callLog ∧
    (processOne st [] (idx, key, outcome)).1.tasks.length = st.tasks.length ∧
    (∀ i ∈ (processOne st [] (idx, key, outcome)).2, i = idx) ∧
    (processOne st [] (idx, key, outcome)).2.Nodup ∧
    (∀ (i : Nat) (t : ParallelTask), st.tasks[i]? = some t →
      ∃ t', (processOne st [] (idx, key, outcome)).1.tasks[i]? = some t' ∧
        t'.messages = t.messages ∧ t'.attempts = t.attempts ∧
        t'.modelSettings = t.modelSettings ∧
        (¬ i = idx → t'.status = t.status ∧ t'.result = t.result) ∧
        ((∃ c, outcome = .ok c) → i = idx → t'.status = .fulfilled) ∧
        (t'.status = .fulfilled → t.status = .fulfilled ∨
          (i = idx ∧ ∃ c, outcome = .ok c)) ∧
        (i ∈ (processOne st [] (idx, key, outcome)).2 → t'.status = t.status)) := by
  cases outcome with
  | ok c =>
    refine ⟨rfl, ?_, ?_, ?_, ?_⟩
    · show (updTask st.tasks idx _).length = st.tasks.length
      exact updTask_length st.tasks idx _
    · intro i hi
      exact absurd hi (List.not_mem_nil i)
    · exact List.nodup_nil
    · intro i t ht
      by_cases hij : i = idx
      · subst hij
        refine ⟨{ t with status := .fulfilled, result := some { model := t.modelSettings.modelName ++ roleSuffix t.modelSettings, provider := "cerebras", content := c, thought := none } }, ?_, rfl, rfl, rfl, fun hne => absurd rfl hne, fun _ _ => rfl, fun _ => Or.inr ⟨rfl, c, rfl⟩, fun hmem => absurd hmem (List.not_mem_nil i)⟩
        show (updTask st.tasks i _)[i]? = _
        exact updTask_get_eq st.tasks i _ t ht
      · refine ⟨t, ?_, rfl, rfl, rfl, fun _ => ⟨rfl, rfl⟩,
          fun _ hii => absurd hii hij, fun hf => Or.inl hf,
          fun hmem => absurd hmem (List.not_mem_nil i)⟩
        show (updTask st.tasks idx _)[i]? = _
        rw [updTask_get_ne st.tasks idx _ i hij]
        exact ht
  | error s =>
    have hokvac : ∀ (P : Prop), (∃ c : String, (Except.error s :
        Except Nat String) = .ok c) → P := by
      rintro P ⟨c, hc⟩
      cases hc
    have hbase : ∀ (st2 : ParState), st2.callLog = st.callLog →
        st2.tasks.length = st.tasks.length →
        (∀ (i : Nat) (t : ParallelTask), st.tasks[i]? = some t →
          ∃ t', st2.tasks[i]? = some t' ∧ t'.status = t.status ∧
            t'.messages = t.messages ∧ t'.result = t.result ∧ t'.attempts = t.attempts ∧
            t'.modelSettings = t.modelSettings) →
        applyFailure st [] idx key s = ({ st2 with tasks := updTask st2.tasks idx (fun u => { u with status := .failed }) }, []) →
        (applyFailure st [] idx key s).1.callLog = st.callLog ∧
        (applyFailure st [] idx key s).1.tasks.length = st.tasks.length ∧
        (∀ i ∈ (applyFailure st [] idx key s).2, i = idx) ∧
        (applyFailure st [] idx key s).2.Nodup ∧
        (∀ (i : Nat) (t : ParallelTask), st.tasks[i]? = some t →
          ∃ t', (applyFailure st [] idx key s).1.tasks[i]? = some t' ∧
            t'.messages = t.messages ∧ t'.attempts = t.attempts ∧
            t'.modelSettings = t.modelSettings ∧
            (¬ i = idx → t'.status = t.status ∧ t'.result = t.result) ∧
            ((∃ c, (Except.error s : Except Nat String) = .ok c) → i = idx →
              t'.status = .fulfilled) ∧
            (t'.status = .fulfilled → t.status = .fulfilled ∨
              (i = idx ∧ ∃ c, (Except.error s : Except Nat String) = .ok c)) ∧
            (i ∈ (applyFailure st [] idx key s).2 → t'.status = t.status)) := by
      intro st2 hlog hlen htasks heq
      rw [heq]
      refine ⟨hlog, by rw [updTask_length]; exact hlen,
        fun i hi => absurd hi (List.not_mem_nil i), List.nodup_nil, ?_⟩
      intro i t ht
      obtain ⟨u, hu, hust, humsg, hures, huatt, hums⟩ := htasks i t ht
      by_cases hij : i = idx
      · subst hij
        refine ⟨{ u with status := .failed }, ?_, humsg, huatt, hums,
          fun hne => absurd rfl hne, hokvac _, ?_,
          fun hmem => absurd hmem (List.not_mem_nil i)⟩
        · exact updTask_get_eq st2.tasks i _ u hu
        · intro hf
          cases hf
      · refine ⟨u, ?_, humsg, huatt, hums, fun _ => ⟨hust, hures⟩,
          hokvac _, fun hf => Or.inl (by rw [← hust]; exact hf),
          fun hmem => absurd hmem (List.not_mem_nil i)⟩
        rw [updTask_get_ne st2.tasks idx _ i hij]
        exact hu
    have hreq : ∀ (st2 : ParState), st2.callLog = st.callLog →
        st2.tasks.length = st.tasks.length →
        (∀ (i : Nat) (t : ParallelTask), st.tasks[i]? = some t →
          ∃ t', st2.tasks[i]? = some t' ∧ t'.status = t.status ∧
            t'.messages = t.messages ∧ t'.result = t.result ∧ t'.attempts = t.attempts ∧
            t'.modelSettings = t.modelSettings) →
        applyFailure st [] idx key s = (st2, [] ++ [idx]) →
        (applyFailure st [] idx key s).1.callLog = st.callLog ∧
        (applyFailure st [] idx key s).1.tasks.length = st.tasks.length ∧
        (∀ i ∈ (applyFailure st [] idx key s).2, i = idx) ∧
        (applyFailure st [] idx key s).2.Nodup ∧
        (∀ (i : Nat) (t : ParallelTask), st.tasks[i]? = some t →
          ∃ t', (applyFailure st [] idx key s).1.tasks[i]? = some t' ∧
            t'.messages = t.messages ∧ t'.attempts = t.attempts ∧
            t'.modelSettings = t.modelSettings ∧
            (¬ i = idx → t'.status = t.status ∧ t'.result = t.result) ∧
            ((∃ c, (Except.error s : Except Nat String) = .ok c) → i = idx →
              t'.status = .fulfilled) ∧
            (t'.status = .fulfilled → t.status = .fulfilled ∨
              (i = idx ∧ ∃ c, (Except.error s : Except Nat String) = .ok c)) ∧
            (i ∈ (applyFailure st [] idx key s).2 → t'.status = t.status)) := by
      intro st2 hlog hlen htasks heq
      rw [heq]
      refine ⟨hlog, hlen, fun i hi => by simpa using hi, by simp, ?_⟩
      intro i t ht
      obtain ⟨u, hu, hust, humsg, hures, huatt, hums⟩ := htasks i t ht
      exact ⟨u, hu, humsg, huatt, hums, fun _ => ⟨hust, hures⟩, hokvac _,
        fun hf => Or.inl (by rw [← hust]; exact hf), fun _ => hust⟩
    have hpres1 : ∀ (i : Nat) (t : ParallelTask), st.tasks[i]? = some t →
        ∃ t', ({ st with lastApiError := some (failureError st idx key s) } :
            ParState).tasks[i]? = some t' ∧ t'.status = t.status ∧
          t'.messages = t.messages ∧ t'.result = t.result ∧ t'.attempts = t.attempts ∧
          t'.modelSettings = t.modelSettings :=
      fun i t ht => ⟨t, ht, rfl, rfl, rfl, rfl, rfl⟩
    have hpresEv : ∀ (i : Nat) (t : ParallelTask), st.tasks[i]? = some t →
        ∃ t', (evictRecompute { st with lastApiError := some (failureError st idx key s) }
            key).tasks[i]? = some t' ∧ t'.status = t.status ∧
          t'.messages = t.messages ∧ t'.result = t.result ∧ t'.attempts = t.attempts ∧
          t'.modelSettings = t.modelSettings :=
      fun i t ht => evictRecompute_task_preserve _ key i t ht
    have hlenEv : (evictRecompute { st with lastApiError := some (failureError st idx key s) } key).tasks.length = st.tasks.length := by
      unfold evictRecompute
      exact List.length_map _ _
    rcases classifyError_cases (failureError st idx key s) with hcls | hcls | hcls
    · by_cases hlt : (((evictRecompute { st with lastApiError := some (failureError st idx key s) } key).tasks[idx]?.getD defaultTask)).attempts < (((evictRecompute { st with lastApiError := some (failureError st idx key s) } key).tasks[idx]?.getD defaultTask)).maxAttempts
      · exact hreq (evictRecompute { st with lastApiError := some (failureError st idx key s) } key)
          rfl hlenEv hpresEv (applyFailure_evict_requeue st [] idx key s hcls hlt)
      · exact hbase (evictRecompute { st with lastApiError := some (failureError st idx key s) } key)
          rfl hlenEv hpresEv (applyFailure_evict_exhaust st [] idx key s hcls hlt)
    · exact hbase { st with lastApiError := some (failureError st idx key s) }
        rfl rfl hpres1 (applyFailure_dropModel st [] idx key s hcls)
    · by_cases hlt : (st.tasks[idx]?.getD defaultTask).attempts <
          (st.tasks[idx]?.getD defaultTask).maxAttempts
      · exact hreq { st with lastApiError := some (failureError st idx key s) }
          rfl rfl hpres1 (applyFailure_transient st [] idx key s hcls hlt)
      · exact hbase { st with lastApiError := some (failureError st idx key s) }
          rfl rfl hpres1 (applyFailure_exhausted st [] idx key s hcls hlt)

/-- Everything the processing phase of a round does, given that the
settled records carry pairwise-distinct task indices of still-pending
tasks: the requeue list is duplicate-free and drawn from the settled
indices, the call log is untouched, and each task's final status is
governed by its own record (fulfilled exactly on a successful outcome,
requeued tasks still pending). -/
theorem processFold_spec :
    ∀ (recs : List (Nat × String × Except Nat String)) (st : ParState),
      (recs.map (fun r => r.1)).Nodup →
      (∀ r ∈ recs, ∀ u : ParallelTask, st.tasks[r.1]? = some u → u.status = .pending) →
      ((recs.foldl processStep (st, [])).2.Nodup ∧
       (∀ i ∈ (recs.foldl processStep (st, [])).2, i ∈ recs.map (fun r => r.1)) ∧
       (recs.foldl processStep (st, [])).1.callLog = st.callLog ∧
       (recs.foldl processStep (st, [])).1.tasks.length = st.tasks.length ∧
       (∀ (i : Nat) (t : ParallelTask), st.tasks[i]? = some t →
         ∃ t', (recs.foldl processStep (st, [])).1.tasks[i]? = some t' ∧
           t'.messages = t.messages ∧ t'.attempts = t.attempts ∧
           t'.modelSettings = t.modelSettings ∧
           ((∀ r ∈ recs, ¬ r.1 = i) → t'.status = t.status ∧ t'.result = t.result) ∧
           (∀ k c, (i, k, Except.ok c) ∈ recs → t'.status = .fulfilled) ∧
           (t'.status = .fulfilled → t.status = .fulfilled ∨
             ∃ k c, (i, k, Except.ok c) ∈ recs) ∧
           (i ∈ (recs.foldl processStep (st, [])).2 → t'.status = .pending))) := by
  intro recs
  induction recs with
  | nil =>
    intro st _ _
    refine ⟨List.nodup_nil, fun i hi => absurd hi (List.not_mem_nil i), rfl, rfl, ?_⟩
    intro i t ht
    exact ⟨t, ht, rfl, rfl, rfl, fun _ => ⟨rfl, rfl⟩,
      fun k c hmem => absurd hmem (List.not_mem_nil _),
      fun hf => Or.inl hf, fun hmem => absurd hmem (List.not_mem_nil i)⟩
  | cons r rest ih =>
    rcases r with ⟨ridx, rkey, rout⟩
    intro st hnd hpend
    have hndtail : (rest.map (fun r => r.1)).Nodup := (List.nodup_cons.mp hnd).2
    have hridx_notin : ridx ∉ rest.map (fun r => r.1) := (List.nodup_cons.mp hnd).1
    obtain ⟨opLog, opLen, opNp, opNpNd, opTasks⟩ := processOne_spec st ridx rkey rout
    have hsplit : ((ridx, rkey, rout) :: rest).foldl processStep (st, []) =
        ((rest.foldl processStep ((processOne st [] (ridx, rkey, rout)).1, [])).1,
         (processOne st [] (ridx, rkey, rout)).2 ++
           (rest.foldl processStep ((processOne st [] (ridx, rkey, rout)).1, [])).2) := by
      rw [List.foldl_cons]
      show rest.foldl processStep (processOne st [] (ridx, rkey, rout)) = _
      rw [show processOne st [] (ridx, rkey, rout) =
          ((processOne st [] (ridx, rkey, rout)).1,
           [] ++ (processOne st [] (ridx, rkey, rout)).2) by simp]
      rw [processFold_acc rest (processOne st [] (ridx, rkey, rout)).1
        ([] ++ (processOne st [] (ridx, rkey, rout)).2)]
    have hpend1 : ∀ r' ∈ rest, ∀ u : ParallelTask,
        (processOne st [] (ridx, rkey, rout)).1.tasks[r'.1]? = some u →
        u.status = .pending := by
      intro r' hr' u hu
      have hne : ¬ r'.1 = ridx := by
        intro he
        exact hridx_notin (he ▸ List.mem_map.mpr ⟨r', hr', rfl⟩)
      have hlt : r'.1 < st.tasks.length := by
        have h1 := (List.getElem?_eq_some_iff.mp hu).1
        rw [opLen] at h1
        exact h1
      rcases hgx : st.tasks[r'.1]? with _ | t0
      · exfalso
        rw [List.getElem?_eq_none_iff] at hgx
        omega
      · obtain ⟨t1, ht1, -, -, -, hpres, -, -, -⟩ := opTasks r'.1 t0 hgx
        rw [ht1] at hu
        cases hu
        rw [(hpres hne).1]
        exact hpend r' (List.mem_cons_of_mem _ hr') t0 hgx
    obtain ⟨ihNd, ihSub, ihLog, ihLen, ihTasks⟩ :=
      ih (processOne st [] (ridx, rkey, rout)).1 hndtail hpend1
    rw [hsplit]
    refine ⟨?_, ?_, ?_, ?_, ?_⟩
    · refine List.Nodup.append opNpNd ihNd ?_
      intro a ha hamem
      have ha1 : a = ridx := opNp a ha
      have ha2 := ihSub a hamem
      exact hridx_notin (ha1 ▸ ha2)
    · intro i hi
      rcases List.mem_append.mp hi with h | h
      · rw [opNp i h]
        exact List.mem_cons_self _ _
      · exact List.mem_cons_of_mem _ (ihSub i h)
    · rw [ihLog, opLog]
    · rw [ihLen, opLen]
    · intro i t ht
      obtain ⟨t1, ht1, opMsg, opAtt, opMs, opPres, opOk, opFulRev, opNpSt⟩ :=
        opTasks i t ht
      obtain ⟨t', ht', ihMsg, ihAtt, ihMs, ihPres, ihOk, ihFulRev, ihNpSt⟩ :=
        ihTasks i t1 ht1
      have hinotrest : i = ridx → (∀ r' ∈ rest, ¬ r'.1 = i) := by
        intro he r' hr' h1
        exact hridx_notin (by rw [← he, ← h1]; exact List.mem_map.mpr ⟨r', hr', rfl⟩)
      refine ⟨t', ht', by rw [ihMsg, opMsg], by rw [ihAtt, opAtt], by rw [ihMs, opMs],
        ?_, ?_, ?_, ?_⟩
      · intro hnone
        have h1 := opPres (fun he => hnone _ (List.mem_cons_self _ _) he.symm)
        have h2 := ihPres (fun r' hr' => hnone r' (List.mem_cons_of_mem _ hr'))
        exact ⟨by rw [h2.1, h1.1], by rw [h2.2, h1.2]⟩
      · intro k c hmem
        rcases List.mem_cons.mp hmem with h | h
        · obtain ⟨he1, -, he3⟩ : i = ridx ∧ k = rkey ∧ Except.ok c = rout := by
            have h1 : (i, k, (Except.ok c : Except Nat String)) =
                (ridx, rkey, rout) := h
            exact ⟨congrArg (fun p => p.1) h1, congrArg (fun p => p.2.1) h1,
              congrArg (fun p => p.2.2) h1⟩
          have hful1 : t1.status = .fulfilled :=
            opOk ⟨c, he3.symm⟩ he1
          have := (ihPres (hinotrest he1)).1
          rw [this, hful1]
        · exact ihOk k c h
      · intro hful
        rcases ihFulRev hful with h | ⟨k, c, hmem⟩
        · rcases opFulRev h with h2 | ⟨he, c, hc⟩
          · exact Or.inl h2
          · exact Or.inr ⟨rkey, c, by rw [he, hc]; exact List.mem_cons_self _ _⟩
        · exact Or.inr ⟨k, c, List.mem_cons_of_mem _ hmem⟩
      · intro hmem
        rcases List.mem_append.mp hmem with h | h
        · have he : i = ridx := opNp i h
          have h1 := opNpSt h
          have h2 := (ihPres (hinotrest he)).1
          have hpend0 : t.status = .pending := hpend _ (List.mem_cons_self _ _) t (he ▸ ht)
          rw [h2, h1, hpend0]
        · exact ihNpSt h

theorem forall2_mem_left {α β : Type} {R : α → β → Prop} :
    ∀ {l1 : List α} {l2 : List β}, List.Forall₂ R l1 l2 → ∀ a ∈ l1, ∃ b ∈ l2, R a b := by
  intro l1 l2 h
  induction h with
  | nil =>
    intro a ha
    exact absurd ha (List.not_mem_nil a)
  | @cons x y xs ys hR htail ih =>
    intro a ha
    rcases List.mem_cons.mp ha with h | h
    · exact ⟨y, List.mem_cons_self y ys, h ▸ hR⟩
    · obtain ⟨b, hb, hRb⟩ := ih a h
      exact ⟨b, List.mem_cons_of_mem y hb, hRb⟩

theorem c10_round (oracle : BufferedOracle) (st : ParState) (pending : List Nat)
    (hP : c10Inv st pending) :
    c10Inv (runRound oracle st pending).1 (runRound oracle st pending).2 := by
  obtain ⟨hNd, hPend, hLog, hCat, -⟩ := hP
  obtain ⟨lenL, poolL, -, mapL, ⟨nl, logL, faL⟩, tasksL⟩ :=
    launchRound_spec oracle pending st
  have hndrecs : ((launchRound oracle st pending).2.map (fun r => r.1)).Nodup := by
    rw [mapL]
    exact hNd
  have hpendrecs : ∀ r ∈ (launchRound oracle st pending).2, ∀ u : ParallelTask,
      (launchRound oracle st pending).1.tasks[r.1]? = some u → u.status = .pending := by
    intro r hr u hu
    have hmem : r.1 ∈ pending := by
      rw [← mapL]
      exact List.mem_map.mpr ⟨r, hr, rfl⟩
    obtain ⟨t0, ht0, ht0p⟩ := hPend r.1 hmem
    obtain ⟨t1, ht1, h1st, -, -, -, -, -, -⟩ := tasksL r.1 t0 ht0
    rw [ht1] at hu
    cases hu
    rw [h1st, ht0p]
  obtain ⟨pNd, pSub, pLog, pLen, pTasks⟩ :=
    processFold_spec (launchRound oracle st pending).2
      (launchRound oracle st pending).1 hndrecs hpendrecs
  have hchain : ∀ (i : Nat) (t' : ParallelTask),
      ((launchRound oracle st pending).2.foldl processStep
        ((launchRound oracle st pending).1, [])).1.tasks[i]? = some t' →
      ∃ (t0 t1 : ParallelTask), st.tasks[i]? = some t0 ∧
        (launchRound oracle st pending).1.tasks[i]? = some t1 ∧
        t1.status = t0.status ∧ t1.messages = t0.messages ∧
        t0.attempts ≤ t1.attempts ∧
        (i ∈ pending → 1 ≤ t1.attempts) ∧ (i ∉ pending → t1 = t0) ∧
        t'.messages = t1.messages ∧ t'.attempts = t1.attempts ∧
        ((∀ rr ∈ (launchRound oracle st pending).2, ¬ rr.1 = i) →
          t'.status = t1.status ∧ t'.result = t1.result) ∧
        (∀ k c, (i, k, Except.ok c) ∈ (launchRound oracle st pending).2 →
          t'.status = .fulfilled) ∧
        (i ∈ ((launchRound oracle st pending).2.foldl processStep
          ((launchRound oracle st pending).1, [])).2 → t'.status = .pending) := by
    intro i t' ht'
    have hlt : i < st.tasks.length := by
      have h0 := (List.getElem?_eq_some_iff.mp ht').1
      rw [pLen, lenL] at h0
      exact h0
    rcases hg : st.tasks[i]? with _ | t0
    · exfalso
      rw [List.getElem?_eq_none_iff] at hg
      omega
    · obtain ⟨t1, ht1, h1st, h1msg, -, -, h1att, h1launch, h1unl⟩ := tasksL i t0 hg
      obtain ⟨u, hu, pMsg, pAtt, -, pPres, pOk, -, pNpSt⟩ := pTasks i t1 ht1
      rw [hu] at ht'
      cases ht'
      exact ⟨t0, t1, rfl, ht1, h1st, h1msg, h1att, h1launch, h1unl,
        pMsg, pAtt, pPres, pOk, pNpSt⟩
  have hnotpending : ∀ (i : Nat) (t0 : ParallelTask), st.tasks[i]? = some t0 →
      ¬ t0.status = .pending → i ∉ pending := by
    intro i t0 hg hnp hip
    obtain ⟨tx, htx, htxp⟩ := hPend i hip
    rw [hg] at htx
    cases htx
    exact hnp htxp
  have hnorec : ∀ (i : Nat), i ∉ pending →
      ∀ rr ∈ (launchRound oracle st pending).2, ¬ rr.1 = i := by
    intro i hnp rr hrr he
    exact hnp (by rw [← he, ← mapL]; exact List.mem_map.mpr ⟨rr, hrr, rfl⟩)
  unfold c10Inv
  unfold runRound
  refine ⟨pNd, ?_, ?_, ?_, Or.inr ?_⟩
  · intro i hi
    have hip : i ∈ pending := by
      rw [← mapL]
      exact pSub i hi
    obtain ⟨t0, ht0, -⟩ := hPend i hip
    obtain ⟨t1, ht1, -, -, -, -, -, -, -⟩ := tasksL i t0 ht0
    obtain ⟨u, hu, -, -, -, -, -, -, pNpSt⟩ := pTasks i t1 ht1
    exact ⟨u, hu, pNpSt hi⟩
  · intro i t' ht' hnf r hr hri
    obtain ⟨t0, t1, hg, ht1, h1st, -, -, -, h1unl, -, -, pPres, pOk, -⟩ :=
      hchain i t' ht'
    rw [pLog, logL] at hr
    rcases List.mem_append.mp hr with hro | hrn
    · have ht0nf : ¬ t0.status = .fulfilled := by
        intro hful
        have hnp : i ∉ pending :=
          hnotpending i t0 hg (by rw [hful]; intro hx; cases hx)
        have h10 : t1 = t0 := h1unl hnp
        have := (pPres (hnorec i hnp)).1
        exact hnf (by rw [this, h10, hful])
      exact hLog i t0 hg ht0nf r hro hri
    · obtain ⟨⟨a, b, o⟩, hrec, hRtask, hRout⟩ := forall2_mem_left faL r hrn
      have ha : a = i := by
        have h1 : r.taskIdx = a := hRtask
        rw [hri] at h1
        exact h1.symm
      rcases o with s | c
      · exact ⟨s, by rw [hRout]⟩
      · exfalso
        subst ha
        exact hnf (pOk b c hrec)
  · intro i t' ht'
    obtain ⟨t0, t1, hg, ht1, h1st, h1msg, h1att, h1launch, h1unl, pMsg, pAtt,
      pPres, -, -⟩ := hchain i t' ht'
    rcases hCat i t0 hg with ⟨hm, hs, ha⟩ | hatt | ⟨-, hip⟩
    · have hnp : i ∉ pending :=
        hnotpending i t0 hg (by rw [hs]; intro hx; cases hx)
      have h10 : t1 = t0 := h1unl hnp
      left
      refine ⟨by rw [pMsg, h1msg, hm], ?_, by rw [pAtt, h10, ha]⟩
      rw [(pPres (hnorec i hnp)).1, h10, hs]
    · right
      left
      rw [pAtt]
      omega
    · right
      left
      rw [pAtt]
      exact h1launch hip
  · intro i hi t' ht'
    have hip : i ∈ pending := by
      rw [← mapL]
      exact pSub i hi
    obtain ⟨t0, t1, hg, ht1, -, -, -, h1launch, -, -, pAtt, -, -, -⟩ :=
      hchain i t' ht'
    rw [pAtt]
    exact h1launch hip

theorem c10Inv_init (pool : ApiKeyManager) (models : List ModelSettings)
    (messages : ParMessages) (startCalls : Nat) (hpool : 0 < pool.keyCount) :
    c10Inv ⟨models.map (initTask pool.keyCount messages), pool, startCalls, [], none⟩
      ((List.range (models.map (initTask pool.keyCount messages)).length).filter
        (fun i => ((models.map (initTask pool.keyCount messages)).getD i
          defaultTask).status = .pending)) := by
  refine ⟨?_, ?_, ?_, ?_, Or.inl hpool⟩
  · exact (List.nodup_range _).filter _
  · intro i hi
    obtain ⟨hir, hcond⟩ := List.mem_filter.mp hi
    have hc2 : (((models.map (initTask pool.keyCount messages)).getD i
        defaultTask)).status = .pending := of_decide_eq_true hcond
    have hlt : i < (models.map (initTask pool.keyCount messages)).length :=
      List.mem_range.mp hir
    rcases hg : (models.map (initTask pool.keyCount messages))[i]? with _ | t
    · rw [List.getElem?_eq_none_iff] at hg
      omega
    · refine ⟨t, rfl, ?_⟩
      rw [List.getD_eq_getElem?_getD, hg] at hc2
      exact hc2
  · intro i t hg hnf r hr
    exact absurd hr (List.not_mem_nil r)
  · intro i t hg
    rcases hm : models[i]? with _ | m
    · rw [List.getElem?_map, hm] at hg
      cases hg
    · rw [List.getElem?_map, hm] at hg
      cases hg
      by_cases hempty : (lookupMessages messages m).length = 0
      · left
        have he : initTask pool.keyCount messages m =
            ⟨m, [], .failed, none, 0, 0⟩ := by
          unfold initTask
          rw [if_pos hempty]
        rw [he]
        exact ⟨rfl, rfl, rfl⟩
      · right
        right
        have he : initTask pool.keyCount messages m =
            ⟨m, lookupMessages messages m, .pending, none, 0,
             Nat.max pool.keyCount 3⟩ := by
          unfold initTask
          rw [if_neg hempty]
        refine ⟨by rw [he], List.mem_filter.mpr ⟨List.mem_range.mpr ?_, ?_⟩⟩
        · rw [List.length_map]
          exact (List.getElem?_eq_some_iff.mp hm).1
        · apply decide_eq_true
          rw [List.getD_eq_getElem?_getD, List.getElem?_map, hm]
          show ((some (initTask pool.keyCount messages m)).getD defaultTask).status = _
          rw [Option.getD_some, he]

/-- C10 (amended): a call that completes without throwing marks its task
fulfilled with the returned content — even the empty string — so a
successful empty reply appears in the result and prevents the all-failed
error (which requires every task non-fulfilled); and provided the key
pool is non-empty on entry, the all-failed error only arises when every
task either was pre-marked failed for empty messages or made at least
one attempt, all of whose recorded calls threw.  (With an already-empty
entry pool the error can also hit tasks that never attempted.) -/
theorem executeParallel_empty_content_and_allfailed :
    (∀ (st : ParState) (np : List Nat) (i : Nat) (k c : String),
       processOne st np (i, k, .ok c) =
         ({ st with tasks := updTask st.tasks i (fun t =>
             { t with
                 status := .fulfilled
                 result := some
                   { model := t.modelSettings.modelName ++ roleSuffix t.modelSettings,
                     provider := "cerebras", content := c } }) }, np)) ∧
    (∀ (oracle : BufferedOracle) (fuel : Nat) (pool : ApiKeyManager)
       (models : List ModelSettings) (messages : ParMessages) (startCalls : Nat)
       (e : AllFailed) (st : ParState) (snaps : List (List ParallelTask)),
       executeParallel oracle fuel pool models messages startCalls =
         some (.error e, st, snaps) →
       (∀ t ∈ st.tasks, ¬ t.status = .fulfilled) ∧
       (0 < pool.keyCount →
         ∀ (i : Nat) (t : ParallelTask), st.tasks[i]? = some t →
           (t.messages = [] ∧ t.status = .failed ∧ t.attempts = 0) ∨
           (1 ≤ t.attempts ∧
            ∀ r ∈ st.callLog, r.taskIdx = i → ∃ s, r.outcome = .error s))) := by
  constructor
  · intro st np i k c
    rfl
  · intro oracle fuel pool models messages startCalls e st snaps hrun
    rw [executeParallel_eq_loop] at hrun
    rcases hloop : parLoop oracle fuel
        ⟨models.map (initTask pool.keyCount messages), pool, startCalls, [], none⟩
        ((List.range (models.map (initTask pool.keyCount messages)).length).filter
          (fun i => ((models.map (initTask pool.keyCount messages)).getD i
            defaultTask).status = .pending)) with _ | ⟨stL, snapsL⟩
    · rw [hloop] at hrun
      exact absurd hrun (by simp)
    · rw [hloop] at hrun
      by_cases hv : (collectValid stL.tasks).isEmpty = true
      · obtain ⟨-, hst, -⟩ :
            (AllFailed.mk stL.lastApiError = e) ∧ stL = st ∧
            (models.map (initTask pool.keyCount messages)) :: snapsL = snaps := by
          simpa [hv] using hrun
        subst hst
        have hres : resOkTasks stL.tasks := by
          obtain ⟨-, hP, -⟩ := parLoop_inv oracle (fun s _ => resOkTasks s.tasks)
            (fun s p _ _ h => runRound_resOk oracle s p h) fuel _ _ stL snapsL
            (initTasks_resOk pool.keyCount messages models) hloop
          exact hP
        have hall : ∀ t ∈ stL.tasks, ¬ t.status = .fulfilled := by
          intro t hmem hful
          have hnil : collectValid stL.tasks = [] := List.isEmpty_iff.mp hv
          have hnone := List.filterMap_eq_nil_iff.mp hnil t hmem
          rw [if_pos hful] at hnone
          obtain ⟨i, hi⟩ := List.mem_iff_getElem?.mp hmem
          have h2 := hres i t hi hful
          rw [hnone] at h2
          cases h2
        refine ⟨hall, ?_⟩
        intro hpool i t ht
        obtain ⟨pend', hinv, hexit⟩ := parLoop_inv oracle c10Inv
          (fun s p _ _ h => c10_round oracle s p h) fuel _ _ stL snapsL
          (c10Inv_init pool models messages startCalls hpool) hloop
        obtain ⟨-, -, hLogInv, hCatInv, hFive⟩ := hinv
        have hnf : ¬ t.status = .fulfilled :=
          hall t (List.mem_iff_getElem?.mpr ⟨i, ht⟩)
        rcases hCatInv i t ht with h | h | ⟨-, hip⟩
        · exact Or.inl h
        · exact Or.inr ⟨h, hLogInv i t ht hnf⟩
        · rcases hexit with hemp | hkey
          · exfalso
            rw [List.isEmpty_iff.mp hemp] at hip
            exact absurd hip (List.not_mem_nil i)
          · rcases hFive with hpos | hatt
            · rw [hkey] at hpos
              exact absurd hpos (by omega)
            · exact Or.inr ⟨hatt i hip t ht, hLogInv i t ht hnf⟩
      · exfalso
        simp [hv] at hrun

/-- C10 counterexample (to the unconditional reading): entering
`executeParallel` with an already-exhausted key pool throws the
all-failed error while the sole task is still pending with zero
attempts, non-empty messages and no recorded call — it neither threw
nor was pre-marked failed. -/
theorem allfailed_without_throw_counterexample :
    executeParallel (fun _ => .ok "unused") 3 fxPoolEmpty [fxSpecA] (.shared [fxMsgHi]) 0 =
      some (.error ⟨none⟩,
        ⟨[⟨fxSpecA, [fxMsgHi], .pending, none, 0, 3⟩], fxPoolEmpty, 0, [], none⟩,
        [[⟨fxSpecA, [fxMsgHi], .pending, none, 0, 3⟩]]) ∧
    (⟨fxSpecA, [fxMsgHi], .pending, none, 0, 3⟩ : ParallelTask).status = .pending ∧
    (⟨fxSpecA, [fxMsgHi], .pending, none, 0, 3⟩ : ParallelTask).attempts = 0 ∧
    ¬ (⟨fxSpecA, [fxMsgHi], .pending, none, 0, 3⟩ : ParallelTask).messages = [] := by
  refine ⟨by decide, rfl, rfl, by decide⟩

/-- C10 witness: the fulfilled-on-empty equation at a concrete state,
and the amended all-failed characterisation on a concrete 404 run. -/
theorem executeParallel_empty_content_and_allfailed_witness :
    (processOne fxStPend [] (0, "k1", .ok "") =
       ({ fxStPend with tasks := updTask fxStPend.tasks 0 (fun t =>
           { t with
               status := .fulfilled
               result := some
                 { model := t.modelSettings.modelName ++ roleSuffix t.modelSettings,
                   provider := "cerebras", content := "" } }) }, [])) ∧
    ((∀ t ∈ fxStX.tasks, ¬ t.status = .fulfilled) ∧
     (0 < fxPool1.keyCount →
       ∀ (i : Nat) (t : ParallelTask), fxStX.tasks[i]? = some t →
         (t.messages = [] ∧ t.status = .failed ∧ t.attempts = 0) ∨
         (1 ≤ t.attempts ∧
          ∀ r ∈ fxStX.callLog, r.taskIdx = i → ∃ s, r.outcome = .error s))) :=
  ⟨executeParallel_empty_content_and_allfailed.1 fxStPend [] 0 "k1" "",
   executeParallel_empty_content_and_allfailed.2 (fun _ => .error 404) 3 fxPool1
     [fxSpecA] (.shared [fxMsgHi]) 0 ⟨some ⟨"", 404, "k1", some "A"⟩⟩ fxStX
     [fxTs0X, fxStX.tasks] (by decide)⟩

end Orchestration
